import Mathlib

/-!
# sound_functions_RTTTL: the melody-notation parser and the playback controllers

Shallow embedding of `parseRTTTL` (src/src/sound_fun_rtttl.h, lines 187-294) and of the
C library routines it calls, then of the playback controllers (lines 304-658), followed by
the properties proved about them.

Conventions of the embedding.

* A `char` is a natural number (its code); a C string is the list of its bytes, read up to
  the first NUL byte.
* A pointer into a buffer is the list of the buffer's cells from the pointed cell to the end
  of the buffer, so `*p` is the head, `p + k` is `p.drop k`, and the empty list is the
  address one past the buffer.
* Behaviour the C++ standard leaves undefined is an explicit `Fault`.
* `round(base * pow(2, octave - 4))` is taken at its exact real value (`pow` exact on the
  powers of two), halves rounded away from zero as `round` does, and the conversion to
  `uint32_t` is taken to keep that value.
* `atoi` is given the mathematical value of the digits it reads. That is what the routine
  returns whenever the value fits `int`; for a longer run the C standard leaves the result
  undefined. The claims that state a value the parser stores are therefore restricted to
  written values in the range of the local they are assigned to (at most 255, or 65535 for
  the tempo), where `atoi` is exact and the narrowing to `uint8_t` or `uint16_t` keeps the
  value.
* Values of the enumerations `ToneFrequency` and `ToneDuration` are natural numbers.
-/

namespace RTTTL

/-! ## Constants -/

/-- Lower bound of the accepted frequencies, `#define MIN_FREQUENCY 31`. -/
def MIN_FREQUENCY : Nat := 31

/-- Upper bound of the accepted frequencies, `#define MAX_FREQUENCY 65535`. -/
def MAX_FREQUENCY : Nat := 65535

/-- Capacity of the scratch arrays, `#define MAX_RTTTL_NOTES 100`. -/
def MAX_RTTTL_NOTES : Nat := 100

/-- Enumerator `PAUSE = 0` of `ToneFrequency`: the silence sentinel. -/
def PAUSE : Nat := 0

/-- Largest `uint16_t`. -/
def UINT16_MAX : Nat := 65535

/-- Bytes of a string literal, as the C compiler stores them (without the final NUL). -/
def cstr (s : String) : List Nat := s.toList.map Char.toNat

/-! ## Undefined behaviour -/

/-- What the C++ standard leaves undefined in `parseRTTTL`. -/
inductive Fault where
  /-- An integer division whose divisor is zero. -/
  | divByZero
  /-- A write past the 32 cells of `settingsCopy`. -/
  | bufferOverflow
  /-- A read outside the initialised cells of `rtttlCopy` or `settingsCopy`. -/
  | outOfBounds
  /-- The tokenising loop used up its step budget (shown below never to happen). -/
  | fuel
  deriving DecidableEq, Repr

/-! ## C library routines -/

/-- Test of `<ctype.h>`: `'0'` (48) to `'9'` (57). -/
def isdigit (c : Nat) : Bool := decide (48 ≤ c) && decide (c ≤ 57)

/-- Test of `<ctype.h>`: space, and `'\t'` (9) to `'\r'` (13). -/
def isspace (c : Nat) : Bool := decide (c = 32) || (decide (9 ≤ c) && decide (c ≤ 13))

/-- Mapping of `<ctype.h>`: `'A'..'Z'` (65..90) to `'a'..'z'`, other codes unchanged. -/
def tolower (c : Nat) : Nat := if 65 ≤ c ∧ c ≤ 90 then c + 32 else c

/-- Digit run of `atoi`: accumulates decimal digits until the first other byte. -/
def atoiDigits : List Nat → Nat → Nat
  | [], acc => acc
  | c :: rest, acc => if isdigit c then atoiDigits rest (acc * 10 + (c - 48)) else acc

/-- The routine `atoi`: skips white space, takes an optional sign, then the digit run.
The value is the mathematical one, which is what `atoi` returns whenever it fits `int`; for a
run whose value does not fit, the C standard leaves the result undefined, and the claims that
state a stored value are restricted to runs of at most 65535 in value. The callers below
narrow the value to `uint8_t` or `uint16_t`. -/
def atoi (s : List Nat) : Int :=
  match s.dropWhile isspace with
  | [] => 0
  | c :: rest =>
    if c = 45 then - (atoiDigits rest 0 : Int)
    else if c = 43 then (atoiDigits rest 0 : Int)
    else (atoiDigits (c :: rest) 0 : Int)

/-- Conversion of an `int` to `uint8_t`. -/
def toUInt8 (v : Int) : Nat := (v % 256).toNat

/-- Conversion of an `int` to `uint16_t`. -/
def toUInt16 (v : Int) : Nat := (v % 65536).toNat

/-- The routine `strncpy(dst, src, n)`: the `n` cells written to `dst`, namely the bytes of
`src` before its NUL, at most `n` of them, padded with NUL up to `n` cells. -/
def strncpy (src : List Nat) (n : Nat) : List Nat :=
  let s := (src.takeWhile (fun c => c ≠ 0)).take n
  s ++ List.replicate (n - s.length) 0

/-- The routine `strncpy_P`: `strncpy` with the source in program memory. -/
def strncpy_P (src : List Nat) (n : Nat) : List Nat := strncpy src n

/-- The routine `strchr(p, ch)`: pointer to the first `ch` before the terminating NUL, or
the null pointer (`none`). -/
def strchr : List Nat → Nat → Option (List Nat)
  | [], _ => none
  | c :: rest, ch =>
    if c = ch then some (c :: rest) else if c = 0 then none else strchr rest ch

/-- One call of `strtok(..., ",")` with the saved position `p`: skips leading commas; at the
NUL there is no token; otherwise the token runs to the next comma or NUL, a comma that ends it
is overwritten with NUL, and the saved position moves past it. Returns the token pointer (as
the buffer reads after the write) and the new saved position. -/
def strtok (p : List Nat) : Option (List Nat × List Nat) :=
  match p.dropWhile (fun c => c = 44) with
  | [] => none
  | c :: s =>
    if c = 0 then none
    else
      let len := ((c :: s).takeWhile (fun x => x ≠ 44 ∧ x ≠ 0)).length
      match (c :: s).drop len with
      | [] => some (c :: s, [])
      | e :: after => if e = 44 then some ((c :: s).set len 0, after) else some (c :: s, e :: after)

/-! ## parseRTTTL -/

/-- The three locals the header sets: `defaultDuration`, `defaultOctave` (`uint8_t`) and
`bpm` (`uint16_t`). -/
structure Settings where
  defaultDuration : Nat
  defaultOctave : Nat
  bpm : Nat
  deriving DecidableEq, Repr

/-- Body of `while (token)` (lines 221-223) for one token: the first byte selects the local,
`atoi(token + 2)` gives its value. `token + 2` is read even when the token is one byte long;
it then lies behind the NUL that ends the token, and outside the initialised cells when that
NUL is the last cell written. -/
def applyToken (token : List Nat) (st : Settings) : Except Fault Settings :=
  match token with
  | [] => .error .outOfBounds
  | t0 :: _ =>
    if t0 = 100 then
      match token.drop 2 with
      | [] => .error .outOfBounds
      | arg => .ok { st with defaultDuration := toUInt8 (atoi arg) }
    else if t0 = 111 then
      match token.drop 2 with
      | [] => .error .outOfBounds
      | arg => .ok { st with defaultOctave := toUInt8 (atoi arg) }
    else if t0 = 98 then
      match token.drop 2 with
      | [] => .error .outOfBounds
      | arg => .ok { st with bpm := toUInt16 (atoi arg) }
    else .ok st

/-- Lines 219-225: the `strtok` loop over `settingsCopy`, `p` being the saved position. -/
def parseSettings : Nat → List Nat → Settings → Except Fault Settings
  | 0, _, _ => .error .fuel
  | fuel + 1, p, st =>
    match strtok p with
    | none => .ok st
    | some (token, save) =>
      match applyToken token st with
      | .error e => .error e
      | .ok st1 => parseSettings fuel save st1

/-- What lines 231-253 read from one note: the duration, the lower-cased letter, the sharp
flag, the octave, the dot flag, and the pointer after the note. -/
structure Scan where
  duration : Nat
  note : Nat
  isSharp : Bool
  octave : Nat
  isDotted : Bool
  ptr : List Nat
  deriving DecidableEq, Repr

/-- Lines 250-253: the optional dot. -/
def scanDot (duration note : Nat) (isSharp : Bool) (octave : Nat) (p : List Nat) :
    Except Fault Scan :=
  match p with
  | [] => .error .outOfBounds
  | c :: rest =>
    if c = 46 then .ok ⟨duration, note, isSharp, octave, true, rest⟩
    else .ok ⟨duration, note, isSharp, octave, false, c :: rest⟩

/-- Lines 243-248: the optional octave digit. -/
def scanOctave (duration note : Nat) (isSharp : Bool) (defaultOctave : Nat) (p : List Nat) :
    Except Fault Scan :=
  match p with
  | [] => .error .outOfBounds
  | c :: rest =>
    if isdigit c then scanDot duration note isSharp (c - 48) rest
    else scanDot duration note isSharp defaultOctave (c :: rest)

/-- Lines 240-241: the optional sharp sign. -/
def scanSharp (duration note defaultOctave : Nat) (p : List Nat) : Except Fault Scan :=
  match p with
  | [] => .error .outOfBounds
  | c :: rest =>
    if c = 35 then scanOctave duration note true defaultOctave rest
    else scanOctave duration note false defaultOctave (c :: rest)

/-- Line 239: `char note = tolower(*ptr++)`. -/
def scanLetter (duration defaultOctave : Nat) (p : List Nat) : Except Fault Scan :=
  match p with
  | [] => .error .outOfBounds
  | c :: rest => scanSharp duration (tolower c) defaultOctave rest

/-- Lines 231-253: skip commas, read the optional duration digits, then the letter and what
follows it. -/
def scanNote (defaultDuration defaultOctave : Nat) (ptr : List Nat) : Except Fault Scan :=
  match ptr.dropWhile (fun c => c = 44) with
  | [] => .error .outOfBounds
  | c :: rest =>
    if isdigit c then
      scanLetter (toUInt8 (atoi (c :: rest))) defaultOctave ((c :: rest).dropWhile isdigit)
    else scanLetter defaultDuration defaultOctave (c :: rest)

/-- The table `baseFrequencies` of line 257. -/
def baseFrequencies : List Nat := [262, 277, 294, 311, 330, 349, 370, 392, 415, 440, 466, 494]

/-- The `switch (note)` of lines 259-267. -/
def noteIndexOf (note : Nat) : Int :=
  if note = 99 then 0
  else if note = 100 then 2
  else if note = 101 then 4
  else if note = 102 then 5
  else if note = 103 then 7
  else if note = 97 then 9
  else if note = 98 then 11
  else -1

/-- Exact value of `round(base * pow(2, octave - 4))`. -/
def roundScaled (base octave : Nat) : Nat :=
  if 4 ≤ octave then base * 2 ^ (octave - 4)
  else (2 * base + 2 ^ (4 - octave)) / (2 * 2 ^ (4 - octave))

/-- Lines 255-275: the frequency of a note. -/
def noteFrequency (note : Nat) (isSharp : Bool) (octave : Nat) : Nat :=
  if note ≠ 112 then
    let noteIndex := noteIndexOf note
    let noteIndex := if isSharp ∧ noteIndex ≥ 0 then noteIndex + 1 else noteIndex
    if noteIndex ≥ 0 ∧ noteIndex < 12 then
      let rawFreq := roundScaled (baseFrequencies.getD noteIndex.toNat 0) octave
      if rawFreq ≥ MIN_FREQUENCY ∧ rawFreq ≤ MAX_FREQUENCY then rawFreq else PAUSE
    else PAUSE
  else PAUSE

/-- Lines 277-279: the duration of a note in `uint32_t` arithmetic. -/
def noteDuration (quarterNoteDuration duration : Nat) (isDotted : Bool) : Except Fault Nat :=
  if duration = 0 then .error .divByZero
  else
    let noteDuration := (quarterNoteDuration * 4 % 4294967296) / duration
    let noteDuration :=
      if isDotted then (noteDuration + noteDuration / 2) % 4294967296 else noteDuration
    .ok (if noteDuration > UINT16_MAX then UINT16_MAX else noteDuration)

/-- Lines 231-283: one turn of the note loop; the note stored and the pointer after it. -/
def parseNote (quarterNoteDuration defaultDuration defaultOctave : Nat) (ptr : List Nat) :
    Except Fault ((Nat × Nat) × List Nat) :=
  match scanNote defaultDuration defaultOctave ptr with
  | .error e => .error e
  | .ok sc =>
    match noteDuration quarterNoteDuration sc.duration sc.isDotted with
    | .error e => .error e
    | .ok d => .ok ((noteFrequency sc.note sc.isSharp sc.octave, d), sc.ptr)

/-- Lines 230-284: the note loop. `room` is `MAX_RTTTL_NOTES - noteCount`; the result is the
list of the notes stored from this turn on, in the order stored. -/
def parseNotes : Nat → Nat → Nat → Nat → List Nat → Except Fault (List (Nat × Nat))
  | room, q, dd, dOct, ptr =>
    match ptr with
    | [] => .error .outOfBounds
    | c :: rest =>
      if c = 0 then .ok []
      else
        match room with
        | 0 => .ok []
        | room1 + 1 =>
          match parseNote q dd dOct (c :: rest) with
          | .error e => .error e
          | .ok (n, ptr1) =>
            match parseNotes room1 q dd dOct ptr1 with
            | .error e => .error e
            | .ok ns => .ok (n :: ns)

/-- The return value of `parseRTTTL` together with its three reference parameters after the
call; an array pointer is `none` when null, else the array it points to. -/
structure ParseResult where
  ret : Bool
  melody : Option (List Nat)
  durations : Option (List Nat)
  length : Nat
  deriving DecidableEq, Repr

/-- Lines 212-293: from the header on, `settings` and `notes` being the two pointers into
`rtttlCopy` computed by lines 205-210. -/
def parseBody (settings notes : List Nat) : Except Fault ParseResult :=
  let n := settings.length - notes.length - 1
  if 32 ≤ n then .error .bufferOverflow
  else
    let settingsCopy := strncpy settings n ++ [0]
    match parseSettings settingsCopy.length settingsCopy ⟨4, 6, 120⟩ with
    | .error e => .error e
    | .ok st =>
      if st.bpm = 0 then .error .divByZero
      else
        let quarterNoteDuration := 60000 / st.bpm
        match parseNotes MAX_RTTTL_NOTES quarterNoteDuration st.defaultDuration
            st.defaultOctave notes with
        | .error e => .error e
        | .ok ns => .ok ⟨true, some (ns.map Prod.fst), some (ns.map Prod.snd), ns.length⟩

/-- The function `parseRTTTL` (lines 187-294). `rtttl` is `none` for the null pointer;
`melody`, `durations` and `length` are the values of the reference parameters at the call. -/
def parseRTTTL (rtttl : Option (List Nat)) (melody durations : Option (List Nat))
    (length : Nat) (isProgmem : Bool) : Except Fault ParseResult :=
  match rtttl with
  | none => .ok ⟨false, melody, durations, 0⟩
  | some s =>
    let rtttlCopy := (if isProgmem then strncpy_P s 255 else strncpy s 255) ++ [0]
    match strchr rtttlCopy 58 with
    | none => .ok ⟨false, melody, durations, length⟩
    | some headerEnd =>
      let settings := headerEnd.drop 1
      match strchr settings 58 with
      | none => .ok ⟨false, melody, durations, length⟩
      | some notes => parseBody settings (notes.drop 1)

/-! ## Reference data and the specification's formulas -/

/-- The Nokia ringtone of rtttl_PROGMEM_melodies.h. -/
def NOKIA : List Nat := cstr "Nokia:d=4,o=5,b=225:8e6,8d6,f#,g#,8c#6,8b,d,e,8b,8a,c#,e,2a"

/-- The seven pitch letters of the notation. -/
inductive Pitch where
  | c | d | e | f | g | a | b
  deriving DecidableEq, Repr

/-- Semitone offset from C that the specification gives each pitch letter. -/
def Pitch.semitone : Pitch → Nat
  | .c => 0 | .d => 2 | .e => 4 | .f => 5 | .g => 7 | .a => 9 | .b => 11

/-- Character code of a pitch letter, in upper case when `upper` is set. -/
def Pitch.char (p : Pitch) (upper : Bool) : Nat :=
  (match p with
    | .c => 99 | .d => 100 | .e => 101 | .f => 102 | .g => 103 | .a => 97 | .b => 98)
  - (if upper then 32 else 0)

/-- The specification's `round(base * 2^(octave - 4))`, over the rationals. -/
def specRound (base octave : Nat) : Int :=
  round ((base : ℚ) * (2 : ℚ) ^ ((octave : Int) - 4))

/-- The specification's frequency for semitone index `s` at `octave`: the rounded value when
it lies in `[MIN_FREQUENCY, MAX_FREQUENCY]`, the silence sentinel otherwise; `none` when the
table has no entry `s`. -/
def claimedFrequency (s octave : Nat) : Option Int :=
  (baseFrequencies.get? s).map fun base =>
    if (MIN_FREQUENCY : Int) ≤ specRound base octave ∧ specRound base octave ≤ (MAX_FREQUENCY : Int)
    then specRound base octave else (PAUSE : Int)

/-- The specification's duration in ms of a note of duration value `k` at tempo `bpm`. -/
def specDuration (bpm k : Nat) (dotted : Bool) : Nat :=
  let q := 60000 / bpm
  let m := q * 4 / k
  let m1 := if dotted then m + m / 2 else m
  min m1 65535

/-! ## The grammar of the notation and what the specification derives from it -/

/-- Effect on the settings of one header field, as the token loop applies it. -/
def fieldEffect (st : Settings) (f : List Nat) : Settings :=
  match f with
  | [] => st
  | t0 :: _ =>
    if t0 = 100 then { st with defaultDuration := toUInt8 (atoi (f.drop 2)) }
    else if t0 = 111 then { st with defaultOctave := toUInt8 (atoi (f.drop 2)) }
    else if t0 = 98 then { st with bpm := toUInt16 (atoi (f.drop 2)) }
    else st

/-- Text of the fields after the first: each preceded by a comma. -/
def commaTail : List (List Nat) → List Nat
  | [] => []
  | y :: ys => 44 :: y ++ commaTail ys

/-- Comma-separated text of a list of fields. -/
def joinComma : List (List Nat) → List Nat
  | [] => []
  | x :: xs => x ++ commaTail xs

/-- A header field the token loop sees whole: not empty, free of comma, colon and NUL, and
at least two bytes long when its first byte is `d`, `o` or `b`. -/
def FieldOK (f : List Nat) : Prop :=
  f ≠ [] ∧ (∀ c ∈ f, c ≠ 44 ∧ c ≠ 58 ∧ c ≠ 0) ∧
    (∀ t0 ∈ f.head?, (t0 = 100 ∨ t0 = 111 ∨ t0 = 98) → 2 ≤ f.length)

/-- A note of the notation, by the parts the grammar gives it: the duration digits (possibly
none), the letter (`none` for the pause letter `p`), its case, the sharp sign, the octave
digit's value, and the dot. -/
structure NoteToken where
  digits : List Nat
  letter : Option Pitch
  upper : Bool
  sharp : Bool
  octave : Option Nat
  dotted : Bool
  deriving DecidableEq, Repr

/-- Character code of a note's letter; the pause letter is `p` (112) or `P` (80). -/
def letterChar (letter : Option Pitch) (upper : Bool) : Nat :=
  match letter with
  | none => if upper then 80 else 112
  | some p => p.char upper

/-- What follows the letter in a note's text: `#`, the octave digit, `.`, each if present. -/
def NoteToken.suffix (t : NoteToken) : List Nat :=
  (if t.sharp then [35] else []) ++
    ((match t.octave with | some o => [48 + o] | none => []) ++
      (if t.dotted then [46] else []))

/-- Text of a note. -/
def NoteToken.text (t : NoteToken) : List Nat :=
  t.digits ++ letterChar t.letter t.upper :: t.suffix

/-- A note is well formed when its duration digits are digits and its octave is one digit. -/
def NoteToken.WF (t : NoteToken) : Prop :=
  (∀ c ∈ t.digits, isdigit c = true) ∧ t.octave.getD 0 ≤ 9

/-- Decimal value of a run of digits. -/
def digitsValue (ds : List Nat) : Nat := ds.foldl (fun acc c => acc * 10 + (c - 48)) 0

/-- Duration value of a note: its own digits narrowed to `uint8_t`, else the default. -/
def NoteToken.durationValue (dd : Nat) (t : NoteToken) : Nat :=
  if t.digits = [] then dd else digitsValue t.digits % 256

/-- Octave of a note: its own digit, else the default. -/
def NoteToken.octaveValue (dOct : Nat) (t : NoteToken) : Nat := t.octave.getD dOct

/-- A byte that can follow a note: the comma or the NUL. -/
def IsNoteEnd (r : Nat) : Prop := r = 44 ∨ r = 0

/-- The specification's frequency of a note: the silence sentinel for the pause letter, else
the rounded and range-checked value of its semitone, the silence sentinel for `b#`. -/
def specFrequency (letter : Option Pitch) (sharp : Bool) (octave : Nat) : Nat :=
  match letter with
  | none => PAUSE
  | some p => ((claimedFrequency (p.semitone + sharp.toNat) octave).getD (PAUSE : Int)).toNat

/-- The note the specification derives from a note's text under the header values. -/
def specNote (bpm dd dOct : Nat) (t : NoteToken) : Nat × Nat :=
  (specFrequency t.letter t.sharp (t.octaveValue dOct),
    specDuration bpm (t.durationValue dd) t.dotted)

/-- Outcome of one note: its derived note, or the fault of a zero duration value. -/
def noteOutcome (bpm dd dOct : Nat) (t : NoteToken) : Except Fault (Nat × Nat) :=
  if t.durationValue dd = 0 then .error .divByZero else .ok (specNote bpm dd dOct t)

/-- Outcome of a run of notes, taken in order. -/
def notesOutcome (bpm dd dOct : Nat) : List NoteToken → Except Fault (List (Nat × Nat))
  | [] => .ok []
  | t :: ts =>
    match noteOutcome bpm dd dOct t with
    | .error e => .error e
    | .ok n =>
      match notesOutcome bpm dd dOct ts with
      | .error e => .error e
      | .ok ns => .ok (n :: ns)

/-- Text of a melody: the name, the header fields and the notes, with their separators. -/
def melodyText (name : List Nat) (fields : List (List Nat)) (tokens : List NoteToken) :
    List Nat :=
  name ++ 58 :: (joinComma fields ++ 58 :: joinComma (tokens.map NoteToken.text))

/-- Settings a header leaves: its fields applied in order to the defaults 4, 6 and 120. -/
def headerSettings (fields : List (List Nat)) : Settings :=
  fields.foldl fieldEffect ⟨4, 6, 120⟩

/-- Outcome of a parse that reaches the notes with settings `st`: the fault of a zero tempo or
of a zero duration value, else success with the notes derived in order. -/
def melodyOutcome (st : Settings) (ts : List NoteToken) : Except Fault ParseResult :=
  if st.bpm = 0 then .error .divByZero
  else
    match notesOutcome st.bpm st.defaultDuration st.defaultOctave ts with
    | .error e => .error e
    | .ok ns => .ok ⟨true, some (ns.map Prod.fst), some (ns.map Prod.snd), ns.length⟩

/-- A header field of the grammar: `d=<int>`, `o=<int>`, `b=<int>`, or a field of another
kind, kept as its text. -/
inductive HeaderField where
  | d (digits : List Nat)
  | o (digits : List Nat)
  | b (digits : List Nat)
  | other (text : List Nat)
  deriving DecidableEq, Repr

/-- Text of a header field. -/
def HeaderField.text : HeaderField → List Nat
  | .d ds => 100 :: 61 :: ds
  | .o ds => 111 :: 61 :: ds
  | .b ds => 98 :: 61 :: ds
  | .other t => t

/-- A recognised field is well formed when its `<int>` is a non-empty run of digits; a field
of another kind when it is not empty, holds no comma, colon or NUL, and does not start with
`d`, `o` or `b`. -/
def HeaderField.WF : HeaderField → Prop
  | .d ds => ds ≠ [] ∧ ∀ c ∈ ds, isdigit c = true
  | .o ds => ds ≠ [] ∧ ∀ c ∈ ds, isdigit c = true
  | .b ds => ds ≠ [] ∧ ∀ c ∈ ds, isdigit c = true
  | .other t => t ≠ [] ∧ (∀ c ∈ t, c ≠ 44 ∧ c ≠ 58 ∧ c ≠ 0)
      ∧ (∀ t0 ∈ t.head?, t0 ≠ 100 ∧ t0 ≠ 111 ∧ t0 ≠ 98)

/-- Value a `d=` field gives the default duration (a `uint8_t`). -/
def HeaderField.durationValue? : HeaderField → Option Nat
  | .d ds => some (digitsValue ds % 256)
  | _ => none

/-- Value an `o=` field gives the default octave (a `uint8_t`). -/
def HeaderField.octaveValue? : HeaderField → Option Nat
  | .o ds => some (digitsValue ds % 256)
  | _ => none

/-- Value a `b=` field gives the tempo (a `uint16_t`). -/
def HeaderField.bpmValue? : HeaderField → Option Nat
  | .b ds => some (digitsValue ds % 65536)
  | _ => none

/-- Value of the last field of the header that `sel` reads, if any. -/
def lastField (sel : HeaderField → Option Nat) (fs : List HeaderField) : Option Nat :=
  fs.reverse.findSome? sel

/-- Settings the specification gives a header: for each of the duration, the octave and the
tempo, the value of the last field of its own kind, and the default 4, 6 or 120 without one. -/
def specSettings (fs : List HeaderField) : Settings :=
  ⟨(lastField HeaderField.durationValue? fs).getD 4,
   (lastField HeaderField.octaveValue? fs).getD 6,
   (lastField HeaderField.bpmValue? fs).getD 120⟩

instance (t : NoteToken) : Decidable t.WF := by
  unfold NoteToken.WF; infer_instance

instance (f : HeaderField) : Decidable f.WF := by
  cases f <;> unfold HeaderField.WF <;> infer_instance

instance (f : List Nat) : Decidable (FieldOK f) := by
  unfold FieldOK; infer_instance

/-- The successful result that holds the notes `ns`. -/
def successWith (ns : List (Nat × Nat)) : ParseResult :=
  ⟨true, some (ns.map Prod.fst), some (ns.map Prod.snd), ns.length⟩

/-- The header of the Nokia ringtone: `d=4,o=5,b=225`. -/
def nokiaHeader : List HeaderField := [.d [52], .o [53], .b [50, 50, 53]]

/-- The thirteen notes of the Nokia ringtone. -/
def nokiaNotes : List NoteToken :=
  [⟨[56], some .e, false, false, some 6, false⟩, ⟨[56], some .d, false, false, some 6, false⟩,
   ⟨[], some .f, false, true, none, false⟩, ⟨[], some .g, false, true, none, false⟩,
   ⟨[56], some .c, false, true, some 6, false⟩, ⟨[56], some .b, false, false, none, false⟩,
   ⟨[], some .d, false, false, none, false⟩, ⟨[], some .e, false, false, none, false⟩,
   ⟨[56], some .b, false, false, none, false⟩, ⟨[56], some .a, false, false, none, false⟩,
   ⟨[], some .c, false, true, none, false⟩, ⟨[], some .e, false, false, none, false⟩,
   ⟨[50], some .a, false, false, none, false⟩]

/-! ## The playback controllers

Embedding of the controllers of src/src/sound_fun_rtttl.h (lines 304-658).

* Every operation takes the value that `millis()` returns in it (`now`) and the pin that
  `getSpeakerPin()` returns (`pin`), and gives back the state it leaves together with the
  events it caused, in the order it caused them.
* A time is a `uint32_t`, and the difference of two of them is `sub32`.
* `int` is taken wider than 16 bits, so that a `uint16_t` or `int16_t` operand keeps its
  value in arithmetic and in comparisons; the enumerations are unsigned.
* An array is `none` for the null pointer, else the list of its elements; an element read
  outside the array is the fault `outOfBounds`.
-/

/-- What an operation does besides changing the state it is given. -/
inductive Event where
  /-- The call `tone(pin, frequency)`: the channel starts the square wave. -/
  | tone (pin frequency : Nat)
  /-- The call `noTone(pin)`: the channel goes silent. -/
  | noTone (pin : Nat)
  /-- The line `Serial.print("Advancing to note: "); Serial.println(n);`. -/
  | print (n : Nat)
  /-- The statement `delete[] array`. -/
  | delete (array : Option (List Nat))
  /-- The melody controller calls `playTone` with this frequency and duration. -/
  | call (toneFrequency toneDuration : Nat)
  deriving DecidableEq, Repr

/-- The commands to the hardware channel: `tone` and `noTone`. -/
def Event.isCommand : Event → Bool
  | .tone _ _ => true
  | .noTone _ => true
  | _ => false

/-- The `tone` commands. -/
def Event.isTone : Event → Bool
  | .tone _ _ => true
  | _ => false

/-- The calls of `playTone`. -/
def Event.isCall : Event → Bool
  | .call _ _ => true
  | _ => false

/-- The `delete[]` statements. -/
def Event.isDelete : Event → Bool
  | .delete _ => true
  | _ => false

/-- The difference `a - b` of two `uint32_t`. -/
def sub32 (a b : Nat) : Nat := (a + (4294967296 - b % 4294967296)) % 4294967296

/-- Conversion of an `int` to `int16_t`. -/
def toInt16 (v : Int) : Int := (v + 32768) % 65536 - 32768

/-- The element `array[i]`. -/
def readAt (array : Option (List Nat)) (i : Nat) : Except Fault Nat :=
  match array with
  | none => .error .outOfBounds
  | some a =>
    match a[i]? with
    | none => .error .outOfBounds
    | some v => .ok v

/-! ### Tone -/

/-- The structure `ToneState`. -/
structure ToneState where
  isPlaying : Bool
  startTime : Nat
  frequency : Nat
  duration : Nat
  deriving DecidableEq, Repr

/-- The function `playTone` (lines 304-318). -/
def playTone (state : ToneState) (toneFrequency toneDuration : Nat) (now pin : Nat) :
    ToneState × List Event :=
  if toneFrequency < MIN_FREQUENCY ∨ toneFrequency > MAX_FREQUENCY ∨ toneDuration ≤ 0 then
    ({ state with isPlaying := false }, [])
  else
    ({ isPlaying := true, startTime := now, frequency := toneFrequency,
       duration := toneDuration },
     if toneFrequency ≠ PAUSE then [.tone pin (toneFrequency % 65536)] else [.noTone pin])

/-- The function `updateTone` (lines 326-331). -/
def updateTone (state : ToneState) (now pin : Nat) : ToneState × List Event :=
  if state.isPlaying = true ∧ sub32 now state.startTime ≥ state.duration % 65536 then
    ({ state with isPlaying := false }, [.noTone pin])
  else (state, [])

/-! ### Alert and beep -/

/-- The structure `AlertState`. -/
structure AlertState where
  isPlaying : Bool
  currentCount : Nat
  totalCount : Nat
  lastToneTime : Nat
  frequency : Nat
  duration : Nat
  lapse : Nat
  deriving DecidableEq, Repr

/-- The function `playAlert` (lines 343-355). -/
def playAlert (state : AlertState) (nr toneFrequency toneDuration lapse : Nat)
    (now : Nat) : AlertState × List Event :=
  if nr = 0 ∨ toneFrequency < MIN_FREQUENCY ∨ toneFrequency > MAX_FREQUENCY
      ∨ toneDuration ≤ 0 then
    ({ state with isPlaying := false }, [])
  else
    ({ isPlaying := true, currentCount := 0, totalCount := nr, lastToneTime := now,
       frequency := toneFrequency, duration := toneDuration, lapse := lapse }, [])

/-- The function `updateAlert` (lines 363-382). -/
def updateAlert (state : AlertState) (now pin : Nat) : AlertState × List Event :=
  if state.isPlaying = false ∨ state.currentCount ≥ state.totalCount then
    ({ state with isPlaying := false }, [.noTone pin])
  else
    let currentTime := now
    let r1 : AlertState × List Event :=
      if sub32 currentTime state.lastToneTime ≥ state.lapse ∧ state.isPlaying = false then
        ({ state with isPlaying := true, lastToneTime := currentTime },
         [.tone pin (state.frequency % 65536)])
      else (state, [])
    let state1 := r1.1
    if sub32 currentTime state1.lastToneTime ≥ state1.duration ∧ state1.isPlaying = true then
      ({ state1 with isPlaying := false, currentCount := (state1.currentCount + 1) % 256,
                     lastToneTime := currentTime },
       r1.2 ++ [.noTone pin])
    else (state1, r1.2)

/-- The function `playBeep` (lines 583-585). -/
def playBeep (state : AlertState) (nr toneFrequency toneDuration lapse : Nat)
    (now : Nat) : AlertState × List Event :=
  playAlert state nr toneFrequency toneDuration lapse now

/-! ### Melody -/

/-- The structure `MelodyState`. -/
structure MelodyState where
  isPlaying : Bool
  currentNote : Nat
  lastNoteTime : Nat
  melody : Option (List Nat)
  durations : Option (List Nat)
  length : Nat
  isDynamic : Bool
  currentRepeat : Nat
  totalRepeats : Nat
  deriving DecidableEq, Repr

/-- The two statements `ToneState toneState = { false, 0, melody[i], durations[i] };
playTone(toneState, melody[i], durations[i]);` of `playMelody` and `updateMelody`: the
events they cause, the local `toneState` being dropped at the end of the block. -/
def startNote (melody durations : Option (List Nat)) (i : Nat) (now pin : Nat) :
    Except Fault (List Event) :=
  match readAt melody i with
  | .error e => .error e
  | .ok f =>
    match readAt durations i with
    | .error e => .error e
    | .ok d => .ok (.call f d :: (playTone ⟨false, 0, f, d⟩ f d now pin).2)

/-- The function `playMelody` (lines 396-412). -/
def playMelody (state : MelodyState) (melody durations : Option (List Nat)) (length : Nat)
    (isDynamic : Bool) (repeatCount : Nat) (now pin : Nat) :
    Except Fault (MelodyState × List Event) :=
  if length = 0 ∨ melody = none ∨ durations = none then
    .ok ({ state with isPlaying := false }, [])
  else
    match startNote melody durations 0 now pin with
    | .error e => .error e
    | .ok evs =>
      .ok ({ isPlaying := true, currentNote := 0, lastNoteTime := now, melody := melody,
             durations := durations, length := length, isDynamic := isDynamic,
             currentRepeat := 0,
             totalRepeats := if repeatCount > 0 then repeatCount else 1 }, evs)

/-- The function `updateMelody` (lines 460-503). -/
def updateMelody (state : MelodyState) (now pin : Nat) :
    Except Fault (MelodyState × List Event) :=
  if state.isPlaying = false then .ok (state, [])
  else if state.currentNote ≥ state.length then
    if state.currentRepeat + 1 < state.totalRepeats then
      match startNote state.melody state.durations 0 now pin with
      | .error e => .error e
      | .ok evs =>
        .ok ({ state with currentRepeat := (state.currentRepeat + 1) % 256,
                          currentNote := 0, lastNoteTime := now }, evs)
    else if state.isDynamic = true then
      .ok ({ state with melody := none, durations := none, isPlaying := false },
           [.delete state.melody, .delete state.durations, .noTone pin])
    else .ok ({ state with isPlaying := false }, [.noTone pin])
  else
    let currentTime := now
    match readAt state.durations state.currentNote with
    | .error e => .error e
    | .ok d =>
      if sub32 currentTime state.lastNoteTime ≥ d % 65536 + 50 then
        let state1 := { state with currentNote := state.currentNote + 1 }
        if state1.currentNote < state1.length then
          match startNote state1.melody state1.durations state1.currentNote now pin with
          | .error e => .error e
          | .ok evs =>
            .ok ({ state1 with lastNoteTime := currentTime },
                 .print state1.currentNote :: evs)
        else .ok (state1, [.print state1.currentNote])
      else .ok (state, [])

/-- The structure `ToneSeriesState`. -/
structure ToneSeriesState where
  isPlaying : Bool
  currentFrequency : Int
  lastToneTime : Nat
  endFrequency : Nat
  step : Int
  duration : Nat
  deriving DecidableEq, Repr

/-- The function `playToneSeries` (lines 535-547). -/
def playToneSeries (state : ToneSeriesState) (startFrequency endFrequency : Nat) (step : Int)
    (toneDuration : Nat) (now pin : Nat) : ToneSeriesState × List Event :=
  if startFrequency < MIN_FREQUENCY ∨ startFrequency > MAX_FREQUENCY
      ∨ endFrequency < MIN_FREQUENCY ∨ endFrequency > MAX_FREQUENCY
      ∨ step = 0 ∨ toneDuration ≤ 0 then
    ({ state with isPlaying := false }, [])
  else
    ({ isPlaying := true, currentFrequency := toInt16 startFrequency, lastToneTime := now,
       endFrequency := endFrequency, step := step, duration := toneDuration },
     [.tone pin startFrequency])

/-- The function `updateToneSeries` (lines 555-571). -/
def updateToneSeries (state : ToneSeriesState) (now pin : Nat) :
    ToneSeriesState × List Event :=
  if state.isPlaying = false then (state, [])
  else
    let currentTime := now
    if sub32 currentTime state.lastToneTime ≥ state.duration % 65536 then
      let state1 := { state with
        currentFrequency := toInt16 (state.currentFrequency + state.step) }
      if (state1.step > 0 ∧ state1.currentFrequency > state1.endFrequency)
          ∨ (state1.step < 0 ∧ state1.currentFrequency < state1.endFrequency) then
        ({ state1 with isPlaying := false }, [.noTone pin])
      else
        ({ state1 with lastToneTime := currentTime },
         [.tone pin (toUInt16 state1.currentFrequency)])
    else (state, [])

/-! ### Siren -/

/-- The structure `SirenState`. -/
structure SirenState where
  isPlaying : Bool
  isLowFrequency : Bool
  startTime : Nat
  lastSwitchTime : Nat
  lowFrequency : Nat
  highFrequency : Nat
  duration : Nat
  deriving DecidableEq, Repr

/-- The function `playSiren` (lines 616-629). -/
def playSiren (state : SirenState) (lowFrequency highFrequency duration : Nat)
    (now pin : Nat) : SirenState × List Event :=
  if lowFrequency < MIN_FREQUENCY ∨ highFrequency > MAX_FREQUENCY ∨ duration ≤ 0 then
    ({ state with isPlaying := false }, [])
  else
    ({ isPlaying := true, isLowFrequency := true, startTime := now, lastSwitchTime := now,
       lowFrequency := lowFrequency, highFrequency := highFrequency, duration := duration },
     [.tone pin (lowFrequency % 65536)])

/-- The function `updateSiren` (lines 637-650); `now` is the value of `millis()` in the
first line and `now2` the value of the later call that sets `currentTime`. -/
def updateSiren (state : SirenState) (now now2 pin : Nat) : SirenState × List Event :=
  if state.isPlaying = false ∨ sub32 now state.startTime ≥ state.duration % 4294967296 then
    ({ state with isPlaying := false }, [.noTone pin])
  else
    let currentTime := now2
    if sub32 currentTime state.lastSwitchTime ≥ state.duration % 65536 / 10 then
      let state1 := { state with isLowFrequency := !state.isLowFrequency }
      ({ state1 with lastSwitchTime := currentTime },
       [.tone pin (if state1.isLowFrequency = true then state1.lowFrequency % 65536
                   else state1.highFrequency % 65536)])
    else (state, [])

/-! ### Stop -/

/-- The function `stopTone` (lines 656-658): it is given no controller state. -/
def stopTone (pin : Nat) : List Event := [.noTone pin]

/-! ### Runs of update calls -/

/-- Successive calls of an update function, one for each clock value of the list. -/
def runUpdates {σ τ : Type} (update : σ → τ → σ × List Event) : σ → List τ → σ × List Event
  | state, [] => (state, [])
  | state, t :: ts =>
    let r := update state t
    let r2 := runUpdates update r.1 ts
    (r2.1, r.2 ++ r2.2)

/-- Successive calls of `updateMelody`, one for each clock value of the list. -/
def runMelody (pin : Nat) : MelodyState → List Nat → Except Fault (MelodyState × List Event)
  | state, [] => .ok (state, [])
  | state, t :: ts =>
    match updateMelody state t pin with
    | .error e => .error e
    | .ok r =>
      match runMelody pin r.1 ts with
      | .error e => .error e
      | .ok r2 => .ok (r2.1, r.2 ++ r2.2)

/-- The number of `playTone` calls that brought the melody controller to `state`: one for
each note of the passes that are over, and one for each note reached in the current pass. -/
def MelodyState.calls (state : MelodyState) : Nat :=
  state.currentRepeat * state.length + min (state.currentNote + 1) state.length

/-- The states that `updateMelody` calls reach after `playMelody` accepted the arrays `m` and
`d` with the length `L`, the ownership flag `dyn` and `R` passes to play. -/
def MelodyState.Reached (m d : List Nat) (L R : Nat) (dyn : Bool) (state : MelodyState) :
    Prop :=
  0 < L ∧ L ≤ m.length ∧ L ≤ d.length ∧ 0 < R ∧ R < 256
  ∧ state.length = L ∧ state.totalRepeats = R ∧ state.isDynamic = dyn
  ∧ state.currentNote ≤ L ∧ state.currentRepeat < R
  ∧ (state.isPlaying = true → state.melody = some m ∧ state.durations = some d)
  ∧ (state.isPlaying = false → state.currentNote = L ∧ state.currentRepeat + 1 = R
      ∧ state.melody = (if dyn = true then none else some m)
      ∧ state.durations = (if dyn = true then none else some d))

/-- The number of `playTone` calls among the events. -/
def callCount (evs : List Event) : Nat := (evs.filter Event.isCall).length

/-- The states that `updateToneSeries` calls reach after `playToneSeries` accepted `start`,
`stop`, `step` and `d`, when `n` steps have been emitted since the start: the three
parameters are kept, the `n`-th value has not passed `stop`, and while the sweep plays the
current frequency is `start + n * step`. -/
def ToneSeriesState.Swept (start stop : Nat) (step : Int) (d n : Nat)
    (state : ToneSeriesState) : Prop :=
  state.endFrequency = stop ∧ state.step = step ∧ state.duration = d
  ∧ (n = 0 ∨ (0 < step ∧ (start : Int) + n * step ≤ stop)
      ∨ (step < 0 ∧ (stop : Int) ≤ start + n * step))
  ∧ (state.isPlaying = true → state.currentFrequency = start + n * step)

/-- The `tone` commands among the events. -/
def tones (evs : List Event) : List Event := evs.filter Event.isTone

/-- The call `playToneSeries` followed by one `updateToneSeries` call for each clock value of
the list: the state left, and all the events in order. -/
def sweepRun (state : ToneSeriesState) (startFrequency endFrequency : Nat) (step : Int)
    (toneDuration now pin : Nat) (clock : List Nat) : ToneSeriesState × List Event :=
  let r := playToneSeries state startFrequency endFrequency step toneDuration now pin
  let r2 := runUpdates (fun s t => updateToneSeries s t pin) r.1 clock
  (r2.1, r.2 ++ r2.2)

/-! ## Values as the text writes them -/

/-- Value a `d=` field writes. -/
def HeaderField.writtenDuration? : HeaderField → Option Nat
  | .d ds => some (digitsValue ds)
  | _ => none

/-- Value an `o=` field writes. -/
def HeaderField.writtenOctave? : HeaderField → Option Nat
  | .o ds => some (digitsValue ds)
  | _ => none

/-- Value a `b=` field writes. -/
def HeaderField.writtenBpm? : HeaderField → Option Nat
  | .b ds => some (digitsValue ds)
  | _ => none

/-- A header field writes a value of the local it is assigned to: at most 255 in `d=` and
`o=` (`uint8_t`), at most 65535 in `b=` (`uint16_t`). -/
def HeaderField.InRange : HeaderField → Prop
  | .d ds => digitsValue ds ≤ 255
  | .o ds => digitsValue ds ≤ 255
  | .b ds => digitsValue ds ≤ 65535
  | .other _ => True

/-- The duration digits of a note write a value of the local `duration` (`uint8_t`): at most
255. -/
def NoteToken.InRange (t : NoteToken) : Prop := digitsValue t.digits ≤ 255

instance (f : HeaderField) : Decidable f.InRange := by
  cases f <;> unfold HeaderField.InRange <;> infer_instance

instance (t : NoteToken) : Decidable t.InRange := by
  unfold NoteToken.InRange; infer_instance

/-- The header as written: for each of the duration, the octave and the tempo, the value
written by the last field of its own kind, and the default 4, 6 or 120 without one. -/
def writtenSettings (fs : List HeaderField) : Settings :=
  ⟨(lastField HeaderField.writtenDuration? fs).getD 4,
   (lastField HeaderField.writtenOctave? fs).getD 6,
   (lastField HeaderField.writtenBpm? fs).getD 120⟩

/-- Duration value of a note as written: its own digits, else the default. -/
def NoteToken.writtenDuration (dd : Nat) (t : NoteToken) : Nat :=
  if t.digits = [] then dd else digitsValue t.digits

/-- The note the specification derives from a note's text as written, under the header
values: the frequency of its letter, sharp and octave, and the duration of its duration
value and dot. -/
def writtenNote (bpm dd dOct : Nat) (t : NoteToken) : Nat × Nat :=
  (specFrequency t.letter t.sharp (t.octaveValue dOct),
    specDuration bpm (t.writtenDuration dd) t.dotted)

/-- Outcome of a melody as written, under the settings `st`: a division by zero when the
tempo or the duration value of one of the notes is zero, else success with the notes derived
in order. -/
def writtenOutcome (st : Settings) (ts : List NoteToken) : Except Fault ParseResult :=
  if st.bpm = 0 ∨ ∃ t ∈ ts, t.writtenDuration st.defaultDuration = 0 then .error .divByZero
  else .ok (successWith (ts.map (writtenNote st.bpm st.defaultDuration st.defaultOctave)))

end RTTTL

/-! ## Properties -/

namespace RTTTL

/-! ### Arithmetic of one note -/

theorem round_div_natCast (b d : Nat) (hd : 0 < d) :
    round ((b : ℚ) / (d : ℚ)) = (((2 * b + d) / (2 * d) : ℕ) : ℤ) := by
  rw [round_eq]
  have h : (b : ℚ) / (d : ℚ) + 1 / 2 = (((2 * b + d : ℕ) : ℤ) : ℚ) / ((2 * d : ℕ) : ℚ) := by
    have : (d : ℚ) ≠ 0 := by exact_mod_cast hd.ne'
    push_cast
    field_simp
    ring
  rw [h, Rat.floor_intCast_div_natCast]
  push_cast
  rfl

/-- The integer formula of the embedding is the rational rounding of the specification. -/
theorem roundScaled_eq_specRound (base octave : Nat) :
    (roundScaled base octave : Int) = specRound base octave := by
  unfold roundScaled specRound
  split
  · rename_i h
    obtain ⟨k, rfl⟩ : ∃ k, octave = 4 + k := ⟨octave - 4, by omega⟩
    have e : ((4 + k : ℕ) : ℤ) - 4 = (k : ℤ) := by push_cast; ring
    rw [e, zpow_natCast]
    have e2 : (base : ℚ) * (2 : ℚ) ^ k = ((base * 2 ^ k : ℕ) : ℚ) := by push_cast; ring
    rw [e2, round_natCast]
    simp
  · rename_i h
    have e : (2 : ℚ) ^ ((octave : ℤ) - 4) = 1 / ((2 ^ (4 - octave) : ℕ) : ℚ) := by
      have : (octave : ℤ) - 4 = - ((4 - octave : ℕ) : ℤ) := by omega
      rw [this, zpow_neg, zpow_natCast]
      push_cast
      simp
    rw [e, mul_one_div, round_div_natCast _ _ (by positivity)]

theorem noteFrequency_pitch (p : Pitch) (upper sharp : Bool) (octave : Nat) :
    noteFrequency (tolower (p.char upper)) sharp octave
      = if p.semitone + sharp.toNat < 12 then
          (let raw := roundScaled (baseFrequencies.getD (p.semitone + sharp.toNat) 0) octave
           if MIN_FREQUENCY ≤ raw ∧ raw ≤ MAX_FREQUENCY then raw else PAUSE)
        else PAUSE := by
  cases p <;> cases upper <;> cases sharp <;>
    simp [noteFrequency, noteIndexOf, Pitch.char, Pitch.semitone, tolower, baseFrequencies]

theorem noteDuration_eq_spec (bpm k : Nat) (dotted : Bool) (hk : 1 ≤ k) :
    noteDuration (60000 / bpm) k dotted = .ok (specDuration bpm k dotted) := by
  have hq : 60000 / bpm ≤ 60000 := Nat.div_le_self _ _
  have h1 : 60000 / bpm * 4 % 4294967296 = 60000 / bpm * 4 := Nat.mod_eq_of_lt (by omega)
  have h2 : 60000 / bpm * 4 / k ≤ 240000 :=
    le_trans (Nat.div_le_self _ _) (by omega)
  have h3 : (60000 / bpm * 4 / k + 60000 / bpm * 4 / k / 2) % 4294967296
      = 60000 / bpm * 4 / k + 60000 / bpm * 4 / k / 2 := Nat.mod_eq_of_lt (by omega)
  unfold noteDuration specDuration
  rw [if_neg (by omega)]
  simp only [h1, h3, UINT16_MAX]
  congr 1
  cases dotted <;> simp only [if_true, if_false, Bool.false_eq_true] <;> split <;> omega

/-! ### The header loop -/

theorem atoiDigits_append_nul (xs ys : List Nat) (acc : Nat) :
    atoiDigits (xs ++ 0 :: ys) acc = atoiDigits xs acc := by
  induction xs generalizing acc with
  | nil => simp [atoiDigits, isdigit]
  | cons a t ih =>
    simp only [List.cons_append, atoiDigits]
    split
    · exact ih _
    · rfl

theorem atoi_cons_space (a : Nat) (l : List Nat) (h : isspace a = true) :
    atoi (a :: l) = atoi l := by
  simp [atoi, List.dropWhile, h]

theorem atoi_append_nul (xs ys : List Nat) : atoi (xs ++ 0 :: ys) = atoi xs := by
  induction xs with
  | nil => simp [atoi, List.dropWhile, isspace, atoiDigits, isdigit]
  | cons a t ih =>
    by_cases h : isspace a = true
    · rw [List.cons_append, atoi_cons_space _ _ h, atoi_cons_space _ _ h, ih]
    · have h' : isspace a = false := by simpa using h
      simp only [List.cons_append, atoi, List.dropWhile_cons, h', Bool.false_eq_true, if_false]
      simp only [atoiDigits_append_nul, ← List.cons_append]

theorem takeWhile_append_stop {p : Nat → Bool} (f : List Nat) (x : Nat) (r : List Nat)
    (hf : ∀ c ∈ f, p c = true) (hx : p x = false) :
    (f ++ x :: r).takeWhile p = f := by
  induction f with
  | nil => simp [List.takeWhile, hx]
  | cons a t ih =>
    have ha := hf a (List.mem_cons_self _ _)
    simp only [List.cons_append, List.takeWhile_cons, ha, if_true]
    rw [ih (fun c hc => hf c (List.mem_cons_of_mem _ hc))]

theorem dropWhile_append_stop {p : Nat → Bool} (f : List Nat) (x : Nat) (r : List Nat)
    (hf : ∀ c ∈ f, p c = true) (hx : p x = false) :
    (f ++ x :: r).dropWhile p = x :: r := by
  induction f with
  | nil => simp [List.dropWhile, hx]
  | cons a t ih =>
    have ha := hf a (List.mem_cons_self _ _)
    simp only [List.cons_append, List.dropWhile_cons, ha, if_true]
    rw [ih (fun c hc => hf c (List.mem_cons_of_mem _ hc))]

theorem set_length_append (f : List Nat) (x y : Nat) (r : List Nat) :
    (f ++ x :: r).set f.length y = f ++ y :: r := by
  induction f with
  | nil => rfl
  | cons a t ih => simp [List.set, ih]

theorem strtok_nul (z : List Nat) : strtok (0 :: z) = none := by
  simp [strtok, List.dropWhile]

theorem strtok_field (f : List Nat) (e : Nat) (after : List Nat)
    (hne : f ≠ []) (hf : ∀ c ∈ f, c ≠ 44 ∧ c ≠ 0) (he : e = 44 ∨ e = 0) :
    strtok (f ++ e :: after)
      = some (f ++ 0 :: after, if e = 44 then after else e :: after) := by
  obtain ⟨a, t, rfl⟩ := List.exists_cons_of_ne_nil hne
  have ha := hf a (List.mem_cons_self _ _)
  have htw : ((a :: t) ++ e :: after).takeWhile (fun x => decide (x ≠ 44 ∧ x ≠ 0)) = a :: t := by
    apply takeWhile_append_stop
    · intro c hc; simpa using hf c hc
    · rcases he with rfl | rfl <;> simp
  have hdw : ((a :: t) ++ e :: after).dropWhile (fun c => decide (c = 44))
      = (a :: t) ++ e :: after := by
    simp [List.dropWhile, ha.1]
  unfold strtok
  rw [hdw]
  simp only [List.cons_append] at htw ⊢
  simp only [ha.2, if_false, htw]
  have hd : (a :: (t ++ e :: after)).drop (a :: t).length = e :: after := by
    rw [← List.cons_append, List.drop_left]
  simp only [hd]
  have hs : (a :: (t ++ e :: after)).set (a :: t).length 0 = a :: (t ++ 0 :: after) := by
    rw [← List.cons_append, set_length_append]; rfl
  rcases he with rfl | rfl
  · simp [hs]
  · simp

theorem applyToken_field (f z : List Nat) (st : Settings) (hf : FieldOK f) :
    applyToken (f ++ 0 :: z) st = .ok (fieldEffect st f) := by
  obtain ⟨hne, _, hlen⟩ := hf
  obtain ⟨a, t, rfl⟩ := List.exists_cons_of_ne_nil hne
  have hl := hlen a (by simp)
  by_cases hk : a = 100 ∨ a = 111 ∨ a = 98
  · have h2 := hl hk
    obtain ⟨b, u, rfl⟩ : ∃ b u, t = b :: u := by
      cases t with
      | nil => simp at h2
      | cons b u => exact ⟨b, u, rfl⟩
    have hd : ((a :: b :: u) ++ 0 :: z).drop 2 = u ++ 0 :: z := rfl
    have hd2 : (a :: b :: u).drop 2 = u := rfl
    have hnil : ∀ {α : Type} (k : List Nat → α) (e : α),
        (match u ++ 0 :: z with | [] => e | arg => k arg) = k (u ++ 0 :: z) := by
      intro α k e
      cases u <;> rfl
    simp only [applyToken, fieldEffect, List.cons_append]
    simp only [List.cons_append] at hd
    simp only [hd, hd2]
    rcases hk with rfl | rfl | rfl <;> simp [atoi_append_nul]
  · have h1 : a ≠ 100 := fun h => hk (Or.inl h)
    have h2 : a ≠ 111 := fun h => hk (Or.inr (Or.inl h))
    have h3 : a ≠ 98 := fun h => hk (Or.inr (Or.inr h))
    simp [applyToken, fieldEffect, h1, h2, h3]

theorem parseSettings_fields (fs : List (List Nat)) :
    ∀ (f : List Nat) (st : Settings) (fuel : Nat), fs.length + 2 ≤ fuel →
      FieldOK f → (∀ g ∈ fs, FieldOK g) →
      parseSettings fuel (f ++ commaTail fs ++ [0]) st
        = .ok (fs.foldl fieldEffect (fieldEffect st f)) := by
  induction fs with
  | nil =>
    intro f st fuel hfuel hf _
    obtain ⟨k, rfl⟩ : ∃ k, fuel = k + 2 := ⟨fuel - 2, by simp at hfuel; omega⟩
    simp only [commaTail, List.append_nil, parseSettings]
    rw [strtok_field f 0 [] hf.1 (fun c hc => ⟨(hf.2.1 c hc).1, (hf.2.1 c hc).2.2⟩) (Or.inr rfl)]
    simp [applyToken_field f [] st hf, strtok_nul]
  | cons g gs ih =>
    intro f st fuel hfuel hf hall
    obtain ⟨k, rfl⟩ : ∃ k, fuel = k + 1 := ⟨fuel - 1, by simp at hfuel; omega⟩
    have e : f ++ commaTail (g :: gs) ++ [0] = f ++ 44 :: (g ++ commaTail gs ++ [0]) := by
      simp [commaTail]
    rw [e]
    simp only [parseSettings]
    rw [strtok_field f 44 _ hf.1 (fun c hc => ⟨(hf.2.1 c hc).1, (hf.2.1 c hc).2.2⟩) (Or.inl rfl)]
    simp only [applyToken_field f _ st hf, if_true]
    rw [ih g (fieldEffect st f) k (by simp at hfuel ⊢; omega) (hall g (List.mem_cons_self _ _))
      (fun x hx => hall x (List.mem_cons_of_mem _ hx))]
    rfl

theorem parseSettings_join (fs : List (List Nat)) (st : Settings) (fuel : Nat)
    (hfuel : fs.length + 1 ≤ fuel) (hall : ∀ g ∈ fs, FieldOK g) :
    parseSettings fuel (joinComma fs ++ [0]) st = .ok (fs.foldl fieldEffect st) := by
  cases fs with
  | nil =>
    obtain ⟨k, rfl⟩ : ∃ k, fuel = k + 1 := ⟨fuel - 1, by simp at hfuel; omega⟩
    simp [joinComma, parseSettings, strtok_nul]
  | cons f gs =>
    simp only [joinComma]
    rw [parseSettings_fields gs f st fuel (by simpa using hfuel) (hall f (List.mem_cons_self _ _))
      (fun x hx => hall x (List.mem_cons_of_mem _ hx))]
    rfl

/-! ### The scan of one note -/

theorem atoiDigits_run (ds : List Nat) (x : Nat) (r : List Nat) (acc : Nat)
    (hd : ∀ c ∈ ds, isdigit c = true) (hx : isdigit x = false) :
    atoiDigits (ds ++ x :: r) acc = ds.foldl (fun a c => a * 10 + (c - 48)) acc := by
  induction ds generalizing acc with
  | nil => simp [atoiDigits, hx]
  | cons a t ih =>
    have ha := hd a (List.mem_cons_self _ _)
    simp only [List.cons_append, atoiDigits, ha, if_true, List.foldl_cons]
    exact ih _ (fun c hc => hd c (List.mem_cons_of_mem _ hc))

theorem isdigit_not_space (c : Nat) (h : isdigit c = true) :
    isspace c = false ∧ c ≠ 45 ∧ c ≠ 43 ∧ c ≠ 44 ∧ c ≠ 0 := by
  simp only [isdigit, Bool.and_eq_true, decide_eq_true_eq] at h
  refine ⟨?_, by omega, by omega, by omega, by omega⟩
  simp only [isspace, Bool.or_eq_false_iff, decide_eq_false_iff_not, Bool.and_eq_false_imp,
    decide_eq_true_eq]
  omega

theorem atoi_run (a : Nat) (ds : List Nat) (x : Nat) (r : List Nat)
    (hd : ∀ c ∈ a :: ds, isdigit c = true) (hx : isdigit x = false) :
    atoi ((a :: ds) ++ x :: r) = (digitsValue (a :: ds) : Int) := by
  have ha := isdigit_not_space a (hd a (List.mem_cons_self _ _))
  have := atoiDigits_run (a :: ds) x r 0 hd hx
  simp only [List.cons_append] at this
  simp only [atoi, List.cons_append, List.dropWhile_cons, ha.1, Bool.false_eq_true, if_false,
    ha.2.1, ha.2.2.1, this, digitsValue]

theorem toUInt8_natCast (n : Nat) : toUInt8 (n : Int) = n % 256 := by
  unfold toUInt8
  omega

theorem toUInt16_natCast (n : Nat) : toUInt16 (n : Int) = n % 65536 := by
  unfold toUInt16
  omega

theorem letterChar_props (l : Option Pitch) (u : Bool) :
    isdigit (letterChar l u) = false ∧ letterChar l u ≠ 44 ∧ letterChar l u ≠ 0
      ∧ tolower (letterChar l u) = letterChar l false := by
  cases l with
  | none => cases u <;> simp [letterChar, isdigit, tolower]
  | some p => cases p <;> cases u <;> simp [letterChar, Pitch.char, isdigit, tolower]

theorem scanSuffix (t : NoteToken) (dur note : Nat) (dOct r : Nat) (rs : List Nat)
    (hwf : t.WF) (hr : IsNoteEnd r) :
    scanSharp dur note dOct (t.suffix ++ r :: rs)
      = .ok ⟨dur, note, t.sharp, t.octaveValue dOct, t.dotted, r :: rs⟩ := by
  obtain ⟨digits, letter, upper, sharp, octave, dotted⟩ := t
  obtain ⟨_, ho⟩ := hwf
  cases octave with
  | none =>
    rcases hr with rfl | rfl <;> cases sharp <;> cases dotted <;>
      simp [NoteToken.suffix, NoteToken.octaveValue, scanSharp, scanOctave, scanDot, isdigit]
  | some o =>
    have ho1 : o ≤ 9 := by simpa using ho
    have h1 : 48 + o ≠ 35 := by omega
    have h2 : 48 + o ≤ 57 := by omega
    rcases hr with rfl | rfl <;> cases sharp <;> cases dotted <;>
      simp [NoteToken.suffix, NoteToken.octaveValue, scanSharp, scanOctave, scanDot, isdigit,
        h1, h2]

theorem scanNote_text (t : NoteToken) (j dd dOct r : Nat) (rs : List Nat)
    (hwf : t.WF) (hr : IsNoteEnd r) :
    scanNote dd dOct (List.replicate j 44 ++ (t.text ++ r :: rs))
      = .ok ⟨t.durationValue dd, letterChar t.letter false, t.sharp, t.octaveValue dOct,
          t.dotted, r :: rs⟩ := by
  have hl := letterChar_props t.letter t.upper
  have hsuf := scanSuffix t
  rcases hd : t.digits with _ | ⟨a, ds⟩
  · have e : List.replicate j 44 ++ (t.text ++ r :: rs)
        = List.replicate j 44 ++ letterChar t.letter t.upper :: (t.suffix ++ r :: rs) := by
      simp [NoteToken.text, hd]
    rw [e]
    unfold scanNote
    rw [dropWhile_append_stop _ _ _ (by intro c hc; simp [List.eq_of_mem_replicate hc])
      (by simpa using hl.2.1)]
    simp only [hl.1, Bool.false_eq_true, if_false, scanLetter, hl.2.2.2]
    rw [hsuf _ _ _ _ _ hwf hr]
    simp [NoteToken.durationValue, hd]
  · have hds : ∀ c ∈ a :: ds, isdigit c = true := by
      intro c hc; exact hwf.1 c (by rw [hd]; exact hc)
    have ha := hds a (List.mem_cons_self _ _)
    have e : List.replicate j 44 ++ (t.text ++ r :: rs)
        = List.replicate j 44 ++ a :: (ds ++ letterChar t.letter t.upper :: (t.suffix ++ r :: rs)) := by
      simp [NoteToken.text, hd]
    rw [e]
    unfold scanNote
    rw [dropWhile_append_stop _ _ _ (by intro c hc; simp [List.eq_of_mem_replicate hc])
      (by simpa using (isdigit_not_space a ha).2.2.2.1)]
    have hat := atoi_run a ds (letterChar t.letter t.upper) (t.suffix ++ r :: rs) hds hl.1
    have hdw := dropWhile_append_stop (p := isdigit) (a :: ds) (letterChar t.letter t.upper)
      (t.suffix ++ r :: rs) hds hl.1
    simp only [List.cons_append] at hat hdw
    simp only [ha, if_true, hat, hdw, scanLetter, hl.2.2.2, toUInt8_natCast]
    rw [hsuf _ _ _ _ _ hwf hr]
    simp [NoteToken.durationValue, hd]

theorem noteFrequency_letter (l : Option Pitch) (sharp : Bool) (octave : Nat) :
    noteFrequency (letterChar l false) sharp octave = specFrequency l sharp octave := by
  cases l with
  | none => simp [letterChar, noteFrequency, specFrequency]
  | some p =>
    have h := noteFrequency_pitch p false sharp octave
    have ht : tolower (p.char false) = p.char false := by
      cases p <;> simp [Pitch.char, tolower]
    rw [ht] at h
    simp only [letterChar, specFrequency, h]
    split
    · rename_i hs
      have hb : baseFrequencies.get? (p.semitone + sharp.toNat)
          = some (baseFrequencies.getD (p.semitone + sharp.toNat) 0) := by
        cases p <;> cases sharp <;> simp [Pitch.semitone, baseFrequencies] at hs ⊢
      simp only [claimedFrequency, hb, Option.map_some', ← roundScaled_eq_specRound,
        Option.getD_some]
      split
      · rename_i h1
        rw [if_pos (by exact_mod_cast h1)]
        simp
      · rename_i h1
        rw [if_neg (by intro h2; exact h1 (by exact_mod_cast h2))]
        simp [PAUSE]
    · rename_i hs
      have hb : baseFrequencies.get? (p.semitone + sharp.toNat) = none := by
        cases p <;> cases sharp <;> simp [Pitch.semitone, baseFrequencies] at hs ⊢
      simp only [claimedFrequency, hb, Option.map_none', Option.getD_none, PAUSE]
      rfl

theorem noteDuration_outcome (bpm k : Nat) (dotted : Bool) :
    noteDuration (60000 / bpm) k dotted
      = if k = 0 then .error .divByZero else .ok (specDuration bpm k dotted) := by
  by_cases hk : k = 0
  · simp [noteDuration, hk]
  · rw [if_neg hk, noteDuration_eq_spec bpm k dotted (by omega)]

theorem parseNote_text (t : NoteToken) (j bpm dd dOct r : Nat) (rs : List Nat)
    (hwf : t.WF) (hr : IsNoteEnd r) :
    parseNote (60000 / bpm) dd dOct (List.replicate j 44 ++ (t.text ++ r :: rs))
      = match noteOutcome bpm dd dOct t with
        | .error e => .error e
        | .ok n => .ok (n, r :: rs) := by
  simp only [parseNote, scanNote_text t j dd dOct r rs hwf hr, noteDuration_outcome,
    noteFrequency_letter, noteOutcome, specNote]
  by_cases hk : t.durationValue dd = 0
  · simp only [hk, if_true]
  · simp only [hk, if_false]

/-! ### The note loop -/

theorem parseNotes_nul (room q dd dOct : Nat) (rest : List Nat) :
    parseNotes room q dd dOct (0 :: rest) = .ok [] := by
  cases room <;> simp [parseNotes]

theorem parseNotes_zero (q dd dOct c : Nat) (rest : List Nat) :
    parseNotes 0 q dd dOct (c :: rest) = .ok [] := by
  simp [parseNotes]

theorem parseNotes_succ (room q dd dOct c : Nat) (rest : List Nat) (hc : c ≠ 0) :
    parseNotes (room + 1) q dd dOct (c :: rest)
      = match parseNote q dd dOct (c :: rest) with
        | .error e => .error e
        | .ok (n, ptr1) =>
          match parseNotes room q dd dOct ptr1 with
          | .error e => .error e
          | .ok ns => .ok (n :: ns) := by
  rw [parseNotes]
  simp only [hc, if_false]

theorem text_head (t : NoteToken) (j : Nat) (X : List Nat) (hwf : t.WF) :
    ∃ c rest, List.replicate j 44 ++ (t.text ++ X) = c :: rest ∧ c ≠ 0 := by
  cases j with
  | succ k =>
    exact ⟨44, List.replicate k 44 ++ (t.text ++ X), by simp [List.replicate_succ], by decide⟩
  | zero =>
    rcases hd : t.digits with _ | ⟨a, ds⟩
    · exact ⟨letterChar t.letter t.upper, t.suffix ++ X, by simp [NoteToken.text, hd],
        (letterChar_props _ _).2.2.1⟩
    · exact ⟨a, ds ++ letterChar t.letter t.upper :: (t.suffix ++ X),
        by simp [NoteToken.text, hd],
        (isdigit_not_space a (hwf.1 a (by simp [hd]))).2.2.2.2⟩

theorem parseNotes_text (ts : List NoteToken) :
    ∀ (t : NoteToken) (j room bpm dd dOct r : Nat) (rs : List Nat),
      ts.length + 1 ≤ room → t.WF → (∀ u ∈ ts, u.WF) →
      (r = 0 ∨ (r = 44 ∧ ts.length + 1 = room)) →
      parseNotes room (60000 / bpm) dd dOct
          (List.replicate j 44 ++ (t.text ++ (commaTail (ts.map NoteToken.text) ++ r :: rs)))
        = notesOutcome bpm dd dOct (t :: ts) := by
  induction ts with
  | nil =>
    intro t j room bpm dd dOct r rs hroom hwf _ hr
    obtain ⟨k, rfl⟩ : ∃ k, room = k + 1 := ⟨room - 1, by simp at hroom; omega⟩
    obtain ⟨c, rest, hc, hc0⟩ := text_head t j (commaTail ([].map NoteToken.text) ++ r :: rs) hwf
    rw [hc, parseNotes_succ _ _ _ _ _ _ hc0, ← hc]
    simp only [List.map_nil, commaTail, List.nil_append]
    have hend : IsNoteEnd r := by rcases hr with h | h; exact Or.inr h; exact Or.inl h.1
    rw [parseNote_text t j bpm dd dOct r rs hwf hend]
    have hstop : parseNotes k (60000 / bpm) dd dOct (r :: rs) = .ok [] := by
      rcases hr with h | h
      · rw [h]; exact parseNotes_nul _ _ _ _ _
      · have hk : k = 0 := by simp at h; omega
        rw [hk]; exact parseNotes_zero _ _ _ _ _
    simp only [notesOutcome]
    cases noteOutcome bpm dd dOct t with
    | error e => rfl
    | ok n => simp only [hstop]
  | cons u us ih =>
    intro t j room bpm dd dOct r rs hroom hwf hall hr
    obtain ⟨k, rfl⟩ : ∃ k, room = k + 1 := ⟨room - 1, by simp at hroom; omega⟩
    obtain ⟨c, rest, hc, hc0⟩ :=
      text_head t j (commaTail ((u :: us).map NoteToken.text) ++ r :: rs) hwf
    rw [hc, parseNotes_succ _ _ _ _ _ _ hc0, ← hc]
    have e : commaTail ((u :: us).map NoteToken.text) ++ r :: rs
        = 44 :: (u.text ++ (commaTail (us.map NoteToken.text) ++ r :: rs)) := by
      simp [commaTail]
    rw [e, parseNote_text t j bpm dd dOct 44 _ hwf (Or.inl rfl)]
    have hrec := ih u 1 k bpm dd dOct r rs (by simp at hroom ⊢; omega)
      (hall u (List.mem_cons_self _ _)) (fun x hx => hall x (List.mem_cons_of_mem _ hx))
      (by rcases hr with h | h
          · exact Or.inl h
          · exact Or.inr ⟨h.1, by simp at h; omega⟩)
    simp only [List.replicate_one, List.singleton_append] at hrec
    rw [notesOutcome]
    cases noteOutcome bpm dd dOct t with
    | error e => rfl
    | ok n => simp only [hrec]

/-! ### The two separators and the working copies -/

theorem strchr_skip (name : List Nat) (ch : Nat) (X : List Nat)
    (hname : ∀ c ∈ name, c ≠ ch ∧ c ≠ 0) :
    strchr (name ++ ch :: X) ch = some (ch :: X) := by
  induction name with
  | nil => simp [strchr]
  | cons a t ih =>
    have ha := hname a (List.mem_cons_self _ _)
    simp only [List.cons_append, strchr, ha.1, ha.2, if_false]
    exact ih (fun c hc => hname c (List.mem_cons_of_mem _ hc))

theorem takeWhile_all {p : Nat → Bool} (s : List Nat) (hs : ∀ c ∈ s, p c = true) :
    s.takeWhile p = s := by
  induction s with
  | nil => rfl
  | cons a t ih =>
    simp only [List.takeWhile_cons, hs a (List.mem_cons_self _ _), if_true]
    rw [ih (fun c hc => hs c (List.mem_cons_of_mem _ hc))]

theorem strncpy_of_no_nul (s : List Nat) (n : Nat) (hs : ∀ c ∈ s, c ≠ 0) :
    strncpy s n = s.take n ++ List.replicate (n - (s.take n).length) 0 := by
  unfold strncpy
  rw [takeWhile_all s (by intro c hc; simpa using hs c hc)]

theorem take_takeWhile_append {p : Nat → Bool} (h X : List Nat) (hh : ∀ c ∈ h, p c = true) :
    ((h ++ X).takeWhile p).take h.length = h := by
  induction h with
  | nil => simp
  | cons a t ih =>
    simp only [List.cons_append, List.takeWhile_cons, hh a (List.mem_cons_self _ _), if_true,
      List.length_cons, List.take_succ_cons]
    rw [ih (fun c hc => hh c (List.mem_cons_of_mem _ hc))]

theorem strncpy_header (h X : List Nat) (hh : ∀ c ∈ h, c ≠ 0) :
    strncpy (h ++ X) h.length = h := by
  unfold strncpy
  rw [take_takeWhile_append h X (by intro c hc; simpa using hh c hc)]
  simp

/-- Lines 212-293 once the header `h` and the notes pointer `R` are known. -/
theorem parseBody_header (h R : List Nat) (hh : ∀ c ∈ h, c ≠ 0) :
    parseBody (h ++ 58 :: R) R
      = if 32 ≤ h.length then .error .bufferOverflow
        else
          match parseSettings (h.length + 1) (h ++ [0]) ⟨4, 6, 120⟩ with
          | .error e => .error e
          | .ok st =>
            if st.bpm = 0 then .error .divByZero
            else
              match parseNotes MAX_RTTTL_NOTES (60000 / st.bpm) st.defaultDuration
                  st.defaultOctave R with
              | .error e => .error e
              | .ok ns =>
                .ok ⟨true, some (ns.map Prod.fst), some (ns.map Prod.snd), ns.length⟩ := by
  have hn : (h ++ 58 :: R).length - R.length - 1 = h.length := by
    simp only [List.length_append, List.length_cons]; omega
  unfold parseBody
  simp only [hn]
  simp only [strncpy_header h (58 :: R) hh, List.length_append, List.length_singleton]

/-- Lines 187-210 on a string with its two separators: the header is what lies between them
and the notes pointer is what the 256-cell copy holds after the second. -/
theorem parseRTTTL_sections (name h N : List Nat) (melody durations : Option (List Nat))
    (length : Nat) (isProgmem : Bool)
    (hname : ∀ c ∈ name, c ≠ 58 ∧ c ≠ 0) (hh : ∀ c ∈ h, c ≠ 58 ∧ c ≠ 0)
    (hN : ∀ c ∈ N, c ≠ 0) (hP : name.length + h.length + 2 ≤ 255) :
    parseRTTTL (some (name ++ 58 :: (h ++ 58 :: N))) melody durations length isProgmem
      = parseBody
          (h ++ 58 :: (N.take (253 - name.length - h.length)
            ++ List.replicate (254 - name.length - h.length
                - (N.take (253 - name.length - h.length)).length) 0))
          (N.take (253 - name.length - h.length)
            ++ List.replicate (254 - name.length - h.length
                - (N.take (253 - name.length - h.length)).length) 0) := by
  have hs : ∀ c ∈ name ++ 58 :: (h ++ 58 :: N), c ≠ 0 := by
    intro c hc
    simp only [List.mem_append, List.mem_cons] at hc
    rcases hc with hc | rfl | hc | rfl | hc
    · exact (hname c hc).2
    · decide
    · exact (hh c hc).2
    · decide
    · exact hN c hc
  have htake : (name ++ 58 :: (h ++ 58 :: N)).take 255
      = name ++ 58 :: (h ++ 58 :: N.take (253 - name.length - h.length)) := by
    rw [List.take_append_eq_append_take, List.take_of_length_le (by omega)]
    obtain ⟨k, hk⟩ : ∃ k, 255 - name.length = k + 1 := ⟨254 - name.length, by omega⟩
    rw [hk, List.take_succ_cons, List.take_append_eq_append_take,
      List.take_of_length_le (by omega)]
    obtain ⟨k2, hk2⟩ : ∃ k2, k - h.length = k2 + 1 := ⟨k - h.length - 1, by omega⟩
    rw [hk2, List.take_succ_cons]
    have : k2 = 253 - name.length - h.length := by omega
    rw [this]
  have hbuf : (if isProgmem then strncpy_P (name ++ 58 :: (h ++ 58 :: N)) 255
        else strncpy (name ++ 58 :: (h ++ 58 :: N)) 255) ++ [0]
      = name ++ 58 :: (h ++ 58 :: (N.take (253 - name.length - h.length)
            ++ List.replicate (254 - name.length - h.length
                - (N.take (253 - name.length - h.length)).length) 0)) := by
    have hlen : (N.take (253 - name.length - h.length)).length ≤ 253 - name.length - h.length :=
      List.length_take_le _ _
    have e : (if isProgmem then strncpy_P (name ++ 58 :: (h ++ 58 :: N)) 255
        else strncpy (name ++ 58 :: (h ++ 58 :: N)) 255)
        = strncpy (name ++ 58 :: (h ++ 58 :: N)) 255 := by
      cases isProgmem <;> simp [strncpy_P]
    rw [e, strncpy_of_no_nul _ _ hs, htake]
    simp only [List.length_append, List.length_cons, List.append_assoc, List.cons_append]
    congr 1; congr 1; congr 1; congr 1; congr 1
    rw [← List.replicate_succ']
    congr 1
    omega
  unfold parseRTTTL
  simp only [hbuf]
  rw [strchr_skip name 58 _ hname]
  simp only [List.drop_succ_cons, List.drop_zero]
  rw [strchr_skip h 58 _ hh]
  simp only [List.drop_succ_cons, List.drop_zero]

/-! ### Melody texts built by the grammar -/

theorem commaTail_append (xs ys : List (List Nat)) :
    commaTail (xs ++ ys) = commaTail xs ++ commaTail ys := by
  induction xs with
  | nil => rfl
  | cons a t ih => simp [commaTail, ih]

theorem mem_commaTail (fs : List (List Nat)) (P : Nat → Prop) (h44 : P 44)
    (hfs : ∀ f ∈ fs, ∀ c ∈ f, P c) : ∀ c ∈ commaTail fs, P c := by
  induction fs with
  | nil => intro c hc; simp [commaTail] at hc
  | cons a t ih =>
    intro c hc
    simp only [commaTail, List.cons_append, List.mem_cons, List.mem_append] at hc
    rcases hc with rfl | hc | hc
    · exact h44
    · exact hfs a (List.mem_cons_self _ _) c hc
    · exact ih (fun f hf => hfs f (List.mem_cons_of_mem _ hf)) c hc

theorem mem_joinComma (fs : List (List Nat)) (P : Nat → Prop) (h44 : P 44)
    (hfs : ∀ f ∈ fs, ∀ c ∈ f, P c) : ∀ c ∈ joinComma fs, P c := by
  cases fs with
  | nil => intro c hc; simp [joinComma] at hc
  | cons a t =>
    intro c hc
    simp only [joinComma, List.mem_append] at hc
    rcases hc with hc | hc
    · exact hfs a (List.mem_cons_self _ _) c hc
    · exact mem_commaTail t P h44 (fun f hf => hfs f (List.mem_cons_of_mem _ hf)) c hc

theorem length_le_commaTail (fs : List (List Nat)) : fs.length ≤ (commaTail fs).length := by
  induction fs with
  | nil => simp [commaTail]
  | cons a t ih => simp [commaTail]; omega

theorem length_le_joinComma (fs : List (List Nat)) (h : ∀ f ∈ fs, f ≠ []) :
    fs.length ≤ (joinComma fs).length := by
  cases fs with
  | nil => simp
  | cons a t =>
    have ha : 1 ≤ a.length := by
      have := h a (List.mem_cons_self _ _)
      cases a with
      | nil => exact absurd rfl this
      | cons _ _ => simp
    have := length_le_commaTail t
    simp [joinComma]; omega

theorem text_no_nul (t : NoteToken) (hwf : t.WF) : ∀ c ∈ t.text, c ≠ 0 := by
  intro c hc
  simp only [NoteToken.text, NoteToken.suffix, List.mem_append, List.mem_cons] at hc
  rcases hc with hc | rfl | hc | hc | hc
  · exact (isdigit_not_space c (hwf.1 c hc)).2.2.2.2
  · exact (letterChar_props _ _).2.2.1
  · split at hc <;> simp at hc; omega
  · split at hc <;> simp at hc; omega
  · split at hc <;> simp at hc; omega

theorem junk_head (B : List Nat) (k z : Nat) (hz : 1 ≤ z)
    (hB : B = [] ∨ ∃ B1, B = 44 :: B1) :
    ∃ r rs, B.take k ++ List.replicate z 0 = r :: rs ∧ (r = 0 ∨ (r = 44 ∧ B ≠ [])) := by
  obtain ⟨z1, rfl⟩ : ∃ z1, z = z1 + 1 := ⟨z - 1, by omega⟩
  rcases hB with rfl | ⟨B1, rfl⟩
  · exact ⟨0, List.replicate z1 0, by simp [List.replicate_succ], Or.inl rfl⟩
  · cases k with
    | zero => exact ⟨0, List.replicate z1 0, by simp [List.replicate_succ], Or.inl rfl⟩
    | succ k1 =>
      exact ⟨44, B1.take k1 ++ List.replicate (z1 + 1) 0, by simp, Or.inr ⟨rfl, by simp⟩⟩

/-- The parse of a melody text. Of the notes `ts1 ++ ts2` the parser reads `ts1`: all of them
(`ts2` empty), or the first 100 (the cap), as long as what it reads lies within the first 255
bytes and the header within 31. -/
theorem parseRTTTL_melodyText (name : List Nat) (fs : List (List Nat))
    (ts1 ts2 : List NoteToken) (melody durations : Option (List Nat)) (length : Nat)
    (isProgmem : Bool)
    (hname : ∀ c ∈ name, c ≠ 58 ∧ c ≠ 0) (hfs : ∀ f ∈ fs, FieldOK f)
    (hts : ∀ t ∈ ts1 ++ ts2, t.WF)
    (hhdr : (joinComma fs).length ≤ 31)
    (hlen : name.length + (joinComma fs).length + 2
        + (joinComma (ts1.map NoteToken.text)).length ≤ 255)
    (hcap : ts1.length ≤ MAX_RTTTL_NOTES)
    (hsplit : ts2 = [] ∨ ts1.length = MAX_RTTTL_NOTES) :
    parseRTTTL (some (melodyText name fs (ts1 ++ ts2))) melody durations length isProgmem
      = melodyOutcome (headerSettings fs) ts1 := by
  have hh : ∀ c ∈ joinComma fs, c ≠ 58 ∧ c ≠ 0 :=
    mem_joinComma fs (fun c => c ≠ 58 ∧ c ≠ 0) (by decide)
      (fun f hf c hc => ⟨((hfs f hf).2.1 c hc).2.1, ((hfs f hf).2.1 c hc).2.2⟩)
  have hN : ∀ c ∈ joinComma ((ts1 ++ ts2).map NoteToken.text), c ≠ 0 := by
    apply mem_joinComma _ (fun c => c ≠ 0) (by decide)
    intro f hf c hc
    obtain ⟨t, ht, rfl⟩ := List.mem_map.1 hf
    exact text_no_nul t (hts t ht) c hc
  unfold melodyText
  rw [parseRTTTL_sections name _ _ melody durations length isProgmem hname hh hN (by omega),
    parseBody_header _ _ (fun c hc => (hh c hc).2), if_neg (by omega),
    parseSettings_join fs _ _ (by have := length_le_joinComma fs (fun f hf => (hfs f hf).1); omega)
      hfs]
  simp only [melodyOutcome, headerSettings]
  generalize fs.foldl fieldEffect ⟨4, 6, 120⟩ = st
  by_cases hb : st.bpm = 0
  · simp only [hb, if_true]
  simp only [hb, if_false]
  have hz : 1 ≤ 254 - name.length - (joinComma fs).length
      - ((joinComma ((ts1 ++ ts2).map NoteToken.text)).take
          (253 - name.length - (joinComma fs).length)).length := by
    have := List.length_take_le (253 - name.length - (joinComma fs).length)
      (joinComma ((ts1 ++ ts2).map NoteToken.text))
    omega
  cases ts1 with
  | nil =>
    have h2 : ts2 = [] := by
      rcases hsplit with h | h
      · exact h
      · simp [MAX_RTTTL_NOTES] at h
    subst h2
    obtain ⟨z1, hz1⟩ : ∃ z1, 254 - name.length - (joinComma fs).length
        - ((joinComma (([] ++ []).map NoteToken.text)).take
            (253 - name.length - (joinComma fs).length)).length = z1 + 1 :=
      ⟨_, (Nat.sub_add_cancel hz).symm⟩
    rw [hz1]
    simp only [List.append_nil, List.map_nil, joinComma, List.take_nil, List.nil_append,
      List.replicate_succ, parseNotes_nul, notesOutcome]
  | cons t ts =>
    have hN2 : joinComma (((t :: ts) ++ ts2).map NoteToken.text)
        = joinComma ((t :: ts).map NoteToken.text) ++ commaTail (ts2.map NoteToken.text) := by
      simp [joinComma, commaTail_append]
    rw [hN2, List.take_append_eq_append_take, List.take_of_length_le (by omega)]
    obtain ⟨r, rs, hj, hr⟩ := junk_head (commaTail (ts2.map NoteToken.text))
      (253 - name.length - (joinComma fs).length
        - (joinComma ((t :: ts).map NoteToken.text)).length)
      (254 - name.length - (joinComma fs).length - (joinComma ((t :: ts).map NoteToken.text)
        ++ (commaTail (ts2.map NoteToken.text)).take (253 - name.length - (joinComma fs).length
          - (joinComma ((t :: ts).map NoteToken.text)).length)).length)
      (by
        rw [hN2, List.take_append_eq_append_take, List.take_of_length_le (by omega)] at hz
        exact hz)
      (by
        cases ts2 with
        | nil => exact Or.inl rfl
        | cons u us => exact Or.inr ⟨_, rfl⟩)
    rw [List.append_assoc, hj]
    have hmain := parseNotes_text ts t 0 MAX_RTTTL_NOTES st.bpm st.defaultDuration
      st.defaultOctave r rs (by simpa using hcap) (hts t (by simp))
      (fun u hu => hts u (by simp [hu]))
      (by
        rcases hr with h | ⟨h, hne⟩
        · exact Or.inl h
        · refine Or.inr ⟨h, ?_⟩
          rcases hsplit with h2 | h2
          · subst h2; simp [commaTail] at hne
          · simpa using h2)
    simp only [List.replicate_zero, List.nil_append] at hmain
    have e : joinComma ((t :: ts).map NoteToken.text) ++ r :: rs
        = t.text ++ (commaTail (ts.map NoteToken.text) ++ r :: rs) := by
      simp [joinComma]
    rw [e, hmain]

/-! ### Header fields of the grammar -/

theorem atoi_digits (ds : List Nat) (hd : ∀ c ∈ ds, isdigit c = true) :
    atoi ds = (digitsValue ds : Int) := by
  rw [← atoi_append_nul ds []]
  cases ds with
  | nil => simp [atoi, List.dropWhile, isspace, atoiDigits, isdigit, digitsValue]
  | cons a t => exact atoi_run a t 0 [] hd (by simp [isdigit])

theorem fieldEffect_text (st : Settings) (f : HeaderField) (hf : f.WF) :
    fieldEffect st f.text
      = ⟨(f.durationValue?).getD st.defaultDuration, (f.octaveValue?).getD st.defaultOctave,
          (f.bpmValue?).getD st.bpm⟩ := by
  cases f with
  | d ds =>
    simp [fieldEffect, HeaderField.text, atoi_digits ds hf.2, toUInt8_natCast,
      HeaderField.durationValue?, HeaderField.octaveValue?, HeaderField.bpmValue?]
  | o ds =>
    simp [fieldEffect, HeaderField.text, atoi_digits ds hf.2, toUInt8_natCast,
      HeaderField.durationValue?, HeaderField.octaveValue?, HeaderField.bpmValue?]
  | b ds =>
    simp [fieldEffect, HeaderField.text, atoi_digits ds hf.2, toUInt16_natCast,
      HeaderField.durationValue?, HeaderField.octaveValue?, HeaderField.bpmValue?]
  | other t =>
    obtain ⟨hne, _, hh⟩ := hf
    obtain ⟨a, u, rfl⟩ := List.exists_cons_of_ne_nil hne
    have := hh a (by simp)
    simp [fieldEffect, HeaderField.text, this.1, this.2.1, this.2.2,
      HeaderField.durationValue?, HeaderField.octaveValue?, HeaderField.bpmValue?]

theorem FieldOK_text (f : HeaderField) (hf : f.WF) : FieldOK f.text := by
  have hdig : ∀ ds : List Nat, (∀ c ∈ ds, isdigit c = true) →
      ∀ c ∈ ds, c ≠ 44 ∧ c ≠ 58 ∧ c ≠ 0 := by
    intro ds h c hc
    have := h c hc
    simp only [isdigit, Bool.and_eq_true, decide_eq_true_eq] at this
    omega
  cases f with
  | d ds =>
    refine ⟨by simp [HeaderField.text], ?_, by simp [HeaderField.text]⟩
    intro c hc
    simp only [HeaderField.text, List.mem_cons] at hc
    rcases hc with rfl | rfl | hc
    · decide
    · decide
    · exact hdig ds hf.2 c hc
  | o ds =>
    refine ⟨by simp [HeaderField.text], ?_, by simp [HeaderField.text]⟩
    intro c hc
    simp only [HeaderField.text, List.mem_cons] at hc
    rcases hc with rfl | rfl | hc
    · decide
    · decide
    · exact hdig ds hf.2 c hc
  | b ds =>
    refine ⟨by simp [HeaderField.text], ?_, by simp [HeaderField.text]⟩
    intro c hc
    simp only [HeaderField.text, List.mem_cons] at hc
    rcases hc with rfl | rfl | hc
    · decide
    · decide
    · exact hdig ds hf.2 c hc
  | other t =>
    obtain ⟨hne, hc, hh⟩ := hf
    refine ⟨hne, hc, ?_⟩
    intro t0 ht0 hk
    have := hh t0 ht0
    omega

theorem or_getD (a b : Option Nat) (d : Nat) : (a.or b).getD d = a.getD (b.getD d) := by
  cases a <;> simp

theorem foldl_fieldEffect_text (fs : List HeaderField) :
    ∀ st : Settings, (∀ f ∈ fs, f.WF) →
      (fs.map HeaderField.text).foldl fieldEffect st
        = ⟨(lastField HeaderField.durationValue? fs).getD st.defaultDuration,
           (lastField HeaderField.octaveValue? fs).getD st.defaultOctave,
           (lastField HeaderField.bpmValue? fs).getD st.bpm⟩ := by
  induction fs with
  | nil => intro st _; simp [lastField]
  | cons f t ih =>
    intro st hall
    simp only [List.map_cons, List.foldl_cons]
    rw [fieldEffect_text st f (hall f (List.mem_cons_self _ _)),
      ih _ (fun g hg => hall g (List.mem_cons_of_mem _ hg))]
    simp only [lastField, List.reverse_cons, List.findSome?_append, or_getD]
    simp [List.findSome?_cons]
    refine ⟨?_, ?_, ?_⟩ <;> congr 1 <;> split <;> simp_all

theorem headerSettings_text (fs : List HeaderField) (hfs : ∀ f ∈ fs, f.WF) :
    headerSettings (fs.map HeaderField.text) = specSettings fs :=
  foldl_fieldEffect_text fs _ hfs

theorem notesOutcome_ok (bpm dd dOct : Nat) (ts : List NoteToken)
    (h : ∀ t ∈ ts, t.durationValue dd ≠ 0) :
    notesOutcome bpm dd dOct ts = .ok (ts.map (specNote bpm dd dOct)) := by
  induction ts with
  | nil => rfl
  | cons t u ih =>
    simp only [notesOutcome, noteOutcome, h t (List.mem_cons_self _ _), if_false,
      ih (fun x hx => h x (List.mem_cons_of_mem _ hx)), List.map_cons]

theorem notesOutcome_inv (bpm dd dOct : Nat) (ts : List NoteToken) (ns : List (Nat × Nat))
    (h : notesOutcome bpm dd dOct ts = .ok ns) :
    ns = ts.map (specNote bpm dd dOct) := by
  induction ts generalizing ns with
  | nil => simp [notesOutcome] at h; subst h; rfl
  | cons t u ih =>
    simp only [notesOutcome, noteOutcome] at h
    split at h
    · simp at h
    · rename_i n hn
      split at h
      · simp at h
      · rename_i ms hms
        split at hn
        · simp at hn
        · simp only [Except.ok.injEq] at hn h
          rw [← h, ← hn, List.map_cons, ih ms hms]

theorem commaTail_length (fs : List (List Nat)) :
    (commaTail fs).length = (fs.map List.length).sum + fs.length := by
  induction fs with
  | nil => rfl
  | cons a t ih => simp [commaTail, ih]; omega

theorem joinComma_length (fs : List (List Nat)) :
    (joinComma fs).length = (fs.map List.length).sum + (fs.length - 1) := by
  cases fs with
  | nil => rfl
  | cons a t => simp [joinComma, commaTail_length]; omega

theorem melodyText_length (name : List Nat) (fs : List (List Nat)) (ts : List NoteToken) :
    (melodyText name fs ts).length
      = name.length + (joinComma fs).length + 2 + (joinComma (ts.map NoteToken.text)).length := by
  simp [melodyText]; omega

theorem melodyOutcome_ok (st : Settings) (ts : List NoteToken) (hb : st.bpm ≠ 0)
    (hd : ∀ t ∈ ts, t.durationValue st.defaultDuration ≠ 0) :
    melodyOutcome st ts
      = .ok (successWith (ts.map (specNote st.bpm st.defaultDuration st.defaultOctave))) := by
  simp only [melodyOutcome, hb, if_false, notesOutcome_ok _ _ _ ts hd, successWith]

theorem melodyOutcome_inv (st : Settings) (ts : List NoteToken) (res : ParseResult)
    (h : melodyOutcome st ts = .ok res) :
    res = successWith (ts.map (specNote st.bpm st.defaultDuration st.defaultOctave)) := by
  unfold melodyOutcome at h
  split at h
  · simp at h
  · split at h
    · simp at h
    · rename_i ns hns
      simp only [Except.ok.injEq] at h
      rw [← h, ← notesOutcome_inv _ _ _ _ _ hns, successWith]

theorem getElem?_map_middle {α β : Type} (g : α → β) (before after : List α) (t : α) :
    (List.map g (before ++ t :: after))[before.length]? = some (g t) := by
  induction before with
  | nil => simp
  | cons a l ih => simpa using ih

theorem fieldEffect_ignored (st : Settings) (f : List Nat)
    (hf : ∀ t0 ∈ f.head?, t0 ≠ 100 ∧ t0 ≠ 111 ∧ t0 ≠ 98) : fieldEffect st f = st := by
  cases f with
  | nil => rfl
  | cons a t =>
    have := hf a (by simp)
    simp [fieldEffect, this.1, this.2.1, this.2.2]

/-! ### Faults: the step budget is never one, and when the call fails -/

theorem drop_takeWhile_length (p : Nat → Bool) (l : List Nat) :
    l.drop (l.takeWhile p).length = l.dropWhile p := by
  induction l with
  | nil => rfl
  | cons a t ih =>
    by_cases h : p a = true
    · simp [List.takeWhile_cons, List.dropWhile_cons, h, ih]
    · simp [List.takeWhile_cons, List.dropWhile_cons, h]

theorem suffix_endsNul (l1 l2 : List Nat) (hs : l2 <:+ l1) (hne : l2 ≠ [])
    (h : l1.getLast? = some 0) : l2.getLast? = some 0 := by
  obtain ⟨t, rfl⟩ := hs
  rw [List.getLast?_append] at h
  cases hl : l2.getLast? with
  | none => exact absurd (List.getLast?_eq_none_iff.1 hl) hne
  | some x => rw [hl] at h; simpa using h

/-- A call of `strtok` on a NUL-terminated buffer leaves the saved position on a shorter,
still NUL-terminated, part of it. -/
theorem strtok_save (p token save : List Nat) (hp : p.getLast? = some 0)
    (h : strtok p = some (token, save)) :
    save.length < p.length ∧ save.getLast? = some 0 := by
  unfold strtok at h
  have hsuf : p.dropWhile (fun c => decide (c = 44)) <:+ p := List.dropWhile_suffix _
  rcases hd : p.dropWhile (fun c => decide (c = 44)) with _ | ⟨c, s⟩
  · rw [hd] at h; simp at h
  · rw [hd] at h hsuf
    by_cases hc0 : c = 0
    · simp [hc0] at h
    · simp only [hc0, if_false] at h
      have hc44 : c ≠ 44 := by
        have := List.head?_dropWhile_not (fun c => decide (c = 44)) p
        rw [hd] at this
        simpa using this
      have hcs : (c :: s).getLast? = some 0 := suffix_endsNul p (c :: s) hsuf (by simp) hp
      have hdrop := drop_takeWhile_length (fun x => decide (x ≠ 44 ∧ x ≠ 0)) (c :: s)
      rw [hdrop] at h
      have hD : (c :: s).dropWhile (fun x => decide (x ≠ 44 ∧ x ≠ 0))
          = s.dropWhile (fun x => decide (x ≠ 44 ∧ x ≠ 0)) := by
        simp [List.dropWhile_cons, hc44, hc0]
      have hDs : s.dropWhile (fun x => decide (x ≠ 44 ∧ x ≠ 0)) <:+ c :: s :=
        (List.dropWhile_suffix _).trans (List.suffix_cons c s)
      have hlen1 : (s.dropWhile (fun x => decide (x ≠ 44 ∧ x ≠ 0))).length ≤ s.length :=
        (List.dropWhile_suffix _).length_le
      have hlen2 : (c :: s).length ≤ p.length := hsuf.length_le
      rw [hD] at h
      rcases hD2 : s.dropWhile (fun x => decide (x ≠ 44 ∧ x ≠ 0)) with _ | ⟨e, after⟩
      · exfalso
        have hall : ∀ x ∈ c :: s, x ≠ 0 := by
          intro x hx
          rcases List.mem_cons.1 hx with rfl | hx
          · exact hc0
          · have := List.dropWhile_eq_nil_iff.1 hD2 x hx
            simp at this
            exact this.2
        exact hall 0 (List.mem_of_getLast?_eq_some hcs) rfl
      · rw [hD2] at h hDs hlen1
        have hE : (e :: after).getLast? = some 0 :=
          suffix_endsNul (c :: s) (e :: after) hDs (by simp) hcs
        simp only [List.length_cons] at hlen1 hlen2
        by_cases he : e = 44
        · simp only [he, if_true, Option.some.injEq, Prod.mk.injEq] at h
          obtain ⟨_, rfl⟩ := h
          refine ⟨by omega, ?_⟩
          cases after with
          | nil => simp [he] at hE
          | cons a t => simpa using hE
        · simp only [he, if_false, Option.some.injEq, Prod.mk.injEq] at h
          obtain ⟨_, rfl⟩ := h
          exact ⟨by simp only [List.length_cons]; omega, hE⟩

theorem applyToken_no_fuel (token : List Nat) (st : Settings) :
    applyToken token st ≠ .error .fuel := by
  unfold applyToken
  split
  · simp
  · split
    · split <;> simp
    · split
      · split <;> simp
      · split
        · split <;> simp
        · simp

/-- The token loop never uses up its step budget on a NUL-terminated buffer. -/
theorem parseSettings_no_fuel (fuel : Nat) :
    ∀ (p : List Nat) (st : Settings), p.length ≤ fuel → p.getLast? = some 0 →
      parseSettings fuel p st ≠ .error .fuel := by
  induction fuel with
  | zero =>
    intro p st hl hp
    have : p = [] := List.length_eq_zero.1 (by omega)
    subst this
    simp at hp
  | succ k ih =>
    intro p st hl hp
    rw [parseSettings]
    split
    · simp
    · rename_i token save hst
      have hs := strtok_save p token save hp hst
      split
      · rename_i e he
        intro hcon
        simp only [Except.error.injEq] at hcon
        subst hcon
        exact applyToken_no_fuel _ _ he
      · exact ih save _ (by omega) hs.2

theorem scan_no_fuel (dd dOct : Nat) (ptr : List Nat) :
    scanNote dd dOct ptr ≠ .error .fuel := by
  have hdot : ∀ a b c d p, scanDot a b c d p ≠ .error .fuel := by
    intro a b c d p
    unfold scanDot
    split
    · simp
    · split <;> simp
  have hoct : ∀ a b c d p, scanOctave a b c d p ≠ .error .fuel := by
    intro a b c d p
    unfold scanOctave
    split
    · simp
    · split <;> exact hdot _ _ _ _ _
  have hsharp : ∀ a b c p, scanSharp a b c p ≠ .error .fuel := by
    intro a b c p
    unfold scanSharp
    split
    · simp
    · split <;> exact hoct _ _ _ _ _
  have hletter : ∀ a b p, scanLetter a b p ≠ .error .fuel := by
    intro a b p
    unfold scanLetter
    split
    · simp
    · exact hsharp _ _ _ _
  unfold scanNote
  split
  · simp
  · split <;> exact hletter _ _ _

theorem parseNote_no_fuel (q dd dOct : Nat) (ptr : List Nat) :
    parseNote q dd dOct ptr ≠ .error .fuel := by
  unfold parseNote
  split
  · rename_i e he
    intro hcon
    simp only [Except.error.injEq] at hcon
    subst hcon
    exact scan_no_fuel _ _ _ he
  · split
    · rename_i e he
      intro hcon
      simp only [Except.error.injEq] at hcon
      subst hcon
      unfold noteDuration at he
      split at he <;> simp at he
    · simp

theorem parseNotes_no_fuel (room : Nat) :
    ∀ (q dd dOct : Nat) (ptr : List Nat), parseNotes room q dd dOct ptr ≠ .error .fuel := by
  induction room with
  | zero =>
    intro q dd dOct ptr
    cases ptr with
    | nil => simp [parseNotes]
    | cons c rest => rw [parseNotes]; split <;> simp
  | succ k ih =>
    intro q dd dOct ptr
    cases ptr with
    | nil => simp [parseNotes]
    | cons c rest =>
      rw [parseNotes]
      split
      · simp
      · split
        · rename_i e he
          intro hcon
          simp only [Except.error.injEq] at hcon
          subst hcon
          exact parseNote_no_fuel _ _ _ _ he
        · split
          · rename_i e he
            intro hcon
            simp only [Except.error.injEq] at hcon
            subst hcon
            exact ih _ _ _ _ he
          · simp

/-- Lines 212-293 either fault or return success; the fault is never the step budget. -/
theorem parseBody_outcome (settings notes : List Nat) :
    parseBody settings notes ≠ .error .fuel
    ∧ ∀ r, parseBody settings notes = .ok r → r.ret = true := by
  unfold parseBody
  simp only
  split
  · exact ⟨by simp, by simp⟩
  · split
    · rename_i e he
      refine ⟨?_, by simp⟩
      intro hcon
      simp only [Except.error.injEq] at hcon
      subst hcon
      exact parseSettings_no_fuel _ _ _ (le_refl _) (by simp) he
    · split
      · exact ⟨by simp, by simp⟩
      · split
        · rename_i e he
          refine ⟨?_, by simp⟩
          intro hcon
          simp only [Except.error.injEq] at hcon
          subst hcon
          exact parseNotes_no_fuel _ _ _ _ _ he
        · refine ⟨by simp, ?_⟩
          intro r hr
          simp only [Except.ok.injEq] at hr
          rw [← hr]

theorem strchr_absent (c Z : List Nat) (ch : Nat) (hc : ch ∉ c) (hch : ch ≠ 0) :
    strchr (c ++ 0 :: Z) ch = none := by
  induction c with
  | nil => simp [strchr, Ne.symm hch]
  | cons a t ih =>
    have ha : a ≠ ch := fun h => hc (by simp [h])
    simp only [List.cons_append, strchr, ha, if_false]
    split
    · rfl
    · exact ih (fun h => hc (List.mem_cons_of_mem _ h))

/-- The failure conditions of `parseRTTTL` on a non-null string: it returns failure, its
outputs unchanged, exactly when the first 255 bytes hold fewer than two `:`; with two or more
it returns success or faults. -/
theorem parseRTTTL_failure_iff (s : List Nat) (melody durations : Option (List Nat))
    (length : Nat) (isProgmem : Bool) :
    (((s.takeWhile (fun c => c ≠ 0)).take 255).count 58 < 2 →
        parseRTTTL (some s) melody durations length isProgmem
          = .ok ⟨false, melody, durations, length⟩)
    ∧ (2 ≤ ((s.takeWhile (fun c => c ≠ 0)).take 255).count 58 →
        parseRTTTL (some s) melody durations length isProgmem ≠ .error .fuel
        ∧ ∀ r, parseRTTTL (some s) melody durations length isProgmem = .ok r →
            r.ret = true) := by
  have hbuf : (if isProgmem then strncpy_P s 255 else strncpy s 255) ++ [0]
      = (s.takeWhile (fun c => c ≠ 0)).take 255
        ++ 0 :: List.replicate (255 - ((s.takeWhile (fun c => c ≠ 0)).take 255).length) 0 := by
    have e : (if isProgmem then strncpy_P s 255 else strncpy s 255) = strncpy s 255 := by
      cases isProgmem <;> simp [strncpy_P]
    rw [e]
    simp only [strncpy, List.append_assoc]
    congr 1
    rw [← List.replicate_succ', List.replicate_succ]
  have hnul : ∀ x ∈ (s.takeWhile (fun c => c ≠ 0)).take 255, x ≠ 0 := by
    intro x hx
    have := List.mem_takeWhile_imp (List.mem_of_mem_take hx)
    simpa using this
  generalize (s.takeWhile (fun c => c ≠ 0)).take 255 = c at hbuf hnul
  generalize List.replicate (255 - c.length) 0 = Z at hbuf
  unfold parseRTTTL
  simp only [hbuf]
  by_cases h1 : 58 ∈ c
  · obtain ⟨pre, suf, rfl, hpre⟩ := List.eq_append_cons_of_mem h1
    have e1 : (pre ++ 58 :: suf) ++ 0 :: Z = pre ++ 58 :: (suf ++ 0 :: Z) := by simp
    rw [e1, strchr_skip pre 58 _ (fun x hx =>
      ⟨fun h => hpre (h ▸ hx), hnul x (by simp [hx])⟩)]
    simp only [List.drop_succ_cons, List.drop_zero]
    by_cases h2 : 58 ∈ suf
    · obtain ⟨pre2, suf2, rfl, hpre2⟩ := List.eq_append_cons_of_mem h2
      have e2 : (pre2 ++ 58 :: suf2) ++ 0 :: Z = pre2 ++ 58 :: (suf2 ++ 0 :: Z) := by simp
      rw [e2, strchr_skip pre2 58 _ (fun x hx =>
        ⟨fun h => hpre2 (h ▸ hx), hnul x (by simp [hx])⟩)]
      simp only [List.drop_succ_cons, List.drop_zero]
      refine ⟨?_, fun _ => parseBody_outcome _ _⟩
      intro hlt
      simp [List.count_cons] at hlt
      omega
    · rw [strchr_absent suf Z 58 h2 (by decide)]
      refine ⟨fun _ => rfl, ?_⟩
      intro hge
      simp [List.count_cons, List.count_eq_zero.2 h2, List.count_eq_zero.2 hpre] at hge
  · rw [strchr_absent c Z 58 h1 (by decide)]
    refine ⟨fun _ => rfl, ?_⟩
    intro hge
    simp [List.count_eq_zero.2 h1] at hge

/-- No call of `parseRTTTL` ends on the step budget of the embedding: the budget given to
the token loop always suffices. -/
theorem parseRTTTL_no_fuel (rtttl melody durations : Option (List Nat)) (length : Nat)
    (isProgmem : Bool) :
    parseRTTTL rtttl melody durations length isProgmem ≠ .error .fuel := by
  cases rtttl with
  | none => simp [parseRTTTL]
  | some s =>
    have h := parseRTTTL_failure_iff s melody durations length isProgmem
    by_cases hc : ((s.takeWhile (fun c => c ≠ 0)).take 255).count 58 < 2
    · rw [h.1 hc]; simp
    · exact (h.2 (by omega)).1

theorem joinComma_take_length_le (fs : List (List Nat)) (n : Nat) :
    (joinComma (fs.take n)).length ≤ (joinComma fs).length := by
  rw [joinComma_length, joinComma_length]
  have h1 : ((fs.take n).map List.length).sum ≤ (fs.map List.length).sum := by
    conv_rhs => rw [← List.take_append_drop n fs]
    rw [List.map_append, List.sum_append]
    omega
  have h2 : (fs.take n).length ≤ fs.length := by simp
  omega

/-- The parse of a melody text of any number of notes that lies within 255 bytes: the parser
reads the first 100 notes at most. -/
theorem parseRTTTL_melodyText_short (name : List Nat) (fs : List (List Nat))
    (ts : List NoteToken) (melody durations : Option (List Nat)) (length : Nat)
    (isProgmem : Bool)
    (hname : ∀ c ∈ name, c ≠ 58 ∧ c ≠ 0) (hfs : ∀ f ∈ fs, FieldOK f)
    (hts : ∀ t ∈ ts, t.WF)
    (hhdr : (joinComma fs).length ≤ 31)
    (hlen : (melodyText name fs ts).length ≤ 255) :
    parseRTTTL (some (melodyText name fs ts)) melody durations length isProgmem
      = melodyOutcome (headerSettings fs) (ts.take MAX_RTTTL_NOTES) := by
  rw [melodyText_length] at hlen
  have hl := joinComma_take_length_le (ts.map NoteToken.text) MAX_RTTTL_NOTES
  rw [← List.map_take] at hl
  have h := parseRTTTL_melodyText name fs (ts.take MAX_RTTTL_NOTES) (ts.drop MAX_RTTTL_NOTES)
    melody durations length isProgmem hname hfs
    (by rw [List.take_append_drop]; exact hts) hhdr (by omega)
    (by rw [List.length_take]; exact Nat.min_le_left _ _)
    (by
      by_cases hk : MAX_RTTTL_NOTES ≤ ts.length
      · exact Or.inr (by rw [List.length_take]; omega)
      · exact Or.inl (List.drop_eq_nil_of_le (by omega)))
  rw [List.take_append_drop] at h
  exact h

/-! ### The note loop on any text followed by NULs -/

theorem dropWhile_append_nul {p : Nat → Bool} (xs W : List Nat) (hp : p 0 = false) :
    (xs ++ 0 :: W).dropWhile p = xs.dropWhile p ++ 0 :: W := by
  induction xs with
  | nil => simp [List.dropWhile_cons, hp]
  | cons a t ih =>
    by_cases h : p a = true
    · simp [List.dropWhile_cons, h, ih]
    · simp [List.dropWhile_cons, h]

theorem scanDot_pad (d n : Nat) (s : Bool) (o : Nat) (xs : List Nat) :
    ∃ (dt : Bool) (xs1 : List Nat), xs1.length ≤ xs.length ∧ (∀ c ∈ xs1, c ∈ xs) ∧
      ∀ Z, scanDot d n s o (xs ++ 0 :: 0 :: Z) = .ok ⟨d, n, s, o, dt, xs1 ++ 0 :: 0 :: Z⟩ := by
  cases xs with
  | nil => exact ⟨false, [], by simp, by simp, fun Z => by simp [scanDot]⟩
  | cons a t =>
    by_cases h : a = 46
    · exact ⟨true, t, by simp, fun c hc => List.mem_cons_of_mem _ hc,
        fun Z => by simp [scanDot, h]⟩
    · exact ⟨false, a :: t, by simp, fun c hc => hc, fun Z => by simp [scanDot, h]⟩

theorem scanOctave_pad (d n : Nat) (s : Bool) (dOct : Nat) (xs : List Nat) :
    ∃ (o : Nat) (dt : Bool) (xs1 : List Nat), xs1.length ≤ xs.length ∧ (∀ c ∈ xs1, c ∈ xs) ∧
      ∀ Z, scanOctave d n s dOct (xs ++ 0 :: 0 :: Z)
        = .ok ⟨d, n, s, o, dt, xs1 ++ 0 :: 0 :: Z⟩ := by
  cases xs with
  | nil =>
    obtain ⟨dt, xs1, hl, hm, h⟩ := scanDot_pad d n s dOct []
    exact ⟨dOct, dt, xs1, hl, hm, fun Z => by
      have := h Z
      simp only [List.nil_append] at this ⊢
      simp [scanOctave, isdigit, this]⟩
  | cons a t =>
    by_cases hd : isdigit a = true
    · obtain ⟨dt, xs1, hl, hm, h⟩ := scanDot_pad d n s (a - 48) t
      exact ⟨a - 48, dt, xs1, by simp; omega, fun c hc => List.mem_cons_of_mem _ (hm c hc),
        fun Z => by simp [scanOctave, hd, h Z]⟩
    · obtain ⟨dt, xs1, hl, hm, h⟩ := scanDot_pad d n s dOct (a :: t)
      exact ⟨dOct, dt, xs1, hl, hm, fun Z => by
        have := h Z
        simp only [List.cons_append] at this ⊢
        simp [scanOctave, hd, this]⟩

theorem scanSharp_pad (d n dOct : Nat) (xs : List Nat) :
    ∃ (s : Bool) (o : Nat) (dt : Bool) (xs1 : List Nat),
      xs1.length ≤ xs.length ∧ (∀ c ∈ xs1, c ∈ xs) ∧
      ∀ Z, scanSharp d n dOct (xs ++ 0 :: 0 :: Z)
        = .ok ⟨d, n, s, o, dt, xs1 ++ 0 :: 0 :: Z⟩ := by
  cases xs with
  | nil =>
    obtain ⟨o, dt, xs1, hl, hm, h⟩ := scanOctave_pad d n false dOct []
    exact ⟨false, o, dt, xs1, hl, hm, fun Z => by
      have := h Z
      simp only [List.nil_append] at this ⊢
      simp [scanSharp, this]⟩
  | cons a t =>
    by_cases hs : a = 35
    · obtain ⟨o, dt, xs1, hl, hm, h⟩ := scanOctave_pad d n true dOct t
      exact ⟨true, o, dt, xs1, by simp; omega, fun c hc => List.mem_cons_of_mem _ (hm c hc),
        fun Z => by simp [scanSharp, hs, h Z]⟩
    · obtain ⟨o, dt, xs1, hl, hm, h⟩ := scanOctave_pad d n false dOct (a :: t)
      exact ⟨false, o, dt, xs1, hl, hm, fun Z => by
        have := h Z
        simp only [List.cons_append] at this ⊢
        simp [scanSharp, hs, this]⟩

/-- Where a scan ends on a text followed by two NULs or more: still inside the text, or on
the NUL after the one it read as the letter. -/
theorem scanLetter_pad (d dOct : Nat) (xs : List Nat) :
    ∃ (n : Nat) (s : Bool) (o : Nat) (dt : Bool),
      (∃ xs1 : List Nat, xs1.length < xs.length ∧ (∀ c ∈ xs1, c ∈ xs) ∧
        ∀ Z, scanLetter d dOct (xs ++ 0 :: 0 :: Z)
          = .ok ⟨d, n, s, o, dt, xs1 ++ 0 :: 0 :: Z⟩)
      ∨ (∀ Z, scanLetter d dOct (xs ++ 0 :: 0 :: Z) = .ok ⟨d, n, s, o, dt, 0 :: Z⟩) := by
  cases xs with
  | nil =>
    exact ⟨tolower 0, false, dOct, false, Or.inr (fun Z => by
      simp [scanLetter, scanSharp, scanOctave, scanDot, isdigit])⟩
  | cons a t =>
    obtain ⟨s, o, dt, xs1, hl, hm, h⟩ := scanSharp_pad d (tolower a) dOct t
    exact ⟨tolower a, s, o, dt, Or.inl ⟨xs1, by simp; omega,
      fun c hc => List.mem_cons_of_mem _ (hm c hc), fun Z => by simp [scanLetter, h Z]⟩⟩

theorem scanNote_pad (dd dOct : Nat) (xs : List Nat) (hne : xs ≠ []) :
    ∃ (d n : Nat) (s : Bool) (o : Nat) (dt : Bool),
      (∃ xs1 : List Nat, xs1.length < xs.length ∧ (∀ c ∈ xs1, c ∈ xs) ∧
        ∀ Z, scanNote dd dOct (xs ++ 0 :: 0 :: Z)
          = .ok ⟨d, n, s, o, dt, xs1 ++ 0 :: 0 :: Z⟩)
      ∨ (∀ Z, scanNote dd dOct (xs ++ 0 :: 0 :: Z) = .ok ⟨d, n, s, o, dt, 0 :: Z⟩) := by
  have hdw : ∀ Z, (xs ++ 0 :: 0 :: Z).dropWhile (fun c => decide (c = 44))
      = xs.dropWhile (fun c => decide (c = 44)) ++ 0 :: 0 :: Z :=
    fun Z => dropWhile_append_nul xs _ (by simp)
  have hsub : ∀ c ∈ xs.dropWhile (fun c => decide (c = 44)), c ∈ xs :=
    fun c hc => (List.dropWhile_sublist _).subset hc
  have hlen : (xs.dropWhile (fun c => decide (c = 44))).length ≤ xs.length :=
    (List.dropWhile_suffix _).length_le
  have hpos : 0 < xs.length := List.length_pos.2 hne
  rcases hx : xs.dropWhile (fun c => decide (c = 44)) with _ | ⟨a, t⟩
  · obtain ⟨n, s, o, dt, h⟩ := scanLetter_pad dd dOct []
    rcases h with ⟨xs1, hl, _, _⟩ | h
    · simp at hl
    · exact ⟨dd, n, s, o, dt, Or.inr (fun Z => by
        have := h Z
        simp only [List.nil_append] at this
        simp [scanNote, hdw Z, hx, isdigit, this])⟩
  · rw [hx] at hsub hlen
    by_cases hd : isdigit a = true
    · have hdd : ∀ Z, ((a :: t) ++ 0 :: 0 :: Z).dropWhile isdigit
          = (a :: t).dropWhile isdigit ++ 0 :: 0 :: Z :=
        fun Z => dropWhile_append_nul (a :: t) _ (by simp [isdigit])
      have hsub2 : ∀ c ∈ (a :: t).dropWhile isdigit, c ∈ a :: t :=
        fun c hc => (List.dropWhile_sublist _).subset hc
      have hlen2 : ((a :: t).dropWhile isdigit).length ≤ (a :: t).length :=
        (List.dropWhile_suffix _).length_le
      obtain ⟨n, s, o, dt, h⟩ :=
        scanLetter_pad (toUInt8 (atoi (a :: t))) dOct ((a :: t).dropWhile isdigit)
      have hat : ∀ Z, atoi (a :: (t ++ 0 :: 0 :: Z)) = atoi (a :: t) := fun Z => by
        have := atoi_append_nul (a :: t) (0 :: Z)
        simpa using this
      rcases h with ⟨xs1, hl, hm, h⟩ | h
      · exact ⟨toUInt8 (atoi (a :: t)), n, s, o, dt, Or.inl ⟨xs1, by omega,
          fun c hc => hsub c (hsub2 c (hm c hc)), fun Z => by
            have h1 := h Z
            have h2 := hdd Z
            simp only [List.cons_append] at h2
            simp only [scanNote, hdw Z, hx, List.cons_append, hd, if_true, hat Z, h2, h1]⟩⟩
      · exact ⟨toUInt8 (atoi (a :: t)), n, s, o, dt, Or.inr (fun Z => by
          have h1 := h Z
          have h2 := hdd Z
          simp only [List.cons_append] at h2
          simp only [scanNote, hdw Z, hx, List.cons_append, hd, if_true, hat Z, h2, h1])⟩
    · obtain ⟨n, s, o, dt, h⟩ := scanLetter_pad dd dOct (a :: t)
      rcases h with ⟨xs1, hl, hm, h⟩ | h
      · exact ⟨dd, n, s, o, dt, Or.inl ⟨xs1, by omega, fun c hc => hsub c (hm c hc),
          fun Z => by
            have h1 := h Z
            simp only [List.cons_append] at h1
            simp [scanNote, hdw Z, hx, hd, h1]⟩⟩
      · exact ⟨dd, n, s, o, dt, Or.inr (fun Z => by
          have h1 := h Z
          simp only [List.cons_append] at h1
          simp [scanNote, hdw Z, hx, hd, h1])⟩

/-- The note loop reads at most two of the NULs that follow the text: its result does not
depend on what lies behind them. -/
theorem parseNotes_pad (k : Nat) :
    ∀ (xs : List Nat), xs.length ≤ k → (∀ c ∈ xs, c ≠ 0) →
      ∀ (room q dd dOct : Nat) (Z : List Nat),
        parseNotes room q dd dOct (xs ++ 0 :: 0 :: Z)
          = parseNotes room q dd dOct (xs ++ [0, 0]) := by
  induction k with
  | zero =>
    intro xs hl _ room q dd dOct Z
    have : xs = [] := List.length_eq_zero.1 (by omega)
    subst this
    simp [parseNotes_nul]
  | succ k ih =>
    intro xs hl hnul room q dd dOct Z
    cases xs with
    | nil => simp [parseNotes_nul]
    | cons a t =>
      have ha : a ≠ 0 := hnul a (List.mem_cons_self _ _)
      cases room with
      | zero => simp [parseNotes_zero]
      | succ r =>
        simp only [List.cons_append]
        rw [parseNotes_succ _ _ _ _ _ _ ha, parseNotes_succ _ _ _ _ _ _ ha]
        obtain ⟨d, n, s, o, dt, h⟩ := scanNote_pad dd dOct (a :: t) (by simp)
        rcases h with ⟨xs1, hl1, hm, h⟩ | h
        · have h1 := h Z
          have h2 := h []
          simp only [List.cons_append] at h1 h2
          simp only [parseNote, h1, h2]
          cases noteDuration q d dt with
          | error e => rfl
          | ok dur =>
            simp only
            rw [ih xs1 (by simp at hl hl1; omega) (fun c hc => hnul c (hm c hc)) r q dd dOct Z]
        · have h1 := h Z
          have h2 := h []
          simp only [List.cons_append] at h1 h2
          simp only [parseNote, h1, h2]
          cases noteDuration q d dt with
          | error e => rfl
          | ok dur => simp only [parseNotes_nul]

theorem parseNotes_replicate (xs : List Nat) (hnul : ∀ c ∈ xs, c ≠ 0)
    (room q dd dOct z : Nat) (hz : 2 ≤ z) :
    parseNotes room q dd dOct (xs ++ List.replicate z 0)
      = parseNotes room q dd dOct (xs ++ [0, 0]) := by
  obtain ⟨z1, rfl⟩ : ∃ z1, z = z1 + 2 := ⟨z - 2, by omega⟩
  have : List.replicate (z1 + 2) 0 = 0 :: 0 :: List.replicate z1 0 := by
    simp [List.replicate_succ]
  rw [this]
  exact parseNotes_pad xs.length xs (le_refl _) hnul room q dd dOct _

/-- The parse of a string with its two separators, a header of well-shaped fields and any
notes section, all within 254 bytes. -/
theorem parseRTTTL_fields (name : List Nat) (fs : List (List Nat)) (N : List Nat)
    (melody durations : Option (List Nat)) (length : Nat) (isProgmem : Bool)
    (hname : ∀ c ∈ name, c ≠ 58 ∧ c ≠ 0) (hfs : ∀ f ∈ fs, FieldOK f)
    (hN : ∀ c ∈ N, c ≠ 0)
    (hhdr : (joinComma fs).length ≤ 31)
    (hlen : (name ++ 58 :: (joinComma fs ++ 58 :: N)).length ≤ 254) :
    parseRTTTL (some (name ++ 58 :: (joinComma fs ++ 58 :: N))) melody durations length
        isProgmem
      = if (headerSettings fs).bpm = 0 then .error .divByZero
        else
          match parseNotes MAX_RTTTL_NOTES (60000 / (headerSettings fs).bpm)
              (headerSettings fs).defaultDuration (headerSettings fs).defaultOctave
              (N ++ [0, 0]) with
          | .error e => .error e
          | .ok ns => .ok ⟨true, some (ns.map Prod.fst), some (ns.map Prod.snd), ns.length⟩ := by
  have hh : ∀ c ∈ joinComma fs, c ≠ 58 ∧ c ≠ 0 :=
    mem_joinComma fs (fun c => c ≠ 58 ∧ c ≠ 0) (by decide)
      (fun f hf c hc => ⟨((hfs f hf).2.1 c hc).2.1, ((hfs f hf).2.1 c hc).2.2⟩)
  simp only [List.length_append, List.length_cons] at hlen
  rw [parseRTTTL_sections name _ _ melody durations length isProgmem hname hh hN (by omega),
    parseBody_header _ _ (fun c hc => (hh c hc).2), if_neg (by omega),
    parseSettings_join fs _ _ (by have := length_le_joinComma fs (fun f hf => (hfs f hf).1); omega)
      hfs]
  rw [List.take_of_length_le (by omega)]
  simp only [headerSettings]
  rw [parseNotes_replicate N hN _ _ _ _ _ (by omega)]

/-! ### The controllers: events of one call -/

/-- What `playTone` causes is at most one command to the channel. -/
theorem playTone_events (state : ToneState) (f d now pin : Nat) :
    (playTone state f d now pin).2 = [] ∨ (playTone state f d now pin).2 = [.tone pin f]
      ∨ (playTone state f d now pin).2 = [.noTone pin] := by
  unfold playTone
  split
  · simp
  · rename_i h
    simp only [MAX_FREQUENCY, not_or, not_lt] at h
    have : f % 65536 = f := Nat.mod_eq_of_lt (by omega)
    split <;> simp [this]

/-- A frequency from 31 to 65535 with a duration that is not zero is accepted by `playTone`:
the start time is recorded, the frequency is emitted and the tone plays. -/
theorem playTone_in_range (state : ToneState) (f d now pin : Nat) (h1 : MIN_FREQUENCY ≤ f)
    (h2 : f ≤ MAX_FREQUENCY) (h3 : 0 < d) :
    playTone state f d now pin = (⟨true, now, f, d⟩, [.tone pin f]) := by
  simp only [MIN_FREQUENCY, MAX_FREQUENCY] at h1 h2
  have e : f % 65536 = f := Nat.mod_eq_of_lt (by omega)
  have hp : f ≠ PAUSE := by simp only [PAUSE]; omega
  have hg : ¬ (f < MIN_FREQUENCY ∨ f > MAX_FREQUENCY ∨ d ≤ 0) := by
    simp only [MIN_FREQUENCY, MAX_FREQUENCY]; omega
  simp only [playTone, hg, if_false, hp, ne_eq, not_false_eq_true, if_true, e]

/-- With both elements in the arrays, a note start is one call of `playTone` and what it
causes. -/
theorem startNote_ok (m d : List Nat) (i now pin : Nat) (hm : i < m.length)
    (hd : i < d.length) :
    ∃ ev, startNote (some m) (some d) i now pin = .ok ev
      ∧ (ev.filter Event.isCall).length = 1 ∧ ev.filter Event.isDelete = [] := by
  unfold startNote readAt
  simp only [List.getElem?_eq_getElem hm, List.getElem?_eq_getElem hd]
  refine ⟨_, rfl, ?_, ?_⟩
  · rcases playTone_events ⟨false, 0, m[i], d[i]⟩ m[i] d[i] now pin with h | h | h <;>
      simp [h, Event.isCall]
  · rcases playTone_events ⟨false, 0, m[i], d[i]⟩ m[i] d[i] now pin with h | h | h <;>
      simp [h, Event.isDelete]

/-! ### The melody controller: one update call from a reached state -/

/-- An update call from a reached state returns, reaches a state again, makes the calls of
`playTone` that the counter of the new state tells, and deletes the arrays when, and only
when, it ends an owned melody. -/
theorem updateMelody_step (m d : List Nat) (L R : Nat) (dyn : Bool) (st : MelodyState)
    (t pin : Nat) (h : st.Reached m d L R dyn) :
    ∃ st1 ev, updateMelody st t pin = .ok (st1, ev) ∧ st1.Reached m d L R dyn
      ∧ st1.calls = st.calls + (ev.filter Event.isCall).length
      ∧ ev.filter Event.isDelete
          = (if st.isPlaying = true ∧ st1.isPlaying = false ∧ dyn = true
             then [.delete (some m), .delete (some d)] else [])
      ∧ (st.isPlaying = false → st1 = st ∧ ev = [])
      ∧ (st1.isPlaying = true → st.isPlaying = true ∧ st1.melody = st.melody
          ∧ st1.durations = st.durations) := by
  obtain ⟨ip, cn, lt, mel, dur, len, isd, cr, tr⟩ := st
  obtain ⟨hL, hm, hd, hR0, hR, h1, h2, h3, h4, h5, h6, h7⟩ := h
  simp only at h1 h2 h3 h4 h5 h6 h7
  subst h1 h2 h3
  unfold updateMelody
  cases ip with
  | false =>
    simp only [if_true]
    refine ⟨_, _, rfl, ?_, by simp, by simp, by simp, by simp⟩
    exact ⟨hL, hm, hd, hR0, hR, rfl, rfl, rfl, h4, h5, h6, h7⟩
  | true =>
    obtain ⟨rfl, rfl⟩ := h6 rfl
    simp only [Bool.true_eq_false, if_false, ge_iff_le]
    by_cases hc : len ≤ cn
    · have hcn : cn = len := by omega
      subst hcn
      simp only [le_refl, if_true]
      by_cases hr : cr + 1 < tr
      · obtain ⟨ev, he, hcall, hdel⟩ := startNote_ok m d 0 t pin (by omega) (by omega)
        have hw : (cr + 1) % 256 = cr + 1 := Nat.mod_eq_of_lt (by omega)
        simp only [hr, if_true, he, hw]
        refine ⟨_, _, rfl, ?_, ?_, ?_, by simp, by simp⟩
        · exact ⟨hL, hm, hd, hR0, hR, rfl, rfl, rfl, by simp, by simpa using hr,
            by simp, by simp⟩
        · simp only [MelodyState.calls, hcall]
          have e : (cr + 1) * cn = cr * cn + cn := by ring
          rw [e]
          have : min (0 + 1) cn = 1 := by omega
          have : min (cn + 1) cn = cn := by omega
          omega
        · simp [hdel]
      · simp only [hr, if_false]
        cases isd with
        | true =>
          refine ⟨_, _, rfl, ?_, ?_, ?_, by simp, by simp⟩
          · exact ⟨hL, hm, hd, hR0, hR, rfl, rfl, rfl, by simp, h5, by simp,
              fun _ => ⟨rfl, by simp only; omega, by simp, by simp⟩⟩
          · simp [MelodyState.calls, Event.isCall]
          · simp [Event.isDelete]
        | false =>
          simp only [Bool.false_eq_true, if_false]
          refine ⟨_, _, rfl, ?_, ?_, ?_, by simp, by simp⟩
          · exact ⟨hL, hm, hd, hR0, hR, rfl, rfl, rfl, by simp, h5, by simp,
              fun _ => ⟨rfl, by simp only; omega, by simp, by simp⟩⟩
          · simp [MelodyState.calls, Event.isCall]
          · simp [Event.isDelete]
    · have hlt : cn < len := by omega
      simp only [hc, if_false]
      have hrd : readAt (some d) cn = .ok (d.get ⟨cn, by omega⟩) := by
        unfold readAt
        simp [List.getElem?_eq_getElem (show cn < d.length by omega)]
      simp only [hrd]
      split
      · by_cases hn : cn + 1 < len
        · obtain ⟨ev, he, hcall, hdel⟩ :=
            startNote_ok m d (cn + 1) t pin (by omega) (by omega)
          simp only [hn, if_true, he]
          refine ⟨_, _, rfl, ?_, ?_, ?_, by simp, by simp⟩
          · exact ⟨hL, hm, hd, hR0, hR, rfl, rfl, rfl, by simp only; omega, h5,
              by simp, by simp⟩
          · simp only [MelodyState.calls, List.filter_cons, Event.isCall, hcall]
            have : min (cn + 1 + 1) len = cn + 2 := by omega
            have : min (cn + 1) len = cn + 1 := by omega
            simp
            omega
          · simp [hdel, Event.isDelete]
        · simp only [hn, if_false]
          refine ⟨_, _, rfl, ?_, ?_, ?_, by simp, by simp⟩
          · exact ⟨hL, hm, hd, hR0, hR, rfl, rfl, rfl, by simp only; omega, h5,
              by simp, by simp⟩
          · simp only [MelodyState.calls, List.filter_cons, Event.isCall]
            have : min (cn + 1 + 1) len = len := by omega
            have : min (cn + 1) len = cn + 1 := by omega
            simp
            omega
          · simp [Event.isDelete]
      · refine ⟨_, _, rfl, ?_, by simp, by simp, by simp, by simp⟩
        exact ⟨hL, hm, hd, hR0, hR, rfl, rfl, rfl, h4, h5, by simp, by simp⟩

/-- Any number of update calls from a reached state: they all return, and the calls of
`playTone` and the deletions add up as in one call. -/
theorem runMelody_reached (m d : List Nat) (L R : Nat) (dyn : Bool) (pin : Nat)
    (clock : List Nat) :
    ∀ st : MelodyState, st.Reached m d L R dyn →
    ∃ st2 ev, runMelody pin st clock = .ok (st2, ev) ∧ st2.Reached m d L R dyn
      ∧ st2.calls = st.calls + (ev.filter Event.isCall).length
      ∧ ev.filter Event.isDelete
          = (if st.isPlaying = true ∧ st2.isPlaying = false ∧ dyn = true
             then [.delete (some m), .delete (some d)] else [])
      ∧ (st2.isPlaying = true → st.isPlaying = true ∧ st2.melody = st.melody
          ∧ st2.durations = st.durations) := by
  induction clock with
  | nil =>
    intro st h
    refine ⟨st, [], rfl, h, by simp, ?_, by simp⟩
    cases st.isPlaying <;> simp
  | cons t ts ih =>
    intro st h
    obtain ⟨st1, ev1, e1, r1, c1, d1, i1, p1⟩ := updateMelody_step m d L R dyn st t pin h
    obtain ⟨st2, ev2, e2, r2, c2, d2, p2⟩ := ih st1 r1
    refine ⟨st2, ev1 ++ ev2, ?_, r2, ?_, ?_, ?_⟩
    · simp only [runMelody, e1, e2]
    · rw [c2, c1, List.filter_append, List.length_append]
      omega
    · rw [List.filter_append, d1, d2]
      cases hp : st.isPlaying <;> cases hp1 : st1.isPlaying <;> cases hp2 : st2.isPlaying <;>
        simp_all
    · intro hp
      obtain ⟨q1, q2, q3⟩ := p2 hp
      obtain ⟨q4, q5, q6⟩ := p1 q1
      exact ⟨q4, q2.trans q5, q3.trans q6⟩

/-- What `playMelody` leaves when it is given `L` notes, `L` not zero: a reached state that
plays, after one call of `playTone`. -/
theorem playMelody_reached (st0 : MelodyState) (m d : List Nat) (L r : Nat) (dyn : Bool)
    (now pin : Nat) (hL : 0 < L) (hm : L ≤ m.length) (hd : L ≤ d.length) (hr : r < 256) :
    ∃ st1 ev, playMelody st0 (some m) (some d) L dyn r now pin = .ok (st1, ev)
      ∧ st1.Reached m d L (max r 1) dyn ∧ st1.isPlaying = true ∧ st1.calls = 1
      ∧ (ev.filter Event.isCall).length = 1 ∧ ev.filter Event.isDelete = [] := by
  obtain ⟨ev, he, hcall, hdel⟩ := startNote_ok m d 0 now pin (by omega) (by omega)
  have hL0 : L ≠ 0 := by omega
  have hR : (if r > 0 then r else 1) = max r 1 := by
    split <;> omega
  unfold playMelody
  simp only [hL0, false_or, reduceCtorEq, if_false, he, hR]
  refine ⟨_, _, rfl, ?_, rfl, ?_, hcall, hdel⟩
  · exact ⟨hL, hm, hd, by omega, by omega, rfl, rfl, rfl, by simp, by simp only; omega,
      by simp, by simp⟩
  · simp only [MelodyState.calls]
    omega

/-- On a reached state that is idle the counter of calls is the length times the passes. -/
theorem calls_of_idle (m d : List Nat) (L R : Nat) (dyn : Bool) (st : MelodyState)
    (h : st.Reached m d L R dyn) (hi : st.isPlaying = false) : st.calls = L * R := by
  obtain ⟨hL, -, -, -, -, h1, -, -, -, -, -, h7⟩ := h
  obtain ⟨q1, q2, -, -⟩ := h7 hi
  simp only [MelodyState.calls, h1, q1]
  subst q2
  have : min (L + 1) L = L := by omega
  rw [this]
  ring

/-! ### The tone series: one update call of a sweep -/

/-- A value of the `int16_t` range is kept by the conversion to `int16_t`. -/
theorem toInt16_of_range (v : Int) (h1 : -32768 ≤ v) (h2 : v ≤ 32767) : toInt16 v = v := by
  unfold toInt16
  omega

/-- A value from 0 to 65535 is kept by the conversion to `uint16_t`. -/
theorem toUInt16_of_range (v : Int) (h1 : 0 ≤ v) (h2 : v ≤ 65535) : toUInt16 v = v.toNat := by
  unfold toUInt16
  congr 1
  omega

/-- The values of a sweep that have not passed the end lie between the start and the end,
and so from 31 to 32767. -/
theorem swept_bounds (start stop : Nat) (step : Int) (n k : Nat) (hk : k ≤ n)
    (hn : n = 0 ∨ (0 < step ∧ (start : Int) + n * step ≤ stop)
      ∨ (step < 0 ∧ (stop : Int) ≤ start + n * step)) :
    ((min start stop : Nat) : Int) ≤ start + k * step
      ∧ (start : Int) + k * step ≤ (max start stop : Nat) := by
  have hkn : (k : Int) ≤ n := by exact_mod_cast hk
  have hk0 : (0 : Int) ≤ k := by positivity
  rcases hn with h | ⟨hs, h⟩ | ⟨hs, h⟩
  · subst h
    have : k = 0 := by omega
    subst this
    simp only [Nat.cast_zero, zero_mul, add_zero]
    omega
  · have h1 : (k : Int) * step ≤ n * step := mul_le_mul_of_nonneg_right hkn hs.le
    have h2 : (0 : Int) ≤ k * step := mul_nonneg hk0 hs.le
    omega
  · have h1 : (n : Int) * step ≤ k * step := mul_le_mul_of_nonpos_right hkn hs.le
    have h2 : (k : Int) * step ≤ 0 := mul_nonpos_of_nonneg_of_nonpos hk0 hs.le
    omega

/-- While a sweep plays, the sum of the current frequency and the step is a value of the
`int16_t` range. -/
theorem swept_next_in_range (start stop : Nat) (step : Int) (n : Nat)
    (h31 : 31 ≤ start) (hs : start ≤ 32767) (he31 : 31 ≤ stop)
    (hst1 : -32768 ≤ step) (hst2 : step ≤ 32767)
    (hfit : 0 < step → ∃ k : Nat, 1 ≤ k ∧ (stop : Int) < start + k * step
      ∧ (start : Int) + k * step ≤ 32767)
    (hn : n = 0 ∨ (0 < step ∧ (start : Int) + n * step ≤ stop)
      ∨ (step < 0 ∧ (stop : Int) ≤ start + n * step)) :
    (31 : Int) ≤ start + n * step ∧ (start : Int) + n * step ≤ 32767
      ∧ -32768 ≤ (start : Int) + n * step + step
      ∧ (start : Int) + n * step + step ≤ 32767 := by
  have hb := swept_bounds start stop step n n le_rfl hn
  have hn0 : (0 : Int) ≤ n := by positivity
  rcases lt_trichotomy step 0 with hneg | hz | hpos
  · have h2 : (n : Int) * step ≤ 0 := mul_nonpos_of_nonneg_of_nonpos hn0 hneg.le
    refine ⟨by omega, by omega, by omega, by omega⟩
  · subst hz
    simp only [mul_zero, add_zero]
    omega
  · obtain ⟨k, hk1, hk2, hk3⟩ := hfit hpos
    have h2 : (0 : Int) ≤ n * step := mul_nonneg hn0 hpos.le
    have hlt : n < k := by
      rcases hn with h | ⟨-, h⟩ | ⟨h, -⟩
      · omega
      · have : (n : Int) * step < k * step := by omega
        have := lt_of_mul_lt_mul_right this hpos.le
        exact_mod_cast this
      · omega
    have hle : ((n : Int) + 1) * step ≤ k * step :=
      mul_le_mul_of_nonneg_right (by exact_mod_cast hlt) hpos.le
    have e : ((n : Int) + 1) * step = n * step + step := by ring
    refine ⟨by omega, by omega, by omega, by omega⟩

/-- One update call of a sweep that plays: nothing before the duration has elapsed; then the
step is added, and the sweep either ends with `noTone` or emits the new value. -/
theorem updateToneSeries_step (start stop : Nat) (step : Int) (d n : Nat)
    (st : ToneSeriesState) (t pin : Nat)
    (h31 : 31 ≤ start) (hs : start ≤ 32767) (he31 : 31 ≤ stop)
    (hst0 : step ≠ 0) (hst1 : -32768 ≤ step) (hst2 : step ≤ 32767) (hd : d < 65536)
    (hfit : 0 < step → ∃ k : Nat, 1 ≤ k ∧ (stop : Int) < start + k * step
      ∧ (start : Int) + k * step ≤ 32767)
    (hsw : st.Swept start stop step d n) (hp : st.isPlaying = true) :
    updateToneSeries st t pin
      = (if sub32 t st.lastToneTime < d then (st, [])
         else if (0 < step ∧ (stop : Int) < st.currentFrequency + step)
             ∨ (step < 0 ∧ st.currentFrequency + step < stop) then
           ({ st with currentFrequency := st.currentFrequency + step, isPlaying := false },
            [.noTone pin])
         else
           ({ st with currentFrequency := st.currentFrequency + step, lastToneTime := t },
            [.tone pin (st.currentFrequency + step).toNat]))
    ∧ ∃ n1, (n1 = n ∨ n1 = n + 1)
        ∧ (updateToneSeries st t pin).1.Swept start stop step d n1
        ∧ tones (updateToneSeries st t pin).2
            = (if n1 = n + 1 then [.tone pin ((start : Int) + (n + 1 : Nat) * step).toNat]
               else []) := by
  obtain ⟨h1, h2, h3, h4, h5⟩ := hsw
  have hcf := h5 hp
  obtain ⟨r1, r2, r3, r4⟩ := swept_next_in_range start stop step n h31 hs he31 hst1 hst2 hfit h4
  obtain ⟨ip, cf, lt, ef, sp, du⟩ := st
  simp only at h1 h2 h3 hp hcf
  subst h1 h2 h3 hp hcf
  have hdm : du % 65536 = du := Nat.mod_eq_of_lt hd
  have hti : toInt16 ((start : Int) + n * sp + sp) = start + n * sp + sp :=
    toInt16_of_range _ r3 r4
  have e1 : ((n + 1 : Nat) : Int) * sp = n * sp + sp := by push_cast; ring
  unfold updateToneSeries
  simp only [Bool.true_eq_false, if_false, hdm, hti, ge_iff_le, gt_iff_lt]
  by_cases hdue : sub32 t lt < du
  · have hnd : ¬ du ≤ sub32 t lt := by omega
    simp only [hdue, hnd, if_true, if_false, true_and]
    exact ⟨n, Or.inl rfl, ⟨rfl, rfl, rfl, h4, fun _ => rfl⟩, by simp [tones]⟩
  · have hnd : du ≤ sub32 t lt := by omega
    simp only [hdue, hnd, if_true, if_false, true_and]
    by_cases hc : (0 < sp ∧ (ef : Int) < start + n * sp + sp)
        ∨ (sp < 0 ∧ (start : Int) + n * sp + sp < ef)
    · simp only [hc, if_true, true_and]
      exact ⟨n, Or.inl rfl, ⟨rfl, rfl, rfl, h4, by simp⟩, by simp [tones, Event.isTone]⟩
    · simp only [hc, if_false]
      have hlo : (31 : Int) ≤ start + n * sp + sp := by
        rcases lt_trichotomy sp 0 with hneg | hz | hpos
        · have : ¬ ((start : Int) + n * sp + sp < ef) := fun h => hc (Or.inr ⟨hneg, h⟩)
          omega
        · omega
        · omega
      have htu : toUInt16 ((start : Int) + n * sp + sp) = (start + n * sp + sp).toNat :=
        toUInt16_of_range _ (by omega) (by omega)
      rw [htu]
      refine ⟨rfl, n + 1, Or.inr rfl, ⟨rfl, rfl, rfl, ?_, ?_⟩, ?_⟩
      · rw [e1]
        rcases lt_trichotomy sp 0 with hneg | hz | hpos
        · have : ¬ ((start : Int) + n * sp + sp < ef) := fun h => hc (Or.inr ⟨hneg, h⟩)
          exact Or.inr (Or.inr ⟨hneg, by omega⟩)
        · exact absurd hz hst0
        · have : ¬ ((ef : Int) < start + n * sp + sp) := fun h => hc (Or.inl ⟨hpos, h⟩)
          exact Or.inr (Or.inl ⟨hpos, by omega⟩)
      · intro _
        simp only [e1]
        omega
      · have e2 : (start : Int) + ((n : Int) * sp + sp) = start + n * sp + sp := by omega
        rw [e1, e2]
        simp [tones, Event.isTone]

/-- Any number of update calls of a sweep: the `tone` commands continue the progression
`start + k * step` from where it stood. -/
theorem runToneSeries_swept (start stop : Nat) (step : Int) (d pin : Nat)
    (h31 : 31 ≤ start) (hs : start ≤ 32767) (he31 : 31 ≤ stop)
    (hst0 : step ≠ 0) (hst1 : -32768 ≤ step) (hst2 : step ≤ 32767) (hd : d < 65536)
    (hfit : 0 < step → ∃ k : Nat, 1 ≤ k ∧ (stop : Int) < start + k * step
      ∧ (start : Int) + k * step ≤ 32767)
    (clock : List Nat) :
    ∀ (st : ToneSeriesState) (n : Nat), st.Swept start stop step d n →
    ∃ n2, n ≤ n2
      ∧ (runUpdates (fun s t => updateToneSeries s t pin) st clock).1.Swept start stop
          step d n2
      ∧ (List.range (n + 1)).map (fun k : Nat => Event.tone pin ((start : Int) + k * step).toNat)
          ++ tones (runUpdates (fun s t => updateToneSeries s t pin) st clock).2
        = (List.range (n2 + 1)).map
            (fun k : Nat => Event.tone pin ((start : Int) + k * step).toNat) := by
  induction clock with
  | nil =>
    intro st n h
    exact ⟨n, le_rfl, h, by simp [runUpdates, tones]⟩
  | cons t ts ih =>
    intro st n h
    cases hp : st.isPlaying with
    | false =>
      have e : updateToneSeries st t pin = (st, []) := by simp [updateToneSeries, hp]
      obtain ⟨n2, hn2, hsw, htn⟩ := ih st n h
      refine ⟨n2, hn2, ?_, ?_⟩
      · simpa only [runUpdates, e] using hsw
      · simpa only [runUpdates, e, List.nil_append] using htn
    | true =>
      obtain ⟨-, n1, hn1, hsw1, ht1⟩ := updateToneSeries_step start stop step d n st t pin
        h31 hs he31 hst0 hst1 hst2 hd hfit h hp
      obtain ⟨n2, hn2, hsw, htn⟩ := ih _ n1 hsw1
      refine ⟨n2, by omega, ?_, ?_⟩
      · simpa only [runUpdates] using hsw
      · simp only [runUpdates, tones, List.filter_append] at htn ht1 ⊢
        rw [← htn, ht1, ← List.append_assoc]
        congr 1
        rcases hn1 with rfl | rfl
        · simp
        · simp [List.range_succ]

/-- An accepted `playToneSeries` with a start that fits `int16_t`: the start is emitted and
becomes the current frequency. -/
theorem playToneSeries_accepted (st0 : ToneSeriesState) (start stop : Nat) (step : Int)
    (d now pin : Nat) (h31 : 31 ≤ start) (hs : start ≤ 32767) (he31 : 31 ≤ stop)
    (he : stop ≤ 65535) (hst0 : step ≠ 0) (hd0 : 0 < d) :
    playToneSeries st0 start stop step d now pin
      = (⟨true, start, now, stop, step, d⟩, [.tone pin start]) := by
  have hg : ¬ (start < MIN_FREQUENCY ∨ start > MAX_FREQUENCY ∨ stop < MIN_FREQUENCY
      ∨ stop > MAX_FREQUENCY ∨ step = 0 ∨ d ≤ 0) := by
    simp only [MIN_FREQUENCY, MAX_FREQUENCY]
    omega
  have ht : toInt16 (start : Int) = start := toInt16_of_range _ (by omega) (by omega)
  simp only [playToneSeries, hg, if_false, ht]

/-! ### The alert: the branch that emits is never taken -/

/-- The function `updateAlert` without its first inner branch: what it computes is the
same. -/
theorem updateAlert_eq (st : AlertState) (now pin : Nat) :
    updateAlert st now pin
      = (if st.isPlaying = false ∨ st.currentCount ≥ st.totalCount then
           ({ st with isPlaying := false }, [.noTone pin])
         else if sub32 now st.lastToneTime ≥ st.duration then
           ({ st with isPlaying := false, currentCount := (st.currentCount + 1) % 256,
                      lastToneTime := now }, [.noTone pin])
         else (st, [])) := by
  unfold updateAlert
  split
  · rfl
  · rename_i h
    have hp : st.isPlaying = true := by
      cases hq : st.isPlaying
      · exact absurd (Or.inl hq) h
      · rfl
    simp only [hp, Bool.true_eq_false, and_false, if_false, and_true, List.nil_append]

/-- No update call of an alert, in whatever state, commands `tone`. -/
theorem updateAlert_tones (st : AlertState) (now pin : Nat) :
    tones (updateAlert st now pin).2 = [] := by
  rw [updateAlert_eq]
  split
  · simp [tones, Event.isTone]
  · split <;> simp [tones, Event.isTone]

/-- No run of update calls of an alert, from whatever state, commands `tone`. -/
theorem runAlert_tones (pin : Nat) (clock : List Nat) :
    ∀ st : AlertState, tones (runUpdates (fun s t => updateAlert s t pin) st clock).2 = [] := by
  induction clock with
  | nil => intro st; rfl
  | cons t ts ih =>
    intro st
    have h1 := updateAlert_tones st t pin
    have h2 := ih (updateAlert st t pin).1
    simp only [tones, runUpdates, List.filter_append] at h1 h2 ⊢
    rw [h1, h2]
    rfl

/-! ### The melody controller: the elements it reads -/

/-- An element read from an array is the element of the list at the index. -/
theorem readAt_some (a : List Nat) (i v : Nat) (h : readAt (some a) i = .ok v) :
    a[i]? = some v := by
  unfold readAt at h
  cases hv : a[i]? with
  | none => simp [hv] at h
  | some w =>
    simp only [hv, Except.ok.injEq] at h
    rw [h]

/-- The call of `playTone` in a note start is given the two elements read at the index. -/
theorem startNote_call (mel dur : Option (List Nat)) (i now pin : Nat) (ev : List Event)
    (h : startNote mel dur i now pin = .ok ev) (f d : Nat) (hc : Event.call f d ∈ ev) :
    readAt mel i = .ok f ∧ readAt dur i = .ok d := by
  unfold startNote at h
  split at h
  · simp at h
  · rename_i f1 hf
    split at h
    · simp at h
    · rename_i d1 hd1
      simp only [Except.ok.injEq] at h
      subst h
      rcases List.mem_cons.1 hc with h1 | h1
      · simp only [Event.call.injEq] at h1
        obtain ⟨rfl, rfl⟩ := h1
        exact ⟨hf, hd1⟩
      · rcases playTone_events ⟨false, 0, f1, d1⟩ f1 d1 now pin with e | e | e <;>
          simp [e] at h1

/-- Whatever the state, with a length that is not zero: a call of `playTone` made by an
update is given the two elements read at one index below the length. -/
theorem updateMelody_call (st st1 : MelodyState) (t pin : Nat) (ev : List Event)
    (hL : 0 < st.length) (h : updateMelody st t pin = .ok (st1, ev)) (f d : Nat)
    (hc : Event.call f d ∈ ev) :
    ∃ i, i < st.length ∧ readAt st.melody i = .ok f ∧ readAt st.durations i = .ok d := by
  unfold updateMelody at h
  split at h
  · simp only [Except.ok.injEq, Prod.mk.injEq] at h
    obtain ⟨-, rfl⟩ := h
    simp at hc
  · split at h
    · split at h
      · split at h
        · simp at h
        · rename_i evs he
          simp only [Except.ok.injEq, Prod.mk.injEq] at h
          obtain ⟨-, rfl⟩ := h
          exact ⟨0, hL, startNote_call _ _ _ _ _ _ he f d hc⟩
      · split at h <;>
        · simp only [Except.ok.injEq, Prod.mk.injEq] at h
          obtain ⟨-, rfl⟩ := h
          simp at hc
    · split at h
      · simp at h
      · dsimp only at h
        split at h
        · split at h
          · rename_i hlt
            split at h
            · simp at h
            · rename_i evs he
              simp only [Except.ok.injEq, Prod.mk.injEq] at h
              obtain ⟨-, rfl⟩ := h
              rcases List.mem_cons.1 hc with h1 | h1
              · simp at h1
              · exact ⟨st.currentNote + 1, hlt, startNote_call _ _ _ _ _ _ he f d h1⟩
          · simp only [Except.ok.injEq, Prod.mk.injEq] at h
            obtain ⟨-, rfl⟩ := h
            simp at hc
        · simp only [Except.ok.injEq, Prod.mk.injEq] at h
          obtain ⟨-, rfl⟩ := h
          simp at hc

/-- In a run from a reached state every call of `playTone` is given the two elements of the
arrays at one index below the length. -/
theorem runMelody_calls (m d : List Nat) (L R : Nat) (dyn : Bool) (pin : Nat)
    (clock : List Nat) :
    ∀ (st st2 : MelodyState) (ev : List Event), st.Reached m d L R dyn →
    runMelody pin st clock = .ok (st2, ev) →
    ∀ f g : Nat, Event.call f g ∈ ev → ∃ i, i < L ∧ m[i]? = some f ∧ d[i]? = some g := by
  induction clock with
  | nil =>
    intro st st2 ev _ h f g hc
    simp only [runMelody, Except.ok.injEq, Prod.mk.injEq] at h
    obtain ⟨-, rfl⟩ := h
    simp at hc
  | cons t ts ih =>
    intro st st2 ev hr h f g hc
    obtain ⟨st1, ev1, e1, r1, -, -, i1, -⟩ := updateMelody_step m d L R dyn st t pin hr
    obtain ⟨st3, ev3, e3, -, -, -, -⟩ := runMelody_reached m d L R dyn pin ts st1 r1
    simp only [runMelody, e1, e3, Except.ok.injEq, Prod.mk.injEq] at h
    obtain ⟨-, rfl⟩ := h
    rcases List.mem_append.1 hc with h1 | h1
    · cases hp : st.isPlaying with
      | false =>
        obtain ⟨-, rfl⟩ := i1 hp
        simp at h1
      | true =>
        obtain ⟨hm, hd⟩ := hr.2.2.2.2.2.2.2.2.2.2.1 hp
        have hlen : st.length = L := hr.2.2.2.2.2.1
        obtain ⟨i, hi, q1, q2⟩ := updateMelody_call st st1 t pin ev1 (by rw [hlen]; exact hr.1)
          e1 f g h1
        rw [hm] at q1
        rw [hd] at q2
        exact ⟨i, by omega, readAt_some m i f q1, readAt_some d i g q2⟩
    · exact ih st1 st3 ev3 r1 e3 f g h1

/-! ### The tone controller: what it emits -/

/-- A `tone` command of `playTone` carries a frequency from 31 to 65535. -/
theorem playTone_tone_in_range (st : ToneState) (f d now pin p g : Nat)
    (h : Event.tone p g ∈ (playTone st f d now pin).2) :
    MIN_FREQUENCY ≤ g ∧ g ≤ MAX_FREQUENCY := by
  unfold playTone at h
  split at h
  · simp at h
  · rename_i hg
    simp only [MIN_FREQUENCY, MAX_FREQUENCY] at hg ⊢
    have e : f % 65536 = f := Nat.mod_eq_of_lt (by omega)
    split at h
    · simp only [e, List.mem_singleton, Event.tone.injEq] at h
      omega
    · simp at h

/-! ### Values in the range of their local: stored as written -/

/-- The last value read by a selector depends on the selector on the fields only. -/
theorem lastField_congr (sel1 sel2 : HeaderField → Option Nat) (fs : List HeaderField)
    (h : ∀ f ∈ fs, sel1 f = sel2 f) : lastField sel1 fs = lastField sel2 fs := by
  unfold lastField
  have h2 : ∀ f ∈ fs.reverse, sel1 f = sel2 f := fun f hf => h f (List.mem_reverse.1 hf)
  generalize fs.reverse = l at h2
  induction l with
  | nil => rfl
  | cons a l ih =>
    simp only [List.findSome?_cons, h2 a (List.mem_cons_self a l)]
    rw [ih (fun f hf => h2 f (List.mem_cons_of_mem a hf))]

/-- A header whose fields write values in range leaves the settings as written. -/
theorem specSettings_inRange (fs : List HeaderField) (h : ∀ f ∈ fs, f.InRange) :
    specSettings fs = writtenSettings fs := by
  unfold specSettings writtenSettings
  have h1 : ∀ f ∈ fs, f.durationValue? = f.writtenDuration? := by
    intro f hf
    have := h f hf
    cases f <;> simp only [HeaderField.durationValue?, HeaderField.writtenDuration?]
    simp only [HeaderField.InRange] at this
    rw [Nat.mod_eq_of_lt (by omega)]
  have h2 : ∀ f ∈ fs, f.octaveValue? = f.writtenOctave? := by
    intro f hf
    have := h f hf
    cases f <;> simp only [HeaderField.octaveValue?, HeaderField.writtenOctave?]
    simp only [HeaderField.InRange] at this
    rw [Nat.mod_eq_of_lt (by omega)]
  have h3 : ∀ f ∈ fs, f.bpmValue? = f.writtenBpm? := by
    intro f hf
    have := h f hf
    cases f <;> simp only [HeaderField.bpmValue?, HeaderField.writtenBpm?]
    simp only [HeaderField.InRange] at this
    rw [Nat.mod_eq_of_lt (by omega)]
  rw [lastField_congr _ _ fs h1, lastField_congr _ _ fs h2, lastField_congr _ _ fs h3]

/-- A note whose duration digits are in range has the duration value it writes. -/
theorem durationValue_inRange (dd : Nat) (t : NoteToken) (h : t.InRange) :
    t.durationValue dd = t.writtenDuration dd := by
  unfold NoteToken.durationValue NoteToken.writtenDuration
  unfold NoteToken.InRange at h
  split
  · rfl
  · exact Nat.mod_eq_of_lt (by omega)

/-- A note whose duration digits are in range is derived as written. -/
theorem specNote_inRange (bpm dd dOct : Nat) (t : NoteToken) (h : t.InRange) :
    specNote bpm dd dOct t = writtenNote bpm dd dOct t := by
  unfold specNote writtenNote
  rw [durationValue_inRange dd t h]

/-- The notes derived from tokens in range are the notes derived as written. -/
theorem map_specNote_inRange (bpm dd dOct : Nat) (ts : List NoteToken)
    (h : ∀ t ∈ ts, t.InRange) :
    ts.map (specNote bpm dd dOct) = ts.map (writtenNote bpm dd dOct) :=
  List.map_congr_left fun t ht => specNote_inRange bpm dd dOct t (h t ht)

/-- A run of notes one of which has the duration value zero ends in a division by zero. -/
theorem notesOutcome_zero (bpm dd dOct : Nat) (ts : List NoteToken)
    (h : ∃ t ∈ ts, t.durationValue dd = 0) :
    notesOutcome bpm dd dOct ts = .error .divByZero := by
  induction ts with
  | nil => simp at h
  | cons a l ih =>
    by_cases ha : a.durationValue dd = 0
    · simp [notesOutcome, noteOutcome, ha]
    · have hl : ∃ t ∈ l, t.durationValue dd = 0 := by
        obtain ⟨t, ht, h0⟩ := h
        rcases List.mem_cons.1 ht with rfl | ht
        · exact absurd h0 ha
        · exact ⟨t, ht, h0⟩
      simp [notesOutcome, noteOutcome, ha, ih hl]

/-- With the notes in range, the outcome of a parse that reaches the notes is the outcome of
the melody as written. -/
theorem melodyOutcome_inRange (st : Settings) (ts : List NoteToken)
    (h : ∀ t ∈ ts, t.InRange) : melodyOutcome st ts = writtenOutcome st ts := by
  unfold writtenOutcome
  by_cases hb : st.bpm = 0
  · simp [melodyOutcome, hb]
  · by_cases hz : ∃ t ∈ ts, t.writtenDuration st.defaultDuration = 0
    · have hz2 : ∃ t ∈ ts, t.durationValue st.defaultDuration = 0 := by
        obtain ⟨t, ht, h0⟩ := hz
        exact ⟨t, ht, by rw [durationValue_inRange _ t (h t ht)]; exact h0⟩
      simp [melodyOutcome, hb, hz, notesOutcome_zero _ _ _ ts hz2]
    · have hd : ∀ t ∈ ts, t.durationValue st.defaultDuration ≠ 0 := by
        intro t ht h0
        exact hz ⟨t, ht, by rw [← durationValue_inRange _ t (h t ht)]; exact h0⟩
      rw [melodyOutcome_ok st ts hb hd, map_specNote_inRange _ _ _ ts h]
      simp [hb, hz]

/-- The last value read by a selector, in a header with one more field at its end. -/
theorem lastField_append_singleton (sel : HeaderField → Option Nat) (fs : List HeaderField)
    (f : HeaderField) :
    lastField sel (fs ++ [f]) = (sel f).or (lastField sel fs) := by
  unfold lastField
  rw [List.reverse_append, List.reverse_singleton, List.singleton_append,
    List.findSome?_cons]
  cases sel f <;> rfl

/-- A melody text in range whose header and notes fit the copy parses to the outcome of the
melody as written, cut at the capacity of the scratch arrays. -/
theorem parseRTTTL_written (name : List Nat) (fs : List HeaderField) (ts : List NoteToken)
    (melody durations : Option (List Nat)) (length : Nat) (isProgmem : Bool)
    (hname : ∀ c ∈ name, c ≠ 58 ∧ c ≠ 0) (hfs : ∀ f ∈ fs, f.WF) (hts : ∀ t ∈ ts, t.WF)
    (hlen : (melodyText name (fs.map HeaderField.text) ts).length ≤ 255)
    (hhdr : (joinComma (fs.map HeaderField.text)).length ≤ 31)
    (hfr : ∀ f ∈ fs, f.InRange) (htr : ∀ t ∈ ts, t.InRange) :
    parseRTTTL (some (melodyText name (fs.map HeaderField.text) ts)) melody durations length
        isProgmem
      = writtenOutcome (writtenSettings fs) (ts.take MAX_RTTTL_NOTES) := by
  have hcore := parseRTTTL_melodyText_short name (fs.map HeaderField.text) ts
    melody durations length isProgmem hname
    (by intro f hf
        obtain ⟨g, hg, rfl⟩ := List.mem_map.1 hf
        exact FieldOK_text g (hfs g hg))
    hts hhdr hlen
  rw [hcore, headerSettings_text fs hfs, specSettings_inRange fs hfr,
    melodyOutcome_inRange _ _ (fun t ht => htr t (List.mem_of_mem_take ht))]

/-- The outcome of a melody as written, when no divisor is zero. -/
theorem writtenOutcome_ok (st : Settings) (ts : List NoteToken) (hb : st.bpm ≠ 0)
    (hd : ∀ t ∈ ts, t.writtenDuration st.defaultDuration ≠ 0) :
    writtenOutcome st ts
      = .ok (successWith (ts.map (writtenNote st.bpm st.defaultDuration st.defaultOctave))) := by
  have hz : ¬ (st.bpm = 0 ∨ ∃ t ∈ ts, t.writtenDuration st.defaultDuration = 0) := by
    rintro (h | ⟨t, ht, h⟩)
    · exact hb h
    · exact hd t ht h
  simp only [writtenOutcome, hz, if_false]

/-- A sweep whose values stay in the `int16_t` range. Let `playToneSeries` be called with a
start and an end from 31 to 32767, a step that is not zero and a duration that is not zero
and fits 16 bits, the first value of the progression `start + k * step` past the end still
fitting `int16_t` (for a step below zero it always does). The call is accepted, emits the
start and makes it the current frequency. After any number of `updateToneSeries` calls the
`tone` commands issued so far are those of the frequencies `start + k * step` for
`k = 0, ..., n`, in this order, all of them between the start and the end inclusive, and
while the sweep plays the current frequency is `start + n * step`. One more call on the state
reached, if it plays, does nothing while less than the duration has elapsed since the last
step; else it adds the step to the current frequency and either ends the sweep with `noTone`,
when the new value has passed the end, or emits exactly the new value and records the
time. -/
theorem toneSeries_sweep (st0 : ToneSeriesState) (start stop : Nat) (step : Int)
    (d now pin : Nat) (clock : List Nat) (t : Nat)
    (h31 : 31 ≤ start) (hs : start ≤ 32767) (he31 : 31 ≤ stop) (he : stop ≤ 32767)
    (hst0 : step ≠ 0) (hst1 : -32768 ≤ step) (hst2 : step ≤ 32767)
    (hd0 : 0 < d) (hd : d < 65536)
    (hfit : 0 < step → ∃ k : Nat, 1 ≤ k ∧ (stop : Int) < start + k * step
      ∧ (start : Int) + k * step ≤ 32767) :
    playToneSeries st0 start stop step d now pin
      = (⟨true, start, now, stop, step, d⟩, [.tone pin start])
    ∧ (∃ n : Nat,
        tones (sweepRun st0 start stop step d now pin clock).2
          = (List.range (n + 1)).map
              (fun k : Nat => Event.tone pin ((start : Int) + k * step).toNat)
        ∧ ((sweepRun st0 start stop step d now pin clock).1.isPlaying = true →
            (sweepRun st0 start stop step d now pin clock).1.currentFrequency
              = start + n * step)
        ∧ ∀ k : Nat, k ≤ n → ((min start stop : Nat) : Int) ≤ start + k * step
            ∧ (start : Int) + k * step ≤ (max start stop : Nat))
    ∧ ((sweepRun st0 start stop step d now pin clock).1.isPlaying = true →
        updateToneSeries (sweepRun st0 start stop step d now pin clock).1 t pin
          = (if sub32 t (sweepRun st0 start stop step d now pin clock).1.lastToneTime < d
             then ((sweepRun st0 start stop step d now pin clock).1, [])
             else if (0 < step ∧ (stop : Int)
                      < (sweepRun st0 start stop step d now pin clock).1.currentFrequency + step)
                 ∨ (step < 0
                    ∧ (sweepRun st0 start stop step d now pin clock).1.currentFrequency + step
                      < stop) then
               ({ (sweepRun st0 start stop step d now pin clock).1 with
                    currentFrequency :=
                      (sweepRun st0 start stop step d now pin clock).1.currentFrequency + step,
                    isPlaying := false },
                [.noTone pin])
             else
               ({ (sweepRun st0 start stop step d now pin clock).1 with
                    currentFrequency :=
                      (sweepRun st0 start stop step d now pin clock).1.currentFrequency + step,
                    lastToneTime := t },
                [.tone pin
                  ((sweepRun st0 start stop step d now pin clock).1.currentFrequency
                    + step).toNat]))) := by
  have hplay := playToneSeries_accepted st0 start stop step d now pin h31 hs he31 (by omega)
    hst0 hd0
  have hsw0 : (⟨true, start, now, stop, step, d⟩ : ToneSeriesState).Swept start stop step d 0 :=
    ⟨rfl, rfl, rfl, Or.inl rfl, fun _ => by simp⟩
  obtain ⟨n, -, hsw, htn⟩ := runToneSeries_swept start stop step d pin h31 hs he31 hst0 hst1
    hst2 hd hfit clock _ 0 hsw0
  have hrun : sweepRun st0 start stop step d now pin clock
      = ((runUpdates (fun s t => updateToneSeries s t pin) ⟨true, start, now, stop, step, d⟩
            clock).1,
         Event.tone pin start :: (runUpdates (fun s t => updateToneSeries s t pin)
            ⟨true, start, now, stop, step, d⟩ clock).2) := by
    simp only [sweepRun, hplay, List.singleton_append]
  rw [hrun]
  refine ⟨hplay, ⟨n, ?_, hsw.2.2.2.2, fun k hk => swept_bounds start stop step n k hk
    hsw.2.2.2.1⟩, fun hp => ?_⟩
  · have h0 : (List.range (0 + 1)).map
        (fun k : Nat => Event.tone pin ((start : Int) + k * step).toNat)
        = [Event.tone pin start] := by
      simp [List.range_succ]
    rw [h0] at htn
    rw [← htn]
    simp [tones, Event.isTone]
  · exact (updateToneSeries_step start stop step d n _ t pin h31 hs he31 hst0 hst1 hst2 hd
      hfit hsw hp).1

/-! ### The claims -/

set_option maxRecDepth 100000 in
/-- C1: the Nokia string, read from RAM, parses with success to 13 notes, the first of which
is 1320 Hz for 133 ms. -/
theorem C1_nokia_parse (melody durations : Option (List Nat)) (length : Nat) :
    parseRTTTL (some NOKIA) melody durations length false
      = .ok ⟨true,
          some [1320, 1176, 740, 830, 1108, 988, 588, 660, 988, 880, 554, 660, 880],
          some [133, 133, 266, 266, 133, 133, 266, 266, 133, 133, 266, 266, 532], 13⟩ := by
  rfl

/-- C2 (as amended): a string built by the grammar from a name, header fields and `n ≤ 100`
notes, at most 255 bytes long with a header of at most 31 bytes, in which every `d=` and
`o=` value and every run of duration digits is at most 255 and every `b=` value at most
65535, whose tempo is not zero and whose notes each have a duration value that is not zero,
parses with success to exactly `n` notes, the i-th being the note derived from the i-th token
as written. -/
theorem C2_grammar_parse (name : List Nat) (fs : List HeaderField) (ts : List NoteToken)
    (melody durations : Option (List Nat)) (length : Nat) (isProgmem : Bool)
    (hname : ∀ c ∈ name, c ≠ 58 ∧ c ≠ 0) (hfs : ∀ f ∈ fs, f.WF) (hts : ∀ t ∈ ts, t.WF)
    (hlen : (melodyText name (fs.map HeaderField.text) ts).length ≤ 255)
    (hhdr : (joinComma (fs.map HeaderField.text)).length ≤ 31)
    (hn : ts.length ≤ 100)
    (hfr : ∀ f ∈ fs, f.InRange) (htr : ∀ t ∈ ts, t.InRange)
    (hb : (writtenSettings fs).bpm ≠ 0)
    (hd : ∀ t ∈ ts, t.writtenDuration (writtenSettings fs).defaultDuration ≠ 0) :
    parseRTTTL (some (melodyText name (fs.map HeaderField.text) ts)) melody durations length
        isProgmem
      = .ok ⟨true,
          some (ts.map fun t => (writtenNote (writtenSettings fs).bpm
            (writtenSettings fs).defaultDuration (writtenSettings fs).defaultOctave t).1),
          some (ts.map fun t => (writtenNote (writtenSettings fs).bpm
            (writtenSettings fs).defaultDuration (writtenSettings fs).defaultOctave t).2),
          ts.length⟩ := by
  have hcore := parseRTTTL_melodyText name (fs.map HeaderField.text) ts [] melody durations
    length isProgmem hname
    (by intro f hf
        obtain ⟨g, hg, rfl⟩ := List.mem_map.1 hf
        exact FieldOK_text g (hfs g hg))
    (by simpa using hts) hhdr
    (by rw [melodyText_length] at hlen; exact hlen)
    hn (Or.inl rfl)
  rw [List.append_nil] at hcore
  have hz : ¬ ((writtenSettings fs).bpm = 0
      ∨ ∃ t ∈ ts, t.writtenDuration (writtenSettings fs).defaultDuration = 0) := by
    rintro (h | ⟨t, ht, h⟩)
    · exact hb h
    · exact hd t ht h
  rw [hcore, headerSettings_text fs hfs, specSettings_inRange fs hfr,
    melodyOutcome_inRange _ ts htr]
  simp [writtenOutcome, hz, successWith, Function.comp_def]

/-- C2 (as amended) at the Nokia ringtone. -/
theorem C2_grammar_parse_witness :
    ((∀ c ∈ cstr "Nokia", c ≠ 58 ∧ c ≠ 0) ∧ (∀ f ∈ nokiaHeader, f.WF)
      ∧ (∀ t ∈ nokiaNotes, t.WF)
      ∧ (melodyText (cstr "Nokia") (nokiaHeader.map HeaderField.text) nokiaNotes).length ≤ 255
      ∧ (joinComma (nokiaHeader.map HeaderField.text)).length ≤ 31
      ∧ nokiaNotes.length ≤ 100
      ∧ (∀ f ∈ nokiaHeader, f.InRange) ∧ (∀ t ∈ nokiaNotes, t.InRange)
      ∧ (writtenSettings nokiaHeader).bpm ≠ 0
      ∧ ∀ t ∈ nokiaNotes, t.writtenDuration (writtenSettings nokiaHeader).defaultDuration ≠ 0)
    ∧ melodyText (cstr "Nokia") (nokiaHeader.map HeaderField.text) nokiaNotes = NOKIA
    ∧ writtenSettings nokiaHeader = ⟨4, 5, 225⟩
    ∧ parseRTTTL (some (melodyText (cstr "Nokia") (nokiaHeader.map HeaderField.text)
          nokiaNotes)) none none 0 false
        = .ok ⟨true,
            some (nokiaNotes.map fun t => (writtenNote (writtenSettings nokiaHeader).bpm
              (writtenSettings nokiaHeader).defaultDuration
              (writtenSettings nokiaHeader).defaultOctave t).1),
            some (nokiaNotes.map fun t => (writtenNote (writtenSettings nokiaHeader).bpm
              (writtenSettings nokiaHeader).defaultDuration
              (writtenSettings nokiaHeader).defaultOctave t).2),
            nokiaNotes.length⟩ :=
  ⟨⟨by decide, by decide, by decide, by decide, by decide, by decide, by decide, by decide,
      by decide, by decide⟩,
    by decide, by decide,
    C2_grammar_parse (cstr "Nokia") nokiaHeader nokiaNotes none none 0 false
      (by decide) (by decide) (by decide) (by decide) (by decide) (by decide) (by decide)
      (by decide) (by decide) (by decide)⟩

set_option maxRecDepth 100000 in
/-- C2 (as stated) fails in three ways. `x:d=4,o=5,b=120:0c` is built by the grammar, its `d`
and `b` are not zero, it has one note, and `parseRTTTL` divides by the note's own duration
value 0 instead of returning success. `x:d=4,o=5,b=120:300c` parses to a note of 45 ms, the
duration digits 300 being stored in a `uint8_t` as 44, where the note derived from the token
lasts 6 ms. And `x:d=260,o=260,b=65656:c` parses to the note (262 Hz, 500 ms), the header
values being stored as 4, 4 and 120, where the note derived under the header as written is
silent and lasts 0 ms. -/
theorem C2_zero_or_wide_digits_counterexample :
    melodyText (cstr "x") ([HeaderField.d [52], .o [53], .b [49, 50, 48]].map HeaderField.text)
        [⟨[48], some .c, false, false, none, false⟩] = cstr "x:d=4,o=5,b=120:0c"
    ∧ writtenSettings [HeaderField.d [52], .o [53], .b [49, 50, 48]] = ⟨4, 5, 120⟩
    ∧ parseRTTTL (some (cstr "x:d=4,o=5,b=120:0c")) none none 0 false = .error .divByZero
    ∧ melodyText (cstr "x") ([HeaderField.d [52], .o [53], .b [49, 50, 48]].map HeaderField.text)
        [⟨[51, 48, 48], some .c, false, false, none, false⟩] = cstr "x:d=4,o=5,b=120:300c"
    ∧ parseRTTTL (some (cstr "x:d=4,o=5,b=120:300c")) none none 0 false
        = .ok ⟨true, some [524], some [45], 1⟩
    ∧ (writtenNote 120 4 5 ⟨[51, 48, 48], some .c, false, false, none, false⟩).2 = 6
    ∧ melodyText (cstr "x")
        ([HeaderField.d (cstr "260"), .o (cstr "260"), .b (cstr "65656")].map HeaderField.text)
        [⟨[], some .c, false, false, none, false⟩] = cstr "x:d=260,o=260,b=65656:c"
    ∧ writtenSettings [HeaderField.d (cstr "260"), .o (cstr "260"), .b (cstr "65656")]
        = ⟨260, 260, 65656⟩
    ∧ parseRTTTL (some (cstr "x:d=260,o=260,b=65656:c")) none none 0 false
        = .ok ⟨true, some [262], some [500], 1⟩
    ∧ writtenNote 65656 260 260 ⟨[], some .c, false, false, none, false⟩ = (0, 0) := by
  refine ⟨by decide, by decide, by rfl, by decide, by rfl, by decide, by decide, by decide,
    by rfl, ?_⟩
  have hf : specFrequency (some .c) false 260 = 0 := by
    rw [← noteFrequency_letter]; decide
  have hd : specDuration 65656 260 false = 0 := by decide
  simp only [writtenNote, NoteToken.octaveValue, NoteToken.writtenDuration, Option.getD_none,
    if_true, hf, hd]

/-- C3 (as amended): for every pitch letter in either case, with or without a sharp, at
every octave, the frequency produced is the specification's rounded value
`round(base[s] * 2^(octave - 4))`, or the silence sentinel when that value is outside
`[31, 65535]`, as long as the semitone index `s` is at most 11; for the one index past the
table, `b#`, the frequency produced is the silence sentinel. -/
theorem C3_frequency_formula (p : Pitch) (upper sharp : Bool) (octave : Nat) :
    if p.semitone + sharp.toNat < 12 then
      some (noteFrequency (tolower (p.char upper)) sharp octave : Int)
        = claimedFrequency (p.semitone + sharp.toNat) octave
    else noteFrequency (tolower (p.char upper)) sharp octave = PAUSE := by
  rw [noteFrequency_pitch]
  split
  · rename_i h
    have hb : baseFrequencies.get? (p.semitone + sharp.toNat)
        = some (baseFrequencies.getD (p.semitone + sharp.toNat) 0) := by
      cases p <;> cases sharp <;> simp [Pitch.semitone, baseFrequencies] at h ⊢
    simp only [claimedFrequency, hb, Option.map_some', ← roundScaled_eq_specRound]
    split <;> rename_i h1 <;> simp only [Option.some.injEq]
    · rw [if_pos (by exact_mod_cast h1)]
    · rw [if_neg (by intro h2; exact h1 (by exact_mod_cast h2))]
  · rfl

/-- C3 (as stated) fails: for `b#` the claimed formula indexes the 12-entry table at 12 and
has no value, while the code produces the silence sentinel. -/
theorem C3_sharp_b_counterexample :
    ¬ (∀ (p : Pitch) (upper sharp : Bool) (octave : Nat),
        some (noteFrequency (tolower (p.char upper)) sharp octave : Int)
          = claimedFrequency (p.semitone + sharp.toNat) octave) := by
  intro h
  have h1 := h Pitch.b false true 5
  simp [claimedFrequency, Pitch.semitone, baseFrequencies] at h1

/-- C4 (as amended): a note whose duration value `k` (its own digits, else the default the
parser holds) is from 1 to 255, under a tempo `bpm` from 1 to 65535, gets the duration
`min(m1, 65535)` ms with `q = 60000 / bpm`, `m = q * 4 / k` and `m1 = m + m / 2` when dotted,
`m` otherwise. Second part: in the parse of a melody text built by the grammar, with every
written value in the range of its local and no divisor zero, the durations returned are those
of this formula at the tempo and the default duration that the header writes. -/
theorem C4_duration_formula :
    (∀ (bpm dd dOct : Nat) (t : NoteToken) (j r : Nat) (rs : List Nat),
      t.WF → IsNoteEnd r → 1 ≤ bpm → bpm ≤ 65535 →
      1 ≤ t.writtenDuration dd → t.writtenDuration dd ≤ 255 →
      parseNote (60000 / bpm) dd dOct (List.replicate j 44 ++ (t.text ++ r :: rs))
        = .ok ((specFrequency t.letter t.sharp (t.octaveValue dOct),
                min (if t.dotted
                  then 60000 / bpm * 4 / t.writtenDuration dd
                    + 60000 / bpm * 4 / t.writtenDuration dd / 2
                  else 60000 / bpm * 4 / t.writtenDuration dd) 65535), r :: rs))
    ∧ (∀ (name : List Nat) (fs : List HeaderField) (ts : List NoteToken)
        (melody durations : Option (List Nat)) (length : Nat) (isProgmem : Bool),
      (∀ c ∈ name, c ≠ 58 ∧ c ≠ 0) → (∀ f ∈ fs, f.WF) → (∀ t ∈ ts, t.WF) →
      (melodyText name (fs.map HeaderField.text) ts).length ≤ 255 →
      (joinComma (fs.map HeaderField.text)).length ≤ 31 →
      ts.length ≤ 100 →
      (∀ f ∈ fs, f.InRange) → (∀ t ∈ ts, t.InRange) →
      1 ≤ (writtenSettings fs).bpm →
      (∀ t ∈ ts, 1 ≤ t.writtenDuration (writtenSettings fs).defaultDuration) →
      ∃ res, parseRTTTL (some (melodyText name (fs.map HeaderField.text) ts)) melody
            durations length isProgmem = .ok res
        ∧ res.durations = some (ts.map fun t =>
            min (if t.dotted
              then 60000 / (writtenSettings fs).bpm * 4
                    / t.writtenDuration (writtenSettings fs).defaultDuration
                + 60000 / (writtenSettings fs).bpm * 4
                    / t.writtenDuration (writtenSettings fs).defaultDuration / 2
              else 60000 / (writtenSettings fs).bpm * 4
                    / t.writtenDuration (writtenSettings fs).defaultDuration) 65535)) := by
  constructor
  · intro bpm dd dOct t j r rs ht hr _ _ hk1 hk2
    have hin : t.InRange := by
      unfold NoteToken.InRange
      unfold NoteToken.writtenDuration at hk2
      by_cases hd : t.digits = []
      · rw [hd]; decide
      · simpa [hd] using hk2
    have hne : t.durationValue dd ≠ 0 := by
      rw [durationValue_inRange dd t hin]; omega
    rw [parseNote_text t j bpm dd dOct r rs ht hr]
    simp only [noteOutcome, hne, if_false, specNote_inRange bpm dd dOct t hin]
    rfl
  · intro name fs ts melody durations length isProgmem hname hfs hts hlen hhdr hn hfr htr hb hd
    have h := parseRTTTL_written name fs ts melody durations length isProgmem hname hfs hts
      hlen hhdr hfr htr
    rw [List.take_of_length_le (by simpa [MAX_RTTTL_NOTES] using hn),
      writtenOutcome_ok _ _ (by omega) (fun t ht => by have := hd t ht; omega)] at h
    refine ⟨_, h, ?_⟩
    simp only [successWith, List.map_map]
    rfl

set_option maxRecDepth 100000 in
/-- C4 (as amended) at the note `8e6` of the Nokia ringtone, tempo 225: a quarter note lasts
266 ms and the note 133 ms; and at the whole ringtone. -/
theorem C4_duration_formula_witness :
    ((⟨[56], some .e, false, false, some 6, false⟩ : NoteToken).WF ∧ IsNoteEnd 44
      ∧ 1 ≤ 225 ∧ 225 ≤ 65535
      ∧ 1 ≤ (⟨[56], some .e, false, false, some 6, false⟩ : NoteToken).writtenDuration 4
      ∧ (⟨[56], some .e, false, false, some 6, false⟩ : NoteToken).writtenDuration 4 ≤ 255)
    ∧ 60000 / 225 = 266
    ∧ (⟨[56], some .e, false, false, some 6, false⟩ : NoteToken).text = cstr "8e6"
    ∧ parseNote (60000 / 225) 4 5 (List.replicate 0 44 ++ (cstr "8e6" ++ 44 :: cstr "8d6"))
        = .ok ((specFrequency (some .e) false 6, 133), 44 :: cstr "8d6")
    ∧ (∃ res, parseRTTTL (some (melodyText (cstr "Nokia") (nokiaHeader.map HeaderField.text)
            nokiaNotes)) none none 0 false = .ok res
        ∧ res.durations
            = some [133, 133, 266, 266, 133, 133, 266, 266, 133, 133, 266, 266, 532]) :=
  ⟨⟨by decide, Or.inl rfl, by decide, by decide, by decide, by decide⟩, by decide, by decide,
    C4_duration_formula.1 225 4 5 ⟨[56], some .e, false, false, some 6, false⟩ 0 44
      (cstr "8d6") (by decide) (Or.inl rfl) (by decide) (by decide) (by decide) (by decide),
    C4_duration_formula.2 (cstr "Nokia") nokiaHeader nokiaNotes none none 0 false
      (by decide) (by decide) (by decide) (by decide) (by decide) (by decide) (by decide)
      (by decide) (by decide) (by decide)⟩

set_option maxRecDepth 100000 in
/-- C4 (as stated) fails: in `x::300c` the duration digits are 300 and the tempo 120, so the
formula gives `2000 / 300 = 6` ms, yet the note comes out at 45 ms, the digits being stored in
a `uint8_t` as 44; and in `x:b=65537:c` the tempo written is 65537, so the formula gives 0 ms,
yet the note comes out at 60000 ms, the tempo being stored in a `uint16_t` as 1. -/
theorem C4_wide_digits_counterexample :
    parseRTTTL (some (cstr "x::300c")) none none 0 false
        = .ok ⟨true, some [1048], some [45], 1⟩
    ∧ digitsValue (cstr "300") = 300
    ∧ specDuration 120 300 false = 6
    ∧ parseNote (60000 / 120) 4 6 (cstr "300c" ++ [0]) = .ok ((1048, 45), [0])
    ∧ parseRTTTL (some (cstr "x:b=65537:c")) none none 0 false
        = .ok ⟨true, some [1048], some [60000], 1⟩
    ∧ digitsValue (cstr "65537") = 65537
    ∧ specDuration 65537 4 false = 0 := by
  refine ⟨by rfl, by decide, by decide, by rfl, by rfl, by decide, by decide⟩

set_option maxRecDepth 100000 in
/-- C5 fails on the code: the string has its two `:` separators, yet the call does not
return success, it divides by zero. -/
theorem C5_two_colons_no_success (melody durations : Option (List Nat)) (length : Nat)
    (isProgmem : Bool) :
    (cstr "Beep:d=4,o=5,b=0:c").count 58 = 2
    ∧ parseRTTTL (some (cstr "Beep:d=4,o=5,b=0:c")) melody durations length isProgmem
        = .error .divByZero := by
  cases isProgmem <;> exact ⟨rfl, rfl⟩

set_option maxRecDepth 100000 in
/-- C6 fails on the code: a header tempo of 0, a header duration that narrows to 0 (256),
and note digits of value 0 each make `parseRTTTL` divide by zero. -/
theorem C6_zero_divisor_reached (melody durations : Option (List Nat)) (length : Nat)
    (isProgmem : Bool) :
    parseRTTTL (some (cstr "x:b=0:c")) melody durations length isProgmem = .error .divByZero
    ∧ parseRTTTL (some (cstr "x:d=256:c")) melody durations length isProgmem
        = .error .divByZero
    ∧ parseRTTTL (some (cstr "x:d=4:0c")) melody durations length isProgmem
        = .error .divByZero := by
  cases isProgmem <;> exact ⟨rfl, rfl, rfl⟩

/-- C7 (as amended): when the header is at most 31 bytes, the name, the header and the first
100 notes lie within the first 255 bytes, every `d=` and `o=` value of the header and every
run of duration digits of the first 100 notes is at most 255 and every `b=` value at most
65535, the tempo is not zero and each of the first 100 notes has a duration value that is
not zero, a string of 100 or more notes (150, say) parses with success to exactly 100 notes,
those derived from its first 100 tokens as written. -/
theorem C7_note_cap (name : List Nat) (fs : List HeaderField) (ts : List NoteToken)
    (melody durations : Option (List Nat)) (length : Nat) (isProgmem : Bool)
    (hname : ∀ c ∈ name, c ≠ 58 ∧ c ≠ 0) (hfs : ∀ f ∈ fs, f.WF) (hts : ∀ t ∈ ts, t.WF)
    (hn : MAX_RTTTL_NOTES ≤ ts.length)
    (hfit : (melodyText name (fs.map HeaderField.text) (ts.take MAX_RTTTL_NOTES)).length ≤ 255)
    (hhdr : (joinComma (fs.map HeaderField.text)).length ≤ 31)
    (hfr : ∀ f ∈ fs, f.InRange) (htr : ∀ t ∈ ts.take MAX_RTTTL_NOTES, t.InRange)
    (hb : (writtenSettings fs).bpm ≠ 0)
    (hd : ∀ t ∈ ts.take MAX_RTTTL_NOTES,
      t.writtenDuration (writtenSettings fs).defaultDuration ≠ 0) :
    parseRTTTL (some (melodyText name (fs.map HeaderField.text) ts)) melody durations length
        isProgmem
      = .ok ⟨true,
          some ((ts.take MAX_RTTTL_NOTES).map fun t => (writtenNote (writtenSettings fs).bpm
            (writtenSettings fs).defaultDuration (writtenSettings fs).defaultOctave t).1),
          some ((ts.take MAX_RTTTL_NOTES).map fun t => (writtenNote (writtenSettings fs).bpm
            (writtenSettings fs).defaultDuration (writtenSettings fs).defaultOctave t).2),
          MAX_RTTTL_NOTES⟩ := by
  have hl : (ts.take MAX_RTTTL_NOTES).length = MAX_RTTTL_NOTES := by
    rw [List.length_take]; omega
  have hcore := parseRTTTL_melodyText name (fs.map HeaderField.text) (ts.take MAX_RTTTL_NOTES)
    (ts.drop MAX_RTTTL_NOTES) melody durations length isProgmem hname
    (by intro f hf
        obtain ⟨g, hg, rfl⟩ := List.mem_map.1 hf
        exact FieldOK_text g (hfs g hg))
    (by rw [List.take_append_drop]; exact hts) hhdr
    (by rw [melodyText_length] at hfit; exact hfit)
    (le_of_eq hl) (Or.inr hl)
  rw [List.take_append_drop] at hcore
  rw [hcore, headerSettings_text fs hfs, specSettings_inRange fs hfr,
    melodyOutcome_inRange _ _ htr, writtenOutcome_ok _ _ hb hd]
  simp [successWith, Function.comp_def, hl, hn]

set_option maxRecDepth 100000 in
/-- C7 (as amended) at 150 notes `c` under the header `d=4`. -/
theorem C7_note_cap_witness :
    ((∀ c ∈ cstr "x", c ≠ 58 ∧ c ≠ 0) ∧ (∀ f ∈ [HeaderField.d [52]], f.WF)
      ∧ (∀ t ∈ List.replicate 150 (⟨[], some .c, false, false, none, false⟩ : NoteToken), t.WF)
      ∧ MAX_RTTTL_NOTES
          ≤ (List.replicate 150 (⟨[], some .c, false, false, none, false⟩ : NoteToken)).length
      ∧ (melodyText (cstr "x") ([HeaderField.d [52]].map HeaderField.text)
          ((List.replicate 150 (⟨[], some .c, false, false, none, false⟩ : NoteToken)).take
            MAX_RTTTL_NOTES)).length ≤ 255
      ∧ (joinComma ([HeaderField.d [52]].map HeaderField.text)).length ≤ 31
      ∧ (∀ f ∈ [HeaderField.d [52]], f.InRange)
      ∧ (∀ t ∈ (List.replicate 150 (⟨[], some .c, false, false, none, false⟩ : NoteToken)).take
            MAX_RTTTL_NOTES, t.InRange)
      ∧ (writtenSettings [HeaderField.d [52]]).bpm ≠ 0
      ∧ ∀ t ∈ (List.replicate 150 (⟨[], some .c, false, false, none, false⟩ : NoteToken)).take
            MAX_RTTTL_NOTES,
          t.writtenDuration (writtenSettings [HeaderField.d [52]]).defaultDuration ≠ 0)
    ∧ (parseRTTTL (some (melodyText (cstr "x") ([HeaderField.d [52]].map HeaderField.text)
          (List.replicate 150 (⟨[], some .c, false, false, none, false⟩ : NoteToken))))
          none none 0 false).map ParseResult.length
        = .ok 100 :=
  ⟨⟨by decide, by decide, by decide, by decide, by decide, by decide, by decide, by decide,
      by decide, by decide⟩,
    by
      rw [C7_note_cap (cstr "x") [HeaderField.d [52]]
        (List.replicate 150 (⟨[], some .c, false, false, none, false⟩ : NoteToken))
        none none 0 false (by decide) (by decide) (by decide) (by decide) (by decide)
        (by decide) (by decide) (by decide) (by decide) (by decide)]
      rfl⟩

set_option maxRecDepth 100000 in
/-- C7 (as stated) fails twice. Of 150 valid notes `8c#5` under the name `x` and the header
`d=4`, only 50 lie within the 255 bytes the parser copies, and the parse returns 50 notes.
And 150 notes `c` under the header `d=260,o=260,b=65656` parse to 100 notes of 262 Hz and
500 ms each, the header values being stored as 4, 4 and 120, where the note derived from `c`
under the header as written is silent and lasts 0 ms. -/
theorem C7_long_notes_counterexample :
    (List.replicate 150 (⟨[56], some .c, false, true, some 5, false⟩ : NoteToken)).length = 150
    ∧ (∀ t ∈ List.replicate 150 (⟨[56], some .c, false, true, some 5, false⟩ : NoteToken),
        t.WF ∧ t.text = cstr "8c#5")
    ∧ parseRTTTL (some (melodyText (cstr "x") [cstr "d=4"]
          (List.replicate 150 (⟨[56], some .c, false, true, some 5, false⟩ : NoteToken))))
          none none 0 false
        = .ok ⟨true, some (List.replicate 50 554), some (List.replicate 50 250), 50⟩
    ∧ parseRTTTL (some (melodyText (cstr "x")
          ([HeaderField.d (cstr "260"), .o (cstr "260"), .b (cstr "65656")].map
            HeaderField.text)
          (List.replicate 150 (⟨[], some .c, false, false, none, false⟩ : NoteToken))))
          none none 0 false
        = .ok ⟨true, some (List.replicate 100 262), some (List.replicate 100 500), 100⟩
    ∧ writtenSettings [HeaderField.d (cstr "260"), .o (cstr "260"), .b (cstr "65656")]
        = ⟨260, 260, 65656⟩
    ∧ writtenNote 65656 260 260 ⟨[], some .c, false, false, none, false⟩ = (0, 0) := by
  refine ⟨by decide, by decide, by rfl, by rfl, by decide, ?_⟩
  have hf : specFrequency (some .c) false 260 = 0 := by
    rw [← noteFrequency_letter]; decide
  have hd : specDuration 65656 260 false = 0 := by decide
  simp only [writtenNote, NoteToken.octaveValue, NoteToken.writtenDuration, Option.getD_none,
    if_true, hf, hd]

/-- C8: a note whose letter is `p` or `P`, with any duration digits before it and any of `#`,
an octave digit and `.` after it, is scanned as one note up to the separator behind it and
gets the silence sentinel as its frequency; so in the parse of a melody text the result has
one note per token and holds `PAUSE` at the place of the pause, and the parse succeeds
whenever no divisor is zero. -/
theorem C8_pause_is_silence (t : NoteToken) (j dd dOct r : Nat) (rs : List Nat)
    (name : List Nat) (fs : List HeaderField) (before after : List NoteToken)
    (melody durations : Option (List Nat)) (length : Nat) (isProgmem : Bool)
    (ht : t.WF) (hp : t.letter = none) (hr : IsNoteEnd r)
    (hname : ∀ c ∈ name, c ≠ 58 ∧ c ≠ 0) (hfs : ∀ f ∈ fs, f.WF)
    (hts : ∀ u ∈ before ++ t :: after, u.WF)
    (hlen : (melodyText name (fs.map HeaderField.text) (before ++ t :: after)).length ≤ 255)
    (hhdr : (joinComma (fs.map HeaderField.text)).length ≤ 31)
    (hn : (before ++ t :: after).length ≤ 100) :
    (∃ sc, scanNote dd dOct (List.replicate j 44 ++ (t.text ++ r :: rs)) = .ok sc
        ∧ sc.ptr = r :: rs ∧ noteFrequency sc.note sc.isSharp sc.octave = PAUSE)
    ∧ (∀ res, parseRTTTL (some (melodyText name (fs.map HeaderField.text)
            (before ++ t :: after))) melody durations length isProgmem = .ok res →
          res.ret = true ∧ res.length = (before ++ t :: after).length
          ∧ ∃ m, res.melody = some m ∧ m.length = (before ++ t :: after).length
              ∧ m[before.length]? = some PAUSE)
    ∧ ((specSettings fs).bpm ≠ 0 →
        (∀ u ∈ before ++ t :: after,
          u.durationValue (specSettings fs).defaultDuration ≠ 0) →
        ∃ res, parseRTTTL (some (melodyText name (fs.map HeaderField.text)
            (before ++ t :: after))) melody durations length isProgmem = .ok res) := by
  have hcore := parseRTTTL_melodyText name (fs.map HeaderField.text) (before ++ t :: after) []
    melody durations length isProgmem hname
    (by intro f hf
        obtain ⟨g, hg, rfl⟩ := List.mem_map.1 hf
        exact FieldOK_text g (hfs g hg))
    (by simpa using hts) hhdr
    (by rw [melodyText_length] at hlen; exact hlen)
    hn (Or.inl rfl)
  rw [List.append_nil, headerSettings_text fs hfs] at hcore
  refine ⟨?_, ?_, ?_⟩
  · refine ⟨_, scanNote_text t j dd dOct r rs ht hr, rfl, ?_⟩
    simp [hp, letterChar, noteFrequency]
  · intro res hres
    rw [hcore] at hres
    have := melodyOutcome_inv _ _ _ hres
    subst this
    refine ⟨rfl, by simp [successWith], _, rfl, by simp, ?_⟩
    rw [List.map_map, getElem?_map_middle]
    simp [specNote, specFrequency, hp]
  · intro hb hd
    exact ⟨_, by rw [hcore, melodyOutcome_ok _ _ hb hd]⟩

set_option maxRecDepth 100000 in
/-- C8 at the note `8P#5.` between two notes `c`, under the header `b=120`. -/
theorem C8_pause_is_silence_witness :
    ((⟨[56], none, true, true, some 5, true⟩ : NoteToken).WF
      ∧ (⟨[56], none, true, true, some 5, true⟩ : NoteToken).letter = none
      ∧ (⟨[56], none, true, true, some 5, true⟩ : NoteToken).text = cstr "8P#5."
      ∧ IsNoteEnd 44)
    ∧ scanNote 4 6 (cstr ",8P#5.,c" ++ [0])
        = .ok ⟨8, 112, true, 5, true, cstr ",c" ++ [0]⟩
    ∧ noteFrequency 112 true 5 = PAUSE
    ∧ parseRTTTL (some (cstr "x:b=120:c,8P#5.,c")) none none 0 false
        = .ok ⟨true, some [1048, 0, 1048], some [500, 375, 500], 3⟩
    ∧ ∀ res, parseRTTTL (some (melodyText (cstr "x") ([HeaderField.b [49, 50, 48]].map
          HeaderField.text) ([⟨[], some .c, false, false, none, false⟩]
            ++ ⟨[56], none, true, true, some 5, true⟩
              :: [⟨[], some .c, false, false, none, false⟩]))) none none 0 false = .ok res →
        res.ret = true ∧ res.length = 3 ∧ ∃ m, res.melody = some m ∧ m.length = 3
          ∧ m[1]? = some PAUSE :=
  ⟨⟨by decide, rfl, by decide, Or.inl rfl⟩, by rfl, by rfl, by rfl,
    (C8_pause_is_silence ⟨[56], none, true, true, some 5, true⟩ 1 4 6 44 (cstr "c" ++ [0])
      (cstr "x") [HeaderField.b [49, 50, 48]] [⟨[], some .c, false, false, none, false⟩]
      [⟨[], some .c, false, false, none, false⟩] none none 0 false
      (by decide) rfl (Or.inl rfl) (by decide) (by decide) (by decide) (by decide) (by decide)
      (by decide)).2.1⟩

/-- C9 (as amended): in the parse of a melody text built by the grammar, whose header
fields are `d=<int>`, `o=<int>`, `b=<int>` or do not start with `d`, `o` or `b`, with every
`d=` and `o=` value and every run of duration digits at most 255 and every `b=` value at most
65535: the result is the outcome of the notes (the first 100 of them) derived as written
under the header as written, a note without duration digits or without octave digit taking
the header's value. The header as written has the default duration 4, the default octave 6
and the tempo 120 when it has no field of that kind, and a field `d=`, `o=` or `b=` added at
its end replaces the value of its own kind and no other, a field of another kind nothing. -/
theorem C9_header_defaults (name : List Nat) (fs : List HeaderField) (ts : List NoteToken)
    (melody durations : Option (List Nat)) (length : Nat) (isProgmem : Bool)
    (hname : ∀ c ∈ name, c ≠ 58 ∧ c ≠ 0) (hfs : ∀ f ∈ fs, f.WF) (hts : ∀ t ∈ ts, t.WF)
    (hlen : (melodyText name (fs.map HeaderField.text) ts).length ≤ 255)
    (hhdr : (joinComma (fs.map HeaderField.text)).length ≤ 31)
    (hfr : ∀ f ∈ fs, f.InRange) (htr : ∀ t ∈ ts, t.InRange) :
    parseRTTTL (some (melodyText name (fs.map HeaderField.text) ts)) melody durations length
        isProgmem
      = writtenOutcome (writtenSettings fs) (ts.take MAX_RTTTL_NOTES)
    ∧ ((∀ f ∈ fs, f.writtenDuration? = none) → (writtenSettings fs).defaultDuration = 4)
    ∧ ((∀ f ∈ fs, f.writtenOctave? = none) → (writtenSettings fs).defaultOctave = 6)
    ∧ ((∀ f ∈ fs, f.writtenBpm? = none) → (writtenSettings fs).bpm = 120)
    ∧ (∀ (gs : List HeaderField) (ds : List Nat),
        writtenSettings (gs ++ [.d ds])
          = { writtenSettings gs with defaultDuration := digitsValue ds })
    ∧ (∀ (gs : List HeaderField) (ds : List Nat),
        writtenSettings (gs ++ [.o ds])
          = { writtenSettings gs with defaultOctave := digitsValue ds })
    ∧ (∀ (gs : List HeaderField) (ds : List Nat),
        writtenSettings (gs ++ [.b ds]) = { writtenSettings gs with bpm := digitsValue ds })
    ∧ (∀ (gs : List HeaderField) (txt : List Nat),
        writtenSettings (gs ++ [.other txt]) = writtenSettings gs) := by
  have hnone : ∀ sel : HeaderField → Option Nat, (∀ f ∈ fs, sel f = none) →
      lastField sel fs = none := by
    intro sel h
    simp only [lastField, List.findSome?_eq_none_iff, List.mem_reverse]
    exact h
  refine ⟨parseRTTTL_written name fs ts melody durations length isProgmem hname hfs hts hlen
    hhdr hfr htr, ?_, ?_, ?_, ?_, ?_, ?_, ?_⟩
  · intro h; simp only [writtenSettings, hnone _ h, Option.getD_none]
  · intro h; simp only [writtenSettings, hnone _ h, Option.getD_none]
  · intro h; simp only [writtenSettings, hnone _ h, Option.getD_none]
  · intro gs ds
    simp [writtenSettings, lastField_append_singleton, HeaderField.writtenDuration?,
      HeaderField.writtenOctave?, HeaderField.writtenBpm?]
  · intro gs ds
    simp [writtenSettings, lastField_append_singleton, HeaderField.writtenDuration?,
      HeaderField.writtenOctave?, HeaderField.writtenBpm?]
  · intro gs ds
    simp [writtenSettings, lastField_append_singleton, HeaderField.writtenDuration?,
      HeaderField.writtenOctave?, HeaderField.writtenBpm?]
  · intro gs txt
    simp [writtenSettings, lastField_append_singleton, HeaderField.writtenDuration?,
      HeaderField.writtenOctave?, HeaderField.writtenBpm?]

set_option maxRecDepth 100000 in
/-- C9 (as amended) at `x::c`, a header without fields, and at `x:o=5:f#`. -/
theorem C9_header_defaults_witness :
    ((∀ c ∈ cstr "x", c ≠ 58 ∧ c ≠ 0) ∧ (∀ f ∈ ([] : List HeaderField), f.WF)
      ∧ (∀ t ∈ [(⟨[], some .c, false, false, none, false⟩ : NoteToken)], t.WF)
      ∧ (melodyText (cstr "x") (([] : List HeaderField).map HeaderField.text)
          [⟨[], some .c, false, false, none, false⟩]).length ≤ 255
      ∧ (joinComma (([] : List HeaderField).map HeaderField.text)).length ≤ 31
      ∧ (∀ f ∈ ([] : List HeaderField), f.InRange)
      ∧ (∀ t ∈ [(⟨[], some .c, false, false, none, false⟩ : NoteToken)], t.InRange))
    ∧ melodyText (cstr "x") (([] : List HeaderField).map HeaderField.text)
        [⟨[], some .c, false, false, none, false⟩] = cstr "x::c"
    ∧ parseRTTTL (some (melodyText (cstr "x") (([] : List HeaderField).map HeaderField.text)
        [⟨[], some .c, false, false, none, false⟩])) none none 0 false
        = writtenOutcome (writtenSettings [])
            ([(⟨[], some .c, false, false, none, false⟩ : NoteToken)].take MAX_RTTTL_NOTES)
    ∧ writtenSettings [] = ⟨4, 6, 120⟩
    ∧ writtenSettings [HeaderField.o [53]] = ⟨4, 5, 120⟩
    ∧ parseRTTTL (some (cstr "x::c")) none none 0 false
        = .ok ⟨true, some [1048], some [500], 1⟩
    ∧ parseRTTTL (some (cstr "x:o=5:f#")) none none 0 false
        = .ok ⟨true, some [740], some [500], 1⟩ :=
  ⟨⟨by decide, by decide, by decide, by decide, by decide, by decide, by decide⟩, by decide,
    (C9_header_defaults (cstr "x") [] [⟨[], some .c, false, false, none, false⟩] none none 0
      false (by decide) (by decide) (by decide) (by decide) (by decide) (by decide)
      (by decide)).1,
    by decide, by decide, by rfl, by rfl⟩

set_option maxRecDepth 100000 in
/-- C9 (as stated) fails twice. The header `octave` holds none of the fields `d=`, `o=`,
`b=`, yet its first byte makes the parser set the default octave, to `atoi("tave") = 0`, and
the bare note `c` comes out silent instead of 1048 Hz. And under the header
`d=260,o=260,b=65656` the bare note `c` comes out as (262 Hz, 500 ms), the header values
being stored as 4, 4 and 120, where the note derived under the header as written is silent
and lasts 0 ms. -/
theorem C9_octave_counterexample :
    parseRTTTL (some (cstr "x:octave:c")) none none 0 false
        = .ok ⟨true, some [0], some [500], 1⟩
    ∧ parseSettings 7 (cstr "octave" ++ [0]) ⟨4, 6, 120⟩ = .ok ⟨4, 0, 120⟩
    ∧ melodyText (cstr "x")
        ([HeaderField.d (cstr "260"), .o (cstr "260"), .b (cstr "65656")].map HeaderField.text)
        [⟨[], some .c, false, false, none, false⟩] = cstr "x:d=260,o=260,b=65656:c"
    ∧ writtenSettings [HeaderField.d (cstr "260"), .o (cstr "260"), .b (cstr "65656")]
        = ⟨260, 260, 65656⟩
    ∧ parseRTTTL (some (cstr "x:d=260,o=260,b=65656:c")) none none 0 false
        = .ok ⟨true, some [262], some [500], 1⟩
    ∧ writtenNote 65656 260 260 ⟨[], some .c, false, false, none, false⟩ = (0, 0) := by
  refine ⟨by rfl, by rfl, by decide, by decide, by rfl, ?_⟩
  have hf : specFrequency (some .c) false 260 = 0 := by
    rw [← noteFrequency_letter]; decide
  have hd : specDuration 65656 260 false = 0 := by decide
  simp only [writtenNote, NoteToken.octaveValue, NoteToken.writtenDuration, Option.getD_none,
    if_true, hf, hd]

/-- C10 (as amended): in a string with its two separators whose header fields are not empty,
hold no comma, colon or NUL, and are at least two bytes long when they start with `d`, `o` or
`b`, adding at any place of the header a field that does not start with `d`, `o` or `b`
leaves the result of `parseRTTTL` unchanged, as long as the longer header is at most 31
bytes and the longer string at most 254 bytes, whatever the notes section holds, or at most
255 bytes when the notes section is built by the grammar. -/
theorem C10_other_field_ignored (name : List Nat) (fs1 fs2 : List (List Nat)) (f : List Nat)
    (melody durations : Option (List Nat)) (length : Nat) (isProgmem : Bool)
    (hname : ∀ c ∈ name, c ≠ 58 ∧ c ≠ 0) (hfs : ∀ g ∈ fs1 ++ fs2, FieldOK g)
    (hne : f ≠ []) (hc : ∀ c ∈ f, c ≠ 44 ∧ c ≠ 58 ∧ c ≠ 0)
    (hf : ∀ t0 ∈ f.head?, t0 ≠ 100 ∧ t0 ≠ 111 ∧ t0 ≠ 98)
    (hhdr : (joinComma (fs1 ++ f :: fs2)).length ≤ 31) :
    (∀ N : List Nat, (∀ c ∈ N, c ≠ 0) →
      (name ++ 58 :: (joinComma (fs1 ++ f :: fs2) ++ 58 :: N)).length ≤ 254 →
      parseRTTTL (some (name ++ 58 :: (joinComma (fs1 ++ f :: fs2) ++ 58 :: N))) melody
          durations length isProgmem
        = parseRTTTL (some (name ++ 58 :: (joinComma (fs1 ++ fs2) ++ 58 :: N))) melody
            durations length isProgmem)
    ∧ (∀ ts : List NoteToken, (∀ t ∈ ts, t.WF) →
      (melodyText name (fs1 ++ f :: fs2) ts).length ≤ 255 →
      parseRTTTL (some (melodyText name (fs1 ++ f :: fs2) ts)) melody durations length
          isProgmem
        = parseRTTTL (some (melodyText name (fs1 ++ fs2) ts)) melody durations length
            isProgmem) := by
  have hfok : FieldOK f := ⟨hne, hc, fun t0 ht0 hk => by have := hf t0 ht0; omega⟩
  have hle : (joinComma (fs1 ++ fs2)).length ≤ (joinComma (fs1 ++ f :: fs2)).length := by
    rw [joinComma_length, joinComma_length]
    simp only [List.map_append, List.map_cons, List.sum_append, List.sum_cons,
      List.length_append, List.length_cons]
    omega
  have hfs2 : ∀ g ∈ fs1 ++ f :: fs2, FieldOK g := by
    intro g hg
    simp only [List.mem_append, List.mem_cons] at hg
    rcases hg with hg | rfl | hg
    · exact hfs g (by simp [hg])
    · exact hfok
    · exact hfs g (by simp [hg])
  have hset : headerSettings (fs1 ++ f :: fs2) = headerSettings (fs1 ++ fs2) := by
    simp only [headerSettings, List.foldl_append, List.foldl_cons, fieldEffect_ignored _ f hf]
  constructor
  · intro N hN hlen
    have hlen2 : (name ++ 58 :: (joinComma (fs1 ++ fs2) ++ 58 :: N)).length ≤ 254 := by
      simp only [List.length_append, List.length_cons] at hlen ⊢
      omega
    rw [parseRTTTL_fields name (fs1 ++ f :: fs2) N melody durations length isProgmem hname
        hfs2 hN hhdr hlen,
      parseRTTTL_fields name (fs1 ++ fs2) N melody durations length isProgmem hname hfs hN
        (by omega) hlen2, hset]
  · intro ts hts hlen
    have hlen2 : (melodyText name (fs1 ++ fs2) ts).length ≤ 255 := by
      rw [melodyText_length] at hlen ⊢
      omega
    rw [parseRTTTL_melodyText_short name (fs1 ++ f :: fs2) ts melody durations length
        isProgmem hname hfs2 hts hhdr hlen,
      parseRTTTL_melodyText_short name (fs1 ++ fs2) ts melody durations length isProgmem hname
        hfs hts (by omega) hlen2, hset]

set_option maxRecDepth 100000 in
/-- C10 (as amended) at `x:b=120:c`, with the field `tempo` added after `b=120`. -/
theorem C10_other_field_ignored_witness :
    ((∀ c ∈ cstr "x", c ≠ 58 ∧ c ≠ 0) ∧ (∀ g ∈ [cstr "b=120"] ++ [], FieldOK g)
      ∧ cstr "tempo" ≠ [] ∧ (∀ c ∈ cstr "tempo", c ≠ 44 ∧ c ≠ 58 ∧ c ≠ 0)
      ∧ (∀ t0 ∈ (cstr "tempo").head?, t0 ≠ 100 ∧ t0 ≠ 111 ∧ t0 ≠ 98)
      ∧ (joinComma ([cstr "b=120"] ++ cstr "tempo" :: [])).length ≤ 31)
    ∧ cstr "x" ++ 58 :: (joinComma ([cstr "b=120"] ++ cstr "tempo" :: []) ++ 58 :: cstr "c")
        = cstr "x:b=120,tempo:c"
    ∧ cstr "x" ++ 58 :: (joinComma ([cstr "b=120"] ++ []) ++ 58 :: cstr "c")
        = cstr "x:b=120:c"
    ∧ parseRTTTL (some (cstr "x" ++ 58 :: (joinComma ([cstr "b=120"] ++ cstr "tempo" :: [])
          ++ 58 :: cstr "c"))) none none 0 false
        = parseRTTTL (some (cstr "x" ++ 58 :: (joinComma ([cstr "b=120"] ++ [])
          ++ 58 :: cstr "c"))) none none 0 false :=
  ⟨⟨by decide, by decide, by decide, by decide, by decide, by decide⟩, by decide, by decide,
    (C10_other_field_ignored (cstr "x") [cstr "b=120"] [] (cstr "tempo") none none 0 false
      (by decide) (by decide) (by decide) (by decide) (by decide) (by decide)).1
      (cstr "c") (by decide) (by decide)⟩

set_option maxRecDepth 100000 in
/-- C10 (as stated) fails: `other` is not of the form `d=<int>`, `o=<int>` or `b=<int>`, yet
adding it to the header of `x:b=120:c` turns the note from 1048 Hz into silence: the first
byte `o` makes the parser set the default octave to `atoi("her") = 0`. -/
theorem C10_other_counterexample :
    parseRTTTL (some (cstr "x:b=120:c")) none none 0 false
        = .ok ⟨true, some [1048], some [500], 1⟩
    ∧ parseRTTTL (some (cstr "x:b=120,other:c")) none none 0 false
        = .ok ⟨true, some [0], some [500], 1⟩ := by
  exact ⟨by rfl, by rfl⟩

/-- C12: for every state, arrays, length, ownership flag, clock value and pin, `playMelody`
with the repeat count 0 gives the very result (state, events, or fault) that it gives with
the repeat count 1; so the update calls that follow give the same results too; an accepted
call leaves `totalRepeats = 1`, and a run over `L` notes that ends idle has called `playTone`
exactly `L` times, one pass. -/
theorem C12_repeat_zero_is_one (st : MelodyState) (melody durations : Option (List Nat))
    (length : Nat) (isDynamic : Bool) (now pin : Nat) :
    playMelody st melody durations length isDynamic 0 now pin
      = playMelody st melody durations length isDynamic 1 now pin
    ∧ (∀ clock : List Nat,
        (playMelody st melody durations length isDynamic 0 now pin).bind
            (fun r => runMelody pin r.1 clock)
          = (playMelody st melody durations length isDynamic 1 now pin).bind
            (fun r => runMelody pin r.1 clock))
    ∧ (∀ st1 ev, playMelody st melody durations length isDynamic 0 now pin = .ok (st1, ev) →
        st1.isPlaying = true → st1.totalRepeats = 1 ∧ st1.currentRepeat = 0)
    ∧ (∀ m d clock, melody = some m → durations = some d → 0 < length →
        length ≤ m.length → length ≤ d.length →
        ∃ st1 ev1 st2 ev2,
          playMelody st melody durations length isDynamic 0 now pin = .ok (st1, ev1)
          ∧ runMelody pin st1 clock = .ok (st2, ev2)
          ∧ (st2.isPlaying = false → callCount (ev1 ++ ev2) = length)) := by
  have h01 : playMelody st melody durations length isDynamic 0 now pin
      = playMelody st melody durations length isDynamic 1 now pin := by
    unfold playMelody
    simp
  refine ⟨h01, fun clock => by rw [h01], ?_, ?_⟩
  · intro st1 ev h hp
    unfold playMelody at h
    split at h
    · simp only [Except.ok.injEq, Prod.mk.injEq] at h
      obtain ⟨rfl, -⟩ := h
      simp at hp
    · split at h
      · simp at h
      · simp only [Except.ok.injEq, Prod.mk.injEq] at h
        obtain ⟨rfl, -⟩ := h
        simp
  · intro m d clock hm hd hL h1 h2
    subst hm hd
    obtain ⟨st1, ev1, e1, r1, p1, c1, n1, -⟩ :=
      playMelody_reached st m d length 0 isDynamic now pin hL h1 h2 (by decide)
    obtain ⟨st2, ev2, e2, r2, c2, -, -⟩ :=
      runMelody_reached m d length (max 0 1) isDynamic pin clock st1 r1
    refine ⟨st1, ev1, st2, ev2, e1, e2, fun hi => ?_⟩
    have h := calls_of_idle m d length (max 0 1) isDynamic st2 r2 hi
    simp only [callCount, List.filter_append, List.length_append]
    simp at h
    omega

/-- C12, witness: two notes started with the repeat count 0 and then updated three times
leave the controller idle after two calls of `playTone`. -/
theorem C12_repeat_zero_is_one_witness :
    playMelody ⟨false, 0, 0, none, none, 0, false, 0, 0⟩ (some [440, 880]) (some [100, 100])
        2 false 0 0 14
      = playMelody ⟨false, 0, 0, none, none, 0, false, 0, 0⟩ (some [440, 880])
          (some [100, 100]) 2 false 1 0 14
    ∧ (∃ st1 ev1 st2 ev2,
        playMelody ⟨false, 0, 0, none, none, 0, false, 0, 0⟩ (some [440, 880])
          (some [100, 100]) 2 false 0 0 14 = .ok (st1, ev1)
        ∧ runMelody 14 st1 [200, 400, 600] = .ok (st2, ev2)
        ∧ (st2.isPlaying = false → callCount (ev1 ++ ev2) = 2))
    ∧ (∃ st1 ev1 st2 ev2,
        playMelody ⟨false, 0, 0, none, none, 0, false, 0, 0⟩ (some [440, 880])
          (some [100, 100]) 2 false 0 0 14 = .ok (st1, ev1)
        ∧ runMelody 14 st1 [200, 400, 600] = .ok (st2, ev2)
        ∧ st1.totalRepeats = 1 ∧ st2.isPlaying = false ∧ callCount (ev1 ++ ev2) = 2) :=
  ⟨(C12_repeat_zero_is_one _ _ _ 2 false 0 14).1,
   (C12_repeat_zero_is_one ⟨false, 0, 0, none, none, 0, false, 0, 0⟩ (some [440, 880])
      (some [100, 100]) 2 false 0 14).2.2.2 [440, 880] [100, 100] [200, 400, 600] rfl rfl
      (by decide) (by decide) (by decide),
   ⟨_, _, _, _, rfl, rfl, rfl, rfl, rfl⟩⟩

/-- C13: after `playMelody` accepted `L` notes (`L` not zero, both arrays holding at least
`L` elements), take any number of `updateMelody` calls and then one more. With
`isDynamic = true`: `playMelody` deletes nothing; the calls taken together have deleted the
two arrays, once each, when they leave the controller idle and nothing when they leave it
playing; the one further call deletes them when, and only when, it takes the controller from
playing to idle; and the two references are the arrays while the controller plays and null
once it is idle. With `isDynamic = false`: no call deletes anything and the two references
stay the arrays. -/
theorem C13_release_once (st0 : MelodyState) (m d : List Nat) (L r : Nat) (now pin : Nat)
    (clock : List Nat) (t : Nat)
    (hL : 0 < L) (hm : L ≤ m.length) (hd : L ≤ d.length) (hr : r < 256) :
    (∃ st1 ev1 st2 ev2 st3 ev3,
      playMelody st0 (some m) (some d) L true r now pin = .ok (st1, ev1)
      ∧ runMelody pin st1 clock = .ok (st2, ev2)
      ∧ updateMelody st2 t pin = .ok (st3, ev3)
      ∧ ev1.filter Event.isDelete = []
      ∧ ev2.filter Event.isDelete
          = (if st2.isPlaying = false then [.delete (some m), .delete (some d)] else [])
      ∧ ev3.filter Event.isDelete
          = (if st2.isPlaying = true ∧ st3.isPlaying = false
             then [.delete (some m), .delete (some d)] else [])
      ∧ (st2.isPlaying = true → st2.melody = some m ∧ st2.durations = some d)
      ∧ (st2.isPlaying = false → st2.melody = none ∧ st2.durations = none))
    ∧ (∃ st1 ev1 st2 ev2,
      playMelody st0 (some m) (some d) L false r now pin = .ok (st1, ev1)
      ∧ runMelody pin st1 clock = .ok (st2, ev2)
      ∧ (ev1 ++ ev2).filter Event.isDelete = []
      ∧ st1.melody = some m ∧ st1.durations = some d
      ∧ st2.melody = some m ∧ st2.durations = some d) := by
  constructor
  · obtain ⟨st1, ev1, e1, r1, p1, c1, n1, d1⟩ :=
      playMelody_reached st0 m d L r true now pin hL hm hd hr
    obtain ⟨st2, ev2, e2, r2, c2, d2, -⟩ :=
      runMelody_reached m d L (max r 1) true pin clock st1 r1
    obtain ⟨st3, ev3, e3, r3, c3, d3, -, -⟩ :=
      updateMelody_step m d L (max r 1) true st2 t pin r2
    refine ⟨st1, ev1, st2, ev2, st3, ev3, e1, e2, e3, d1, ?_, ?_, ?_, ?_⟩
    · rw [d2]
      simp [p1]
    · rw [d3]
      simp
    · exact r2.2.2.2.2.2.2.2.2.2.2.1
    · intro hi
      have := r2.2.2.2.2.2.2.2.2.2.2.2 hi
      simpa using this.2.2
  · obtain ⟨st1, ev1, e1, r1, p1, c1, n1, d1⟩ :=
      playMelody_reached st0 m d L r false now pin hL hm hd hr
    obtain ⟨st2, ev2, e2, r2, c2, d2, -⟩ :=
      runMelody_reached m d L (max r 1) false pin clock st1 r1
    have q1 := r1.2.2.2.2.2.2.2.2.2.2.1 p1
    refine ⟨st1, ev1, st2, ev2, e1, e2, ?_, q1.1, q1.2, ?_⟩
    · rw [List.filter_append, d1, d2]
      simp
    · cases hp : st2.isPlaying with
      | true => exact r2.2.2.2.2.2.2.2.2.2.2.1 hp
      | false =>
        have := r2.2.2.2.2.2.2.2.2.2.2.2 hp
        simpa using this.2.2

/-- C13, witness: two owned notes played once; the updates at 200 and 400 delete nothing and
leave the controller playing, and the update at 600 deletes both arrays, clears both
references and leaves the controller idle. -/
theorem C13_release_once_witness :
    (0 < 2 ∧ 2 ≤ [440, 880].length ∧ 2 ≤ [100, 100].length ∧ 1 < 256)
    ∧ (∃ st1 ev1 st2 ev2 st3 ev3,
      playMelody ⟨false, 0, 0, none, none, 0, false, 0, 0⟩ (some [440, 880])
        (some [100, 100]) 2 true 1 0 14 = .ok (st1, ev1)
      ∧ runMelody 14 st1 [200, 400] = .ok (st2, ev2)
      ∧ updateMelody st2 600 14 = .ok (st3, ev3)
      ∧ st2.isPlaying = true ∧ ev2.filter Event.isDelete = []
      ∧ st3.isPlaying = false ∧ st3.melody = none ∧ st3.durations = none
      ∧ ev3 = [.delete (some [440, 880]), .delete (some [100, 100]), .noTone 14])
    ∧ ((∃ st1 ev1 st2 ev2 st3 ev3,
      playMelody ⟨false, 0, 0, none, none, 0, false, 0, 0⟩ (some [440, 880])
        (some [100, 100]) 2 true 1 0 14 = .ok (st1, ev1)
      ∧ runMelody 14 st1 [200, 400] = .ok (st2, ev2)
      ∧ updateMelody st2 600 14 = .ok (st3, ev3)
      ∧ ev1.filter Event.isDelete = []
      ∧ ev2.filter Event.isDelete
          = (if st2.isPlaying = false then [.delete (some [440, 880]),
              .delete (some [100, 100])] else [])
      ∧ ev3.filter Event.isDelete
          = (if st2.isPlaying = true ∧ st3.isPlaying = false
             then [.delete (some [440, 880]), .delete (some [100, 100])] else [])
      ∧ (st2.isPlaying = true → st2.melody = some [440, 880]
          ∧ st2.durations = some [100, 100])
      ∧ (st2.isPlaying = false → st2.melody = none ∧ st2.durations = none))
    ∧ (∃ st1 ev1 st2 ev2,
      playMelody ⟨false, 0, 0, none, none, 0, false, 0, 0⟩ (some [440, 880])
        (some [100, 100]) 2 false 1 0 14 = .ok (st1, ev1)
      ∧ runMelody 14 st1 [200, 400] = .ok (st2, ev2)
      ∧ (ev1 ++ ev2).filter Event.isDelete = []
      ∧ st1.melody = some [440, 880] ∧ st1.durations = some [100, 100]
      ∧ st2.melody = some [440, 880] ∧ st2.durations = some [100, 100])) :=
  ⟨⟨by decide, by decide, by decide, by decide⟩,
   ⟨_, _, _, _, _, _, rfl, rfl, rfl, rfl, rfl, rfl, rfl, rfl, rfl⟩,
   C13_release_once _ [440, 880] [100, 100] 2 1 0 14 [200, 400] 600
     (by decide) (by decide) (by decide) (by decide)⟩

/-- C14: each start operation, called when its rejection condition holds, gives back the
state it was given with `isPlaying` set to false and every other field as it was, and causes
no event at all, so no `tone` and no `noTone`. The conditions: `playTone`, frequency below 31
or above 65535 or duration 0; `playAlert` and `playBeep`, count 0 or frequency below 31 or
above 65535 or duration 0; `playMelody`, length 0 or a null array; `playToneSeries`, start or
end frequency below 31 or above 65535, step 0, or duration 0; `playSiren`, low frequency
below 31, high frequency above 65535, or duration 0. -/
theorem C14_rejection_is_silent :
    (∀ (st : ToneState) (f d now pin : Nat),
      f < MIN_FREQUENCY ∨ f > MAX_FREQUENCY ∨ d ≤ 0 →
      playTone st f d now pin = ({ st with isPlaying := false }, []))
    ∧ (∀ (st : AlertState) (nr f d lapse now : Nat),
      nr = 0 ∨ f < MIN_FREQUENCY ∨ f > MAX_FREQUENCY ∨ d ≤ 0 →
      playAlert st nr f d lapse now = ({ st with isPlaying := false }, [])
      ∧ playBeep st nr f d lapse now = ({ st with isPlaying := false }, []))
    ∧ (∀ (st : MelodyState) (melody durations : Option (List Nat)) (length : Nat)
        (isDynamic : Bool) (repeatCount now pin : Nat),
      length = 0 ∨ melody = none ∨ durations = none →
      playMelody st melody durations length isDynamic repeatCount now pin
        = .ok ({ st with isPlaying := false }, []))
    ∧ (∀ (st : ToneSeriesState) (startFrequency endFrequency : Nat) (step : Int)
        (d now pin : Nat),
      startFrequency < MIN_FREQUENCY ∨ startFrequency > MAX_FREQUENCY
        ∨ endFrequency < MIN_FREQUENCY ∨ endFrequency > MAX_FREQUENCY
        ∨ step = 0 ∨ d ≤ 0 →
      playToneSeries st startFrequency endFrequency step d now pin
        = ({ st with isPlaying := false }, []))
    ∧ (∀ (st : SirenState) (low high d now pin : Nat),
      low < MIN_FREQUENCY ∨ high > MAX_FREQUENCY ∨ d ≤ 0 →
      playSiren st low high d now pin = ({ st with isPlaying := false }, [])) := by
  refine ⟨?_, ?_, ?_, ?_, ?_⟩
  · intro st f d now pin h
    simp only [playTone, h, if_true]
  · intro st nr f d lapse now h
    simp only [playBeep, playAlert, h, if_true, and_self]
  · intro st melody durations length isDynamic repeatCount now pin h
    simp only [playMelody, h, if_true]
  · intro st s e step d now pin h
    simp only [playToneSeries, h, if_true]
  · intro st low high d now pin h
    simp only [playSiren, h, if_true]

/-- C14, witness: `playToneSeries` with the step 0, on a series that plays, only clears
`isPlaying`; and so does `playTone` with the frequency 20. -/
theorem C14_rejection_is_silent_witness :
    ((440 : Nat) < MIN_FREQUENCY ∨ 440 > MAX_FREQUENCY ∨ 880 < MIN_FREQUENCY
      ∨ 880 > MAX_FREQUENCY ∨ (0 : Int) = 0 ∨ 200 ≤ 0)
    ∧ playToneSeries ⟨true, 600, 7, 700, 10, 50⟩ 440 880 0 200 1000 14
        = (⟨false, 600, 7, 700, 10, 50⟩, [])
    ∧ playTone ⟨true, 5, 440, 200⟩ 20 200 1000 14 = (⟨false, 5, 440, 200⟩, []) :=
  ⟨by decide,
   C14_rejection_is_silent.2.2.2.1 ⟨true, 600, 7, 700, 10, 50⟩ 440 880 0 200 1000 14
     (by decide),
   C14_rejection_is_silent.1 ⟨true, 5, 440, 200⟩ 20 200 1000 14 (by decide)⟩

/-- C15: on the code, `playTone` called with the silence sentinel `PAUSE` and any duration is
rejected, because `PAUSE = 0` is below `MIN_FREQUENCY`: it clears `isPlaying`, records no
start time and commands nothing, so the `noTone` of its last branch is never reached. -/
theorem C15_pause_is_rejected (st : ToneState) (d now pin : Nat) :
    playTone st PAUSE d now pin = ({ st with isPlaying := false }, [])
    ∧ (playTone st PAUSE d now pin).1.startTime = st.startTime
    ∧ (playTone st PAUSE d now pin).1.isPlaying = false := by
  have h : playTone st PAUSE d now pin = ({ st with isPlaying := false }, []) := by
    simp [playTone, PAUSE, MIN_FREQUENCY]
  rw [h]
  exact ⟨rfl, rfl, rfl⟩

/-- C16 (as amended): for a tone that plays, `updateTone` at the clock value `now` commands
`noTone` and clears `isPlaying` when `now - startTime`, the difference of the two `uint32_t`,
has reached the duration narrowed to `uint16_t`, and else does nothing at all; `startTime`,
`frequency` and `duration` are kept in both cases. A duration of at most 65535 is its own
narrowing, and when the clock has not wrapped since the start the difference is the plain
one. -/
theorem C16_updateTone_stops_on_time (st : ToneState) (now pin : Nat)
    (hp : st.isPlaying = true) :
    updateTone st now pin
      = (if sub32 now st.startTime ≥ st.duration % 65536
         then ({ st with isPlaying := false }, [.noTone pin]) else (st, []))
    ∧ (updateTone st now pin).1.startTime = st.startTime
    ∧ (updateTone st now pin).1.frequency = st.frequency
    ∧ (updateTone st now pin).1.duration = st.duration
    ∧ ((updateTone st now pin).1.isPlaying = false
        ↔ sub32 now st.startTime ≥ st.duration % 65536)
    ∧ ((updateTone st now pin).2 = [.noTone pin]
        ↔ sub32 now st.startTime ≥ st.duration % 65536)
    ∧ (st.duration ≤ 65535 → st.duration % 65536 = st.duration)
    ∧ (st.startTime ≤ now → now < 4294967296 →
        sub32 now st.startTime = now - st.startTime) := by
  have h : updateTone st now pin
      = (if sub32 now st.startTime ≥ st.duration % 65536
         then ({ st with isPlaying := false }, [.noTone pin]) else (st, [])) := by
    simp only [updateTone, hp, true_and]
  refine ⟨h, ?_, ?_, ?_, ?_, ?_, ?_, ?_⟩
  · rw [h]; split <;> rfl
  · rw [h]; split <;> rfl
  · rw [h]; split <;> rfl
  · rw [h]; split <;> simp_all
  · rw [h]; split <;> simp_all
  · intro h1
    exact Nat.mod_eq_of_lt (by omega)
  · intro h1 h2
    unfold sub32
    have : st.startTime % 4294967296 = st.startTime := Nat.mod_eq_of_lt (by omega)
    rw [this]
    omega

/-- C16 (as amended), witness: a tone of 200 ms started at 1000 is stopped by the update at
1200, and left alone by the update at 1199. -/
theorem C16_updateTone_stops_on_time_witness :
    (⟨true, 1000, 440, 200⟩ : ToneState).isPlaying = true
    ∧ updateTone ⟨true, 1000, 440, 200⟩ 1200 14 = (⟨false, 1000, 440, 200⟩, [.noTone 14])
    ∧ updateTone ⟨true, 1000, 440, 200⟩ 1199 14 = (⟨true, 1000, 440, 200⟩, []) :=
  ⟨rfl,
   (C16_updateTone_stops_on_time ⟨true, 1000, 440, 200⟩ 1200 14 rfl).1,
   (C16_updateTone_stops_on_time ⟨true, 1000, 440, 200⟩ 1199 14 rfl).1⟩

/-- C16 (as stated) fails: `playTone` accepts the duration 65636 and leaves the tone playing
with it; the update 100 ms after the start stops the tone, the duration being compared as
the `uint16_t` 100, although 100 ms are less than the duration. -/
theorem C16_wide_duration_counterexample :
    playTone ⟨false, 0, 0, 0⟩ 440 65636 0 14 = (⟨true, 0, 440, 65636⟩, [.tone 14 440])
    ∧ updateTone ⟨true, 0, 440, 65636⟩ 100 14 = (⟨false, 0, 440, 65636⟩, [.noTone 14])
    ∧ sub32 100 0 = 100 ∧ ¬ (100 ≥ 65636) := by
  exact ⟨by decide, by decide, by decide, by decide⟩

/-- C17: on a state with `isPlaying = false`, any number of calls of `updateTone`, of
`updateMelody` or of `updateToneSeries`, at any clock values, leave the state exactly as it
was and cause no event, so no hardware command. -/
theorem C17_idle_update_does_nothing (pin : Nat) (clock : List Nat) :
    (∀ st : ToneState, st.isPlaying = false →
      runUpdates (fun s t => updateTone s t pin) st clock = (st, []))
    ∧ (∀ st : MelodyState, st.isPlaying = false → runMelody pin st clock = .ok (st, []))
    ∧ (∀ st : ToneSeriesState, st.isPlaying = false →
      runUpdates (fun s t => updateToneSeries s t pin) st clock = (st, [])) := by
  induction clock with
  | nil => exact ⟨fun _ _ => rfl, fun _ _ => rfl, fun _ _ => rfl⟩
  | cons t ts ih =>
    obtain ⟨ih1, ih2, ih3⟩ := ih
    refine ⟨?_, ?_, ?_⟩
    · intro st h
      have e : updateTone st t pin = (st, []) := by simp [updateTone, h]
      simp only [runUpdates, e, ih1 st h, List.append_nil]
    · intro st h
      have e : updateMelody st t pin = .ok (st, []) := by simp [updateMelody, h]
      simp only [runMelody, e, ih2 st h, List.append_nil]
    · intro st h
      have e : updateToneSeries st t pin = (st, []) := by simp [updateToneSeries, h]
      simp only [runUpdates, e, ih3 st h, List.append_nil]

/-- C17, witness: three updates of an idle tone, of an idle melody and of an idle tone
series. -/
theorem C17_idle_update_does_nothing_witness :
    runUpdates (fun s t => updateTone s t 14) ⟨false, 1000, 440, 200⟩ [1100, 1300, 9000]
      = (⟨false, 1000, 440, 200⟩, [])
    ∧ runMelody 14 ⟨false, 2, 7, some [440, 880], some [100, 100], 2, false, 0, 1⟩
        [1100, 1300, 9000]
      = .ok (⟨false, 2, 7, some [440, 880], some [100, 100], 2, false, 0, 1⟩, [])
    ∧ runUpdates (fun s t => updateToneSeries s t 14) ⟨false, 600, 7, 700, 10, 50⟩
        [1100, 1300, 9000]
      = (⟨false, 600, 7, 700, 10, 50⟩, []) :=
  ⟨(C17_idle_update_does_nothing 14 [1100, 1300, 9000]).1 ⟨false, 1000, 440, 200⟩ rfl,
   (C17_idle_update_does_nothing 14 [1100, 1300, 9000]).2.1
     ⟨false, 2, 7, some [440, 880], some [100, 100], 2, false, 0, 1⟩ rfl,
   (C17_idle_update_does_nothing 14 [1100, 1300, 9000]).2.2 ⟨false, 600, 7, 700, 10, 50⟩ rfl⟩

/-- C18: on the code, an update of an idle alert or of an idle siren leaves the state as it
was but commands `noTone` each time, whatever the other fields and the clock. -/
theorem C18_idle_update_commands_silence (currentCount totalCount lastToneTime frequency
    duration lapse now now2 pin : Nat) (isLowFrequency : Bool)
    (startTime lastSwitchTime lowFrequency highFrequency : Nat) :
    updateAlert ⟨false, currentCount, totalCount, lastToneTime, frequency, duration, lapse⟩
        now pin
      = (⟨false, currentCount, totalCount, lastToneTime, frequency, duration, lapse⟩,
         [.noTone pin])
    ∧ updateSiren ⟨false, isLowFrequency, startTime, lastSwitchTime, lowFrequency,
        highFrequency, duration⟩ now now2 pin
      = (⟨false, isLowFrequency, startTime, lastSwitchTime, lowFrequency, highFrequency,
          duration⟩, [.noTone pin]) := by
  constructor
  · simp [updateAlert]
  · simp [updateSiren]

/-- C19: on the code, after `playAlert` with the count 2, the frequency 440, the duration
200 and the lapse 100 at the clock value 0, the updates at 200 and 300 leave the alert idle
with `currentCount = 1`, and they have commanded `noTone` twice and `tone` never. -/
theorem C19_alert_ends_after_one_count :
    playAlert ⟨false, 0, 0, 0, 0, 0, 0⟩ 2 440 200 100 0 = (⟨true, 0, 2, 0, 440, 200, 100⟩, [])
    ∧ runUpdates (fun s t => updateAlert s t 14) ⟨true, 0, 2, 0, 440, 200, 100⟩ [200, 300]
      = (⟨false, 1, 2, 200, 440, 200, 100⟩, [.noTone 14, .noTone 14]) := by
  exact ⟨by rfl, by rfl⟩

/-- C20 (as stated) fails: a melody of two notes plays; `stopTone` commands `noTone` and,
being given no state, leaves `isPlaying` true; the update that follows starts the second
note with a `tone` command. The same for a tone series and for a siren that play: the update
after the stop emits the next frequency. -/
theorem C20_stop_counterexample :
    playMelody ⟨false, 0, 0, none, none, 0, false, 0, 0⟩ (some [440, 880]) (some [100, 100])
        2 false 1 0 14
      = .ok (⟨true, 0, 0, some [440, 880], some [100, 100], 2, false, 0, 1⟩,
          [.call 440 100, .tone 14 440])
    ∧ stopTone 14 = [.noTone 14]
    ∧ updateMelody ⟨true, 0, 0, some [440, 880], some [100, 100], 2, false, 0, 1⟩ 150 14
      = .ok (⟨true, 1, 150, some [440, 880], some [100, 100], 2, false, 0, 1⟩,
          [.print 1, .call 880 100, .tone 14 880])
    ∧ updateToneSeries ⟨true, 100, 0, 130, 10, 50⟩ 50 14
      = (⟨true, 110, 50, 130, 10, 50⟩, [.tone 14 110])
    ∧ updateSiren ⟨true, true, 0, 0, 440, 880, 1000⟩ 100 100 14
      = (⟨true, false, 0, 100, 440, 880, 1000⟩, [.tone 14 880]) := by
  exact ⟨by rfl, by rfl, by rfl, by decide, by decide⟩

/-- C20 (as amended): `stopTone` commands `noTone` on the speaker pin, whatever the phase,
and nothing else; no controller state is given to it, so the update calls that follow it
start from the states as they were. For each of the five controllers, a stop followed by an
update that is not yet due leaves the controller playing, in the state it was in, the
`noTone` of the stop being the only command. For the tone controller, moreover, a stop
followed by any number of updates, from whatever state, commands `noTone` only, never
`tone`. -/
theorem C20_stop_only_silences (pin : Nat) :
    stopTone pin = [.noTone pin]
    ∧ (∀ (st : ToneState) (clock : List Nat),
        ∀ e ∈ stopTone pin ++ (runUpdates (fun s t => updateTone s t pin) st clock).2,
          e = Event.noTone pin)
    ∧ (∀ (st : ToneState) (now : Nat), st.isPlaying = true →
        sub32 now st.startTime < st.duration % 65536 →
        (updateTone st now pin).1 = st
        ∧ stopTone pin ++ (updateTone st now pin).2 = [.noTone pin])
    ∧ (∀ (st : MelodyState) (now d : Nat), st.isPlaying = true →
        st.currentNote < st.length → readAt st.durations st.currentNote = .ok d →
        sub32 now st.lastNoteTime < d % 65536 + 50 →
        updateMelody st now pin = .ok (st, []))
    ∧ (∀ (st : AlertState) (now : Nat), st.isPlaying = true →
        st.currentCount < st.totalCount → sub32 now st.lastToneTime < st.duration →
        (updateAlert st now pin).1 = st
        ∧ stopTone pin ++ (updateAlert st now pin).2 = [.noTone pin])
    ∧ (∀ (st : ToneSeriesState) (now : Nat), st.isPlaying = true →
        sub32 now st.lastToneTime < st.duration % 65536 →
        (updateToneSeries st now pin).1 = st
        ∧ stopTone pin ++ (updateToneSeries st now pin).2 = [.noTone pin])
    ∧ (∀ (st : SirenState) (now now2 : Nat), st.isPlaying = true →
        sub32 now st.startTime < st.duration % 4294967296 →
        sub32 now2 st.lastSwitchTime < st.duration % 65536 / 10 →
        (updateSiren st now now2 pin).1 = st
        ∧ stopTone pin ++ (updateSiren st now now2 pin).2 = [.noTone pin]) := by
  refine ⟨rfl, ?_, ?_, ?_, ?_, ?_, ?_⟩
  · intro st clock
    induction clock generalizing st with
    | nil =>
      intro e he
      simpa [stopTone, runUpdates] using he
    | cons t ts ih =>
      intro e he
      simp only [runUpdates, List.mem_append] at he
      rcases he with he | he | he
      · simpa [stopTone] using he
      · unfold updateTone at he
        split at he
        · simpa using he
        · simp at he
      · exact ih _ e (List.mem_append_right _ he)
  · intro st now hp hlt
    have h : updateTone st now pin = (st, []) := by
      have : ¬ (sub32 now st.startTime ≥ st.duration % 65536) := by omega
      simp only [updateTone, hp, this, and_false, if_false]
    rw [h]
    exact ⟨rfl, rfl⟩
  · intro st now d hp hc hrd hlt
    have h1 : ¬ (st.currentNote ≥ st.length) := by omega
    have h2 : ¬ (sub32 now st.lastNoteTime ≥ d % 65536 + 50) := by omega
    simp only [updateMelody, hp, Bool.true_eq_false, if_false, h1, hrd, h2]
  · intro st now hp hc hlt
    have h : updateAlert st now pin = (st, []) := by
      have h1 : ¬ (st.isPlaying = false ∨ st.currentCount ≥ st.totalCount) := by
        simp only [hp, Bool.true_eq_false, false_or]; omega
      have h2 : ¬ (sub32 now st.lastToneTime ≥ st.duration) := by omega
      rw [updateAlert_eq, if_neg h1, if_neg h2]
    rw [h]
    exact ⟨rfl, rfl⟩
  · intro st now hp hlt
    have h : updateToneSeries st now pin = (st, []) := by
      have h2 : ¬ (sub32 now st.lastToneTime ≥ st.duration % 65536) := by omega
      simp only [updateToneSeries, hp, Bool.true_eq_false, if_false, h2]
    rw [h]
    exact ⟨rfl, rfl⟩
  · intro st now now2 hp h1 h2
    have h : updateSiren st now now2 pin = (st, []) := by
      have h3 : ¬ (st.isPlaying = false ∨ sub32 now st.startTime ≥ st.duration % 4294967296) := by
        simp only [hp, Bool.true_eq_false, false_or]; omega
      have h4 : ¬ (sub32 now2 st.lastSwitchTime ≥ st.duration % 65536 / 10) := by omega
      simp only [updateSiren, h3, if_false, h4]
    rw [h]
    exact ⟨rfl, rfl⟩

/-- C20 (as amended), witness: a tone of 200 ms started at 1000 and stopped, and a melody of
two notes started at 0 and stopped; the update at 1100 finds the tone playing still, and the
update at 100 the melody. -/
theorem C20_stop_only_silences_witness :
    ((⟨true, 1000, 440, 200⟩ : ToneState).isPlaying = true
      ∧ sub32 1100 (⟨true, 1000, 440, 200⟩ : ToneState).startTime
          < (⟨true, 1000, 440, 200⟩ : ToneState).duration % 65536)
    ∧ ((updateTone ⟨true, 1000, 440, 200⟩ 1100 14).1 = ⟨true, 1000, 440, 200⟩
      ∧ stopTone 14 ++ (updateTone ⟨true, 1000, 440, 200⟩ 1100 14).2 = [.noTone 14])
    ∧ updateMelody ⟨true, 0, 0, some [440, 880], some [100, 100], 2, false, 0, 1⟩ 100 14
        = .ok (⟨true, 0, 0, some [440, 880], some [100, 100], 2, false, 0, 1⟩, []) :=
  ⟨⟨rfl, by decide⟩,
   (C20_stop_only_silences 14).2.2.1 ⟨true, 1000, 440, 200⟩ 1100 rfl (by decide),
   (C20_stop_only_silences 14).2.2.2.1
     ⟨true, 0, 0, some [440, 880], some [100, 100], 2, false, 0, 1⟩ 100 100 rfl (by decide)
     (by rfl) (by decide)⟩

/-- C21 fails on the code, which keeps the current frequency in an `int16_t`. The accepted
call `playToneSeries(40000, 50000, 100, 50)` leaves the current frequency at -25536, not at
the start. And in the sweep from 32000 to 32767 by steps of 1000 the first new value, 33000,
is past the end, yet it is stored as -32536, found not to be above the end, and emitted; the
sweep goes on with 34000 instead of ending. -/
theorem C21_sweep_wraps :
    playToneSeries ⟨false, 0, 0, 0, 0, 0⟩ 40000 50000 100 50 0 14
      = (⟨true, -25536, 0, 50000, 100, 50⟩, [.tone 14 40000])
    ∧ playToneSeries ⟨false, 0, 0, 0, 0, 0⟩ 32000 32767 1000 50 0 14
      = (⟨true, 32000, 0, 32767, 1000, 50⟩, [.tone 14 32000])
    ∧ updateToneSeries ⟨true, 32000, 0, 32767, 1000, 50⟩ 50 14
      = (⟨true, -32536, 50, 32767, 1000, 50⟩, [.tone 14 33000])
    ∧ sweepRun ⟨false, 0, 0, 0, 0, 0⟩ 32000 32767 1000 50 0 14 [50, 100]
      = (⟨true, -31536, 100, 32767, 1000, 50⟩,
         [.tone 14 32000, .tone 14 33000, .tone 14 34000]) := by
  exact ⟨by decide, by decide, by decide, by decide⟩

/-- C22: on the code, two accepted starts lead to a `tone` command with the frequency 0.
`playSiren` with the low frequency 440 and the high frequency `PAUSE` is accepted, and the
update 100 ms later switches to the high frequency and emits 0. `playToneSeries` from 65535
to 65535 by steps of 1 is accepted, stores the start as -1, and the first step emits 0. -/
theorem C22_emit_of_zero :
    playSiren ⟨false, false, 0, 0, 0, 0, 0⟩ 440 PAUSE 1000 0 14
      = (⟨true, true, 0, 0, 440, 0, 1000⟩, [.tone 14 440])
    ∧ updateSiren ⟨true, true, 0, 0, 440, 0, 1000⟩ 100 100 14
      = (⟨true, false, 0, 100, 440, 0, 1000⟩, [.tone 14 0])
    ∧ playToneSeries ⟨false, 0, 0, 0, 0, 0⟩ 65535 65535 1 50 0 14
      = (⟨true, -1, 0, 65535, 1, 50⟩, [.tone 14 65535])
    ∧ updateToneSeries ⟨true, -1, 0, 65535, 1, 50⟩ 50 14
      = (⟨true, 0, 50, 65535, 1, 50⟩, [.tone 14 0]) := by
  exact ⟨by decide, by decide, by decide, by decide⟩

/-- C23: `playAlert` and `playBeep`, when they accept the call (count not zero, frequency
from 31 to 65535, duration not zero), cause no event and leave the alert playing with the
count 0; and after that no run of `updateAlert` calls, at whatever clock values, commands
`tone`. The reason: `updateAlert` computes on every state what it would compute without the
branch that calls `tone`, that branch being behind a guard that has returned whenever
`isPlaying` is false. -/
theorem C23_alert_never_emits (st0 : AlertState) (nr f d lapse now pin : Nat)
    (clock : List Nat) (hn : nr ≠ 0) (h1 : MIN_FREQUENCY ≤ f) (h2 : f ≤ MAX_FREQUENCY)
    (hd : 0 < d) :
    playAlert st0 nr f d lapse now = (⟨true, 0, nr, now, f, d, lapse⟩, [])
    ∧ playBeep st0 nr f d lapse now = (⟨true, 0, nr, now, f, d, lapse⟩, [])
    ∧ tones (runUpdates (fun s t => updateAlert s t pin) (playAlert st0 nr f d lapse now).1
        clock).2 = []
    ∧ (∀ (st : AlertState) (t : Nat),
        updateAlert st t pin
          = (if st.isPlaying = false ∨ st.currentCount ≥ st.totalCount then
               ({ st with isPlaying := false }, [.noTone pin])
             else if sub32 t st.lastToneTime ≥ st.duration then
               ({ st with isPlaying := false, currentCount := (st.currentCount + 1) % 256,
                          lastToneTime := t }, [.noTone pin])
             else (st, []))) := by
  have hg : ¬ (nr = 0 ∨ f < MIN_FREQUENCY ∨ f > MAX_FREQUENCY ∨ d ≤ 0) := by
    simp only [MIN_FREQUENCY, MAX_FREQUENCY] at h1 h2 ⊢
    omega
  have hp : playAlert st0 nr f d lapse now = (⟨true, 0, nr, now, f, d, lapse⟩, []) := by
    simp only [playAlert, hg, if_false]
  exact ⟨hp, by simp only [playBeep, hp], runAlert_tones pin clock _,
    fun st t => updateAlert_eq st t pin⟩

/-- C23, witness: an alert of three pulses of 440 Hz, updated every 100 ms, commands `noTone`
only. -/
theorem C23_alert_never_emits_witness :
    (3 ≠ 0 ∧ MIN_FREQUENCY ≤ 440 ∧ 440 ≤ MAX_FREQUENCY ∧ 0 < 200)
    ∧ playAlert ⟨false, 0, 0, 0, 0, 0, 0⟩ 3 440 200 100 0 = (⟨true, 0, 3, 0, 440, 200, 100⟩, [])
    ∧ tones (runUpdates (fun s t => updateAlert s t 14)
        (playAlert ⟨false, 0, 0, 0, 0, 0, 0⟩ 3 440 200 100 0).1 [100, 200, 300, 400]).2 = []
    ∧ (runUpdates (fun s t => updateAlert s t 14)
        (playAlert ⟨false, 0, 0, 0, 0, 0, 0⟩ 3 440 200 100 0).1 [100, 200, 300, 400]).2
        = [.noTone 14, .noTone 14, .noTone 14] :=
  ⟨⟨by decide, by decide, by decide, by decide⟩,
   (C23_alert_never_emits ⟨false, 0, 0, 0, 0, 0, 0⟩ 3 440 200 100 0 14 [100, 200, 300, 400]
      (by decide) (by decide) (by decide) (by decide)).1,
   (C23_alert_never_emits ⟨false, 0, 0, 0, 0, 0, 0⟩ 3 440 200 100 0 14 [100, 200, 300, 400]
      (by decide) (by decide) (by decide) (by decide)).2.2.1,
   by decide⟩

/-- C24: let `playMelody` be given two arrays of exactly `L` elements, `L` not zero, and a
repeat count. The call and any number of `updateMelody` calls after it all return, so no
element was read at an index of `L` or more, nor from an array that was released; each call
of `playTone` they made was given the elements of the two arrays at one index below `L`; and
while the state reached plays, `currentNote` is at most `L`, `totalRepeats` is at least 1,
`currentRepeat` is below `totalRepeats`, and the length and the two arrays are those given. -/
theorem C24_melody_invariants (st0 : MelodyState) (m d : List Nat) (L r : Nat)
    (isDynamic : Bool) (now pin : Nat) (clock : List Nat)
    (hL : 1 ≤ L) (hm : m.length = L) (hd : d.length = L) (hr : r < 256) :
    ∃ st1 ev1 st2 ev2,
      playMelody st0 (some m) (some d) L isDynamic r now pin = .ok (st1, ev1)
      ∧ runMelody pin st1 clock = .ok (st2, ev2)
      ∧ (st2.isPlaying = true →
          st2.currentNote ≤ L ∧ 1 ≤ st2.totalRepeats ∧ st2.currentRepeat < st2.totalRepeats
          ∧ st2.length = L ∧ st2.melody = some m ∧ st2.durations = some d)
      ∧ (∀ f g : Nat, Event.call f g ∈ ev1 ++ ev2 →
          ∃ i, i < L ∧ m[i]? = some f ∧ d[i]? = some g) := by
  obtain ⟨st1, ev1, e1, r1, p1, -, -, -⟩ :=
    playMelody_reached st0 m d L r isDynamic now pin hL (by omega) (by omega) hr
  obtain ⟨st2, ev2, e2, r2, -, -, -⟩ :=
    runMelody_reached m d L (max r 1) isDynamic pin clock st1 r1
  refine ⟨st1, ev1, st2, ev2, e1, e2, fun hp => ?_, fun f g hc => ?_⟩
  · obtain ⟨-, -, -, q4, -, q6, q7, -, q9, q10, q11, -⟩ := r2
    obtain ⟨q12, q13⟩ := q11 hp
    rw [q7]
    exact ⟨q9, q4, q10, q6, q12, q13⟩
  · rcases List.mem_append.1 hc with h1 | h1
    · have hplay := e1
      unfold playMelody at hplay
      have hg : ¬ (L = 0 ∨ some m = none ∨ some d = none) := by simp; omega
      simp only [hg, if_false] at hplay
      split at hplay
      · simp at hplay
      · rename_i evs he
        simp only [Except.ok.injEq, Prod.mk.injEq] at hplay
        obtain ⟨-, rfl⟩ := hplay
        obtain ⟨q1, q2⟩ := startNote_call _ _ _ _ _ _ he f g h1
        exact ⟨0, by omega, readAt_some m 0 f q1, readAt_some d 0 g q2⟩
    · exact runMelody_calls m d L (max r 1) isDynamic pin clock st1 st2 ev2 r1 e2 f g h1

/-- C24, witness: two owned notes played twice; after four updates the second pass is at its
second note, and after seven the controller is idle, the arrays having been read at the
indices 0 and 1 only. -/
theorem C24_melody_invariants_witness :
    (1 ≤ 2 ∧ [440, 880].length = 2 ∧ [100, 100].length = 2 ∧ 2 < 256)
    ∧ (∃ st1 ev1 st2 ev2,
      playMelody ⟨false, 0, 0, none, none, 0, false, 0, 0⟩ (some [440, 880])
        (some [100, 100]) 2 true 2 0 14 = .ok (st1, ev1)
      ∧ runMelody 14 st1 [200, 400, 600, 800] = .ok (st2, ev2)
      ∧ (st2.isPlaying = true →
          st2.currentNote ≤ 2 ∧ 1 ≤ st2.totalRepeats ∧ st2.currentRepeat < st2.totalRepeats
          ∧ st2.length = 2 ∧ st2.melody = some [440, 880] ∧ st2.durations = some [100, 100])
      ∧ (∀ f g : Nat, Event.call f g ∈ ev1 ++ ev2 →
          ∃ i, i < 2 ∧ [440, 880][i]? = some f ∧ [100, 100][i]? = some g))
    ∧ (∃ st1 ev1 st2 ev2 st3 ev3,
      playMelody ⟨false, 0, 0, none, none, 0, false, 0, 0⟩ (some [440, 880])
        (some [100, 100]) 2 true 2 0 14 = .ok (st1, ev1)
      ∧ runMelody 14 st1 [200, 400, 600, 800] = .ok (st2, ev2)
      ∧ st2 = ⟨true, 1, 800, some [440, 880], some [100, 100], 2, true, 1, 2⟩
      ∧ runMelody 14 st2 [1000, 1200, 1400] = .ok (st3, ev3)
      ∧ st3.isPlaying = false ∧ st3.melody = none) :=
  ⟨⟨by decide, by decide, by decide, by decide⟩,
   C24_melody_invariants _ [440, 880] [100, 100] 2 2 true 0 14 [200, 400, 600, 800]
     (by decide) (by decide) (by decide) (by decide),
   ⟨_, _, _, _, _, _, rfl, rfl, rfl, rfl, rfl, rfl⟩⟩

end RTTTL
